import Mathlib

/-!
# hydro_source (MUSIC): ingestion of strings and partons, and the Gaussian-smeared sources

A shallow embedding of `src/hydro_source.cpp`.

* `double` is modelled by a linear ordered field `α` (exact arithmetic, no rounding). The functions
  of `<cmath>` the source calls are the fields of `cmath α`; `real_cmath` is their meaning over `ℝ`.
* A division whose divisor is zero has no value in exact arithmetic (IEEE gives `inf` or `NaN`):
  the evaluation functions return `Option`, and `none` stands for such a result. The two divisions
  of ingestion (lines 138-141) are written plainly: their divisors are non-zero whenever they are
  executed (`AMPT_row_divisors`).
* Input files are character streams; `getline` and the `eof()` test follow the stream semantics of
  the standard library. The formatted extraction `>>` of a `double` out of a line is the field
  `extract` of `iolib α`.
* A loop `while (!file.eof())` takes a fuel argument: `none` is returned when the fuel runs out.
* `exit(1)` is the `Except.error` result, carrying the diagnostic written to `cerr`.
-/

namespace MUSIC

/-! ## Data model -/

/-- Record `QCD_string` of `hydro_source.h`, with the fields the source reads and writes. -/
structure QCD_string (α : Type) where
  norm : α
  delta_E : α
  tau_form : α
  x_perp : α
  y_perp : α
  eta_s_left : α
  eta_s_right : α
  y_l : α
  y_r : α

/-- Record `parton` of `hydro_source.h`, with the fields the source reads and writes. -/
structure parton (α : Type) where
  tau : α
  x : α
  y : α
  eta_s : α
  rapidity : α
  mass : α
  px : α
  py : α
  E : α
  baryon_number : α

/-- The members of `InitData` that `hydro_source.cpp` reads through `DATA_ptr`. -/
structure InitData (α : Type) where
  Initial_profile : Int
  string_dump_mode : Int
  delta_x : α
  delta_y : α
  delta_eta : α
  delta_tau : α
  sFactor : α
  initName : String
  initName_rhob : String
  initName_AMPT : String

/-- The object `hydro_source`: its data members. -/
structure hydro_source (α : Type) where
  DATA_ptr : InitData α
  source_tau_max : α
  sigma_tau : α
  sigma_x : α
  sigma_eta : α
  volume : α
  string_dump_mode : Int
  QCD_strings_list : List (QCD_string α)
  parton_list : List (parton α)

/-- The array `double j_mu[4]`. -/
structure Vec4 (α : Type) where
  c0 : α
  c1 : α
  c2 : α
  c3 : α

/-- The functions and constants taken from `<cmath>` and `util.h`. -/
structure cmath (α : Type) where
  sqrt : α → α
  exp : α → α
  log : α → α
  cosh : α → α
  sinh : α → α
  M_PI : α
  hbarc : α

/-- What the source takes from the stream library and from uninitialised storage:
`extract text k` is the value that the `k`-th `>>` (counted from 0) applied to a fresh
`stringstream` over `text` stores in its operand, `none` when it stores nothing;
the other fields are the indeterminate contents of locals and members read before being set. -/
structure iolib (α : Type) where
  extract : List Char → Nat → Option α
  new_string : QCD_string α
  new_parton : parton α
  t_local : α
  z_local : α
  pz_local : α
  member : α
  member_mode : Int

/-! ## Input streams -/

/-- The state of a `std::ifstream`: the characters not yet extracted and two state bits. -/
structure ifstream where
  buf : List Char
  eofbit : Bool
  failbit : Bool

/-- Constructor `ifstream f(name)`: `files name` is the content of the file, `none` when it cannot be
opened, in which case `failbit` is set. -/
def ifstream.open (files : String → Option (List Char)) (name : String) : ifstream :=
  match files name with
  | some cs => { buf := cs, eofbit := false, failbit := false }
  | none => { buf := [], eofbit := false, failbit := true }

/-- Characters up to the first newline, and what follows that newline; the second component is `none`
when the end of the input comes before a newline. -/
def read_line : List Char → List Char × Option (List Char)
  | [] => ([], none)
  | c :: cs =>
    if c = '\n' then ([], some cs)
    else ((c :: (read_line cs).1), (read_line cs).2)

/-- Call `getline(f, text)`: when the stream is not good nothing is extracted, `text` is kept and
`failbit` is set; otherwise the line replaces `text`, the newline is consumed, `eofbit` is set when
the end of the file is reached before a newline, and `failbit` when nothing at all was extracted. -/
def getline (f : ifstream) (text : List Char) : ifstream × List Char :=
  if f.eofbit || f.failbit then ({ f with failbit := true }, text)
  else
    match read_line f.buf with
    | (line, some rest) => ({ buf := rest, eofbit := false, failbit := false }, line)
    | (line, none) => ({ buf := [], eofbit := true, failbit := line.isEmpty }, line)

/-- Predicate `isspace` in the C locale. -/
def isspace (c : Char) : Bool :=
  c = ' ' || c = '\t' || c = '\n' || c = '\x0b' || c = '\x0c' || c = '\r'

/-- Value of a run of decimal digits. -/
def digits_value (ds : List Char) : Nat :=
  ds.foldl (fun n c => 10 * n + (c.toNat - '0'.toNat)) 0

/-- Extraction `f >> n` of an `int`: leading white space is skipped, then an optional sign and the
longest run of digits are consumed. `failbit` is set when the stream was not good, when there is no
digit, or when the value does not fit an `int`; `eofbit` when the end of the file is reached. -/
def extract_int (f : ifstream) : ifstream :=
  if f.eofbit || f.failbit then { f with failbit := true }
  else
    match f.buf.dropWhile isspace with
    | [] => { buf := [], eofbit := true, failbit := true }
    | c :: cs =>
      let body := if c = '+' ∨ c = '-' then cs else c :: cs
      let ds := body.takeWhile Char.isDigit
      let rest := body.dropWhile Char.isDigit
      let bound : Nat := if c = '-' then 2147483648 else 2147483647
      { buf := rest, eofbit := rest.isEmpty,
        failbit := ds.isEmpty || decide (bound < digits_value ds) }

/-! ## Ingestion -/

section ingestion

variable {α : Type} [LinearOrderedField α]

/-- Lines 64-70: `QCD_string new_string; text_stream >> new_string.norm >> ... >> new_string.y_r`. -/
def decode_string (lib : iolib α) (text : List Char) : QCD_string α :=
  { norm := (lib.extract text 0).getD lib.new_string.norm
    delta_E := (lib.extract text 1).getD lib.new_string.delta_E
    tau_form := (lib.extract text 2).getD lib.new_string.tau_form
    x_perp := (lib.extract text 3).getD lib.new_string.x_perp
    y_perp := (lib.extract text 4).getD lib.new_string.y_perp
    eta_s_left := (lib.extract text 5).getD lib.new_string.eta_s_left
    eta_s_right := (lib.extract text 6).getD lib.new_string.eta_s_right
    y_l := (lib.extract text 7).getD lib.new_string.y_l
    y_r := (lib.extract text 8).getD lib.new_string.y_r }

/-- Lines 64-74: the body of the strings loop up to the next `getline`. -/
def string_line (lib : iolib α) (text : List Char) (hs : hydro_source α) : hydro_source α :=
  let new_string := decode_string lib text
  let hs1 := { hs with QCD_strings_list := hs.QCD_strings_list ++ [new_string] }
  if hs1.source_tau_max < new_string.tau_form then
    { hs1 with source_tau_max := new_string.tau_form }
  else hs1

/-- Lines 63-76: `while (!QCD_strings_file.eof())`. -/
def strings_loop (lib : iolib α) :
    Nat → ifstream → List Char → hydro_source α → Option (hydro_source α)
  | 0, _, _, _ => none
  | fuel + 1, f, text, hs =>
    if f.eofbit then some hs
    else strings_loop lib fuel (getline f text).1 (getline f text).2 (string_line lib text hs)

/-- Lines 91-96: `parton new_parton; text_stream >> new_parton.tau >> ... >> new_parton.rapidity;
new_parton.baryon_number = 1.0; parton_list.push_back(new_parton)`. -/
def parton_line (lib : iolib α) (text : List Char) (hs : hydro_source α) : hydro_source α :=
  let new_parton : parton α :=
    { lib.new_parton with
      tau := (lib.extract text 0).getD lib.new_parton.tau
      x := (lib.extract text 1).getD lib.new_parton.x
      y := (lib.extract text 2).getD lib.new_parton.y
      eta_s := (lib.extract text 3).getD lib.new_parton.eta_s
      rapidity := (lib.extract text 4).getD lib.new_parton.rapidity
      baryon_number := 1 }
  { hs with parton_list := hs.parton_list ++ [new_parton] }

/-- Lines 90-98: `while (!partons_file.eof())`. -/
def partons_loop (lib : iolib α) :
    Nat → ifstream → List Char → hydro_source α → Option (hydro_source α)
  | 0, _, _, _ => none
  | fuel + 1, f, text, hs =>
    if f.eofbit then some hs
    else partons_loop lib fuel (getline f text).1 (getline f text).2 (parton_line lib text hs)

/-- Lines 46-100. The first `getline` on a freshly opened stream clears `text_string`, so the second
file starts from an empty `text_string` as the first does. -/
def read_in_QCD_strings_and_partons (lib : iolib α) (files : String → Option (List Char))
    (fuel : Nat) (hs : hydro_source α) : Option (Except String (hydro_source α)) :=
  let QCD_strings_filename := hs.DATA_ptr.initName
  let partons_filename := hs.DATA_ptr.initName_rhob
  let QCD_strings_file := ifstream.open files QCD_strings_filename
  if QCD_strings_file.failbit then
    some (Except.error ("Error:hydro_source::read_in_QCD_strings_and_partons: "
      ++ "can not open QCD strings file: " ++ QCD_strings_filename))
  else
    let header := getline QCD_strings_file []
    let first := getline header.1 header.2
    match strings_loop lib fuel first.1 first.2 hs with
    | none => none
    | some hs1 =>
      let partons_file := ifstream.open files partons_filename
      if partons_file.failbit then
        some (Except.error ("Error:hydro_source::read_in_QCD_strings_and_partons: "
          ++ "can not open parton list file: " ++ partons_filename))
      else
        let header2 := getline partons_file []
        let first2 := getline header2.1 header2.2
        match partons_loop lib fuel first2.1 first2.2 hs1 with
        | none => none
        | some hs2 => some (Except.ok hs2)

/-- Lines 125-147: the body of the AMPT loop once the eight operands of `>>` hold
`t_local, x, y, z_local, E, px, py, pz_local` (`new_parton` carries `x, y, E, px, py`). -/
def AMPT_row (m : cmath α) (t_local z_local pz_local : α) (new_parton : parton α)
    (hs : hydro_source α) : hydro_source α :=
  if t_local > z_local then
    let mass_sq := new_parton.E * new_parton.E - new_parton.px * new_parton.px
      - new_parton.py * new_parton.py - pz_local * pz_local
    if mass_sq > 0 then
      let p : parton α :=
        { new_parton with
          mass := m.sqrt mass_sq
          tau := m.sqrt (t_local * t_local - z_local * z_local)
          eta_s := 1 / 2 * m.log ((t_local + z_local) / (t_local - z_local + 1 / 10 ^ 15))
          rapidity := 1 / 2 * m.log ((new_parton.E + pz_local) / (new_parton.E - pz_local)) }
      let hs1 := { hs with parton_list := hs.parton_list ++ [p] }
      if hs1.source_tau_max < p.tau then { hs1 with source_tau_max := p.tau } else hs1
    else hs
  else hs

/-- Lines 124-147: decoding of one line of the AMPT file followed by `AMPT_row`. -/
def AMPT_line (m : cmath α) (lib : iolib α) (text : List Char) (hs : hydro_source α) :
    hydro_source α :=
  let t_local := (lib.extract text 0).getD lib.t_local
  let z_local := (lib.extract text 3).getD lib.z_local
  let pz_local := (lib.extract text 7).getD lib.pz_local
  let new_parton : parton α :=
    { lib.new_parton with
      x := (lib.extract text 1).getD lib.new_parton.x
      y := (lib.extract text 2).getD lib.new_parton.y
      E := (lib.extract text 4).getD lib.new_parton.E
      px := (lib.extract text 5).getD lib.new_parton.px
      py := (lib.extract text 6).getD lib.new_parton.py }
  AMPT_row m t_local z_local pz_local new_parton hs

/-- Lines 123-149: `while (!AMPT_file.eof())`. -/
def AMPT_loop (m : cmath α) (lib : iolib α) :
    Nat → ifstream → List Char → hydro_source α → Option (hydro_source α)
  | 0, _, _, _ => none
  | fuel + 1, f, text, hs =>
    if f.eofbit then some hs
    else AMPT_loop m lib fuel (getline f text).1 (getline f text).2 (AMPT_line m lib text hs)

/-- Lines 104-155. -/
def read_in_AMPT_partons (m : cmath α) (lib : iolib α) (files : String → Option (List Char))
    (fuel : Nat) (hs : hydro_source α) : Option (Except String (hydro_source α)) :=
  let AMPT_filename := hs.DATA_ptr.initName_AMPT
  let AMPT_file := ifstream.open files AMPT_filename
  if AMPT_file.failbit then
    some (Except.error ("Error:hydro_source::read_in_AMPT_partons: "
      ++ "can not open the AMPT file: " ++ AMPT_filename))
  else
    let counted := extract_int AMPT_file
    let first := getline counted []
    match AMPT_loop m lib fuel first.1 first.2 hs with
    | none => none
    | some hs1 => some (Except.ok hs1)

/-- Lines 14-32: the constructor `hydro_source::hydro_source`. Members that the constructor does
not set keep the indeterminate values of `lib`; the two lists start empty. -/
def hydro_source.ctor (m : cmath α) (lib : iolib α)
    (files : String → Option (List Char)) (fuel : Nat) (DATA_in : InitData α) :
    Option (Except String (hydro_source α)) :=
  let this0 : hydro_source α :=
    { DATA_ptr := DATA_in, source_tau_max := 0, sigma_tau := lib.member, sigma_x := lib.member,
      sigma_eta := lib.member, volume := lib.member, string_dump_mode := lib.member_mode,
      QCD_strings_list := [], parton_list := [] }
  let step1 : Option (Except String (hydro_source α)) :=
    if DATA_in.Initial_profile = 12 then
      read_in_QCD_strings_and_partons lib files fuel
        { this0 with
          sigma_tau := 1 / 10, sigma_x := 1 / 2, sigma_eta := 1 / 2
          volume := DATA_in.delta_x * DATA_in.delta_y * DATA_in.delta_eta
          string_dump_mode := DATA_in.string_dump_mode }
    else some (Except.ok this0)
  match step1 with
  | none => none
  | some (Except.error e) => some (Except.error e)
  | some (Except.ok this1) =>
    if DATA_in.Initial_profile = 30 then
      read_in_AMPT_partons m lib files fuel
        { this1 with
          sigma_tau := 1 / 10, sigma_x := 1 / 2, sigma_eta := 1 / 2
          volume := DATA_in.delta_x * DATA_in.delta_y * DATA_in.delta_eta }
    else some (Except.ok this1)

end ingestion

/-! ## Evaluation -/

section evaluation

variable {α : Type} [LinearOrderedField α]

/-- Division of two `double`s in exact arithmetic: no value when the divisor is zero. -/
def fdiv (a b : α) : Option α :=
  if b = 0 then none else some (a / b)

/-- Lines 160-162: `j_mu` cleaned up. -/
def Vec4.zero : Vec4 α :=
  { c0 := 0, c1 := 0, c2 := 0, c3 := 0 }

/-- The four statements `j_mu[i] *= k`. -/
def Vec4.scale (j : Vec4 α) (k : α) : Vec4 α :=
  { c0 := j.c0 * k, c1 := j.c1 * k, c2 := j.c2 * k, c3 := j.c3 * k }

/-- Lines 172-221: the body of the loop over `QCD_strings_list`; a `continue` returns the
accumulator unchanged. -/
def energy_string_body (m : cmath α) (hs : hydro_source α) (tau x y eta_s : α)
    (j_mu : Vec4 α) (it : QCD_string α) : Option (Vec4 α) :=
  let n_sigma_skip : α := 5
  let tau_dis := tau - it.tau_form
  if |tau_dis| > n_sigma_skip * hs.sigma_tau then some j_mu
  else
    let x_dis := x - it.x_perp
    if |x_dis| > n_sigma_skip * hs.sigma_x then some j_mu
    else
      let y_dis := y - it.y_perp
      if |y_dis| > n_sigma_skip * hs.sigma_x then some j_mu
      else
        let eta_s_left := if hs.string_dump_mode = 2 then it.y_l else it.eta_s_left
        let eta_s_right := if hs.string_dump_mode = 2 then it.y_r else it.eta_s_right
        if eta_s < eta_s_left - n_sigma_skip * hs.sigma_eta
            ∨ eta_s > eta_s_right + n_sigma_skip * hs.sigma_eta then some j_mu
        else do
          let inv_tau ← fdiv 1 it.tau_form
          let arg_tau ← fdiv (-tau_dis * tau_dis) (hs.sigma_tau * hs.sigma_tau)
          let exp_tau := inv_tau * m.exp arg_tau
          let arg_xperp ← fdiv (-(x_dis * x_dis + y_dis * y_dis)) (hs.sigma_x * hs.sigma_x)
          let exp_xperp := m.exp arg_xperp
          let exp_eta_s1 ←
            if eta_s < eta_s_left then
              (fdiv (-((eta_s - eta_s_left) * (eta_s - eta_s_left)))
                (hs.sigma_eta * hs.sigma_eta)).map m.exp
            else some 1
          let exp_eta_s ←
            if eta_s > eta_s_right then
              (fdiv (-((eta_s - eta_s_right) * (eta_s - eta_s_right)))
                (hs.sigma_eta * hs.sigma_eta)).map m.exp
            else some exp_eta_s1
          let scale ← fdiv hs.DATA_ptr.sFactor m.hbarc
          let e_local := exp_tau * exp_xperp * exp_eta_s * scale
          let slope ← fdiv (it.y_r - it.y_l) (eta_s_right - eta_s_left)
          let y_interp := it.y_l + slope * (eta_s - eta_s_left)
          pure { c0 := j_mu.c0 + m.cosh (y_interp - eta_s) * e_local
                 c1 := j_mu.c1 + 0
                 c2 := j_mu.c2 + 0
                 c3 := j_mu.c3 + m.sinh (y_interp - eta_s) * e_local }

/-- Lines 244-274: the body of the loop over `parton_list` in the AMPT branch of
`get_hydro_energy_source`. -/
def energy_parton_body (m : cmath α) (hs : hydro_source α) (tau x y eta_s : α)
    (j_mu : Vec4 α) (it : parton α) : Option (Vec4 α) :=
  let n_sigma_skip : α := 5
  let tau_dis := tau - it.tau
  if |tau_dis| > n_sigma_skip * hs.sigma_tau then some j_mu
  else
    let x_dis := x - it.x
    if |x_dis| > n_sigma_skip * hs.sigma_x then some j_mu
    else
      let y_dis := y - it.y
      if |y_dis| > n_sigma_skip * hs.sigma_x then some j_mu
      else
        let eta_s_dis := eta_s - it.eta_s
        if |eta_s_dis| > n_sigma_skip * hs.sigma_eta then some j_mu
        else do
          let inv_tau ← fdiv 1 it.tau
          let arg_tau ← fdiv (-tau_dis * tau_dis) (hs.sigma_tau * hs.sigma_tau)
          let exp_tau := inv_tau * m.exp arg_tau
          let arg_xperp ← fdiv (-(x_dis * x_dis + y_dis * y_dis)) (hs.sigma_x * hs.sigma_x)
          let exp_xperp := m.exp arg_xperp
          let arg_eta_s ← fdiv (-eta_s_dis * eta_s_dis) (hs.sigma_eta * hs.sigma_eta)
          let exp_eta_s := m.exp arg_eta_s
          let f_smear := exp_tau * exp_xperp * exp_eta_s
          let p_perp_sq := it.px * it.px + it.py * it.py
          let m_perp := m.sqrt (it.mass * it.mass + p_perp_sq)
          pure { c0 := j_mu.c0 + m_perp * m.cosh (it.rapidity - eta_s) * f_smear
                 c1 := j_mu.c1 + it.px * f_smear
                 c2 := j_mu.c2 + it.py * f_smear
                 c3 := j_mu.c3 + m_perp * m.sinh (it.rapidity - eta_s) * f_smear }

/-- Lines 157-283. The argument `u_mu` is not read by the source. -/
def get_hydro_energy_source (m : cmath α) (hs : hydro_source α)
    (tau x y eta_s : α) (_u_mu : Vec4 α) : Option (Vec4 α) :=
  let j_mu : Vec4 α := Vec4.zero
  if hs.DATA_ptr.Initial_profile = 12 then
    let n_sigma_skip : α := 5
    let tau_dis_max := tau - hs.source_tau_max
    if tau_dis_max < n_sigma_skip * hs.sigma_tau then do
      let prefactor_prep ← fdiv 1 (m.M_PI * hs.sigma_x * hs.sigma_x)
      let prefactor_tau ← fdiv 1 (m.sqrt m.M_PI * hs.sigma_tau)
      let j_sum ← hs.QCD_strings_list.foldlM (energy_string_body m hs tau x y eta_s) j_mu
      pure (j_sum.scale (prefactor_tau * prefactor_prep))
    else some j_mu
  else if hs.DATA_ptr.Initial_profile = 30 then
    let n_sigma_skip : α := 5
    let tau_dis_max := tau - hs.source_tau_max
    if tau_dis_max < n_sigma_skip * hs.sigma_tau then do
      let prefactor_prep ← fdiv 1 (m.M_PI * hs.sigma_x * hs.sigma_x)
      let prefactor_tau ← fdiv 1 (m.sqrt m.M_PI * hs.sigma_tau)
      let prefactor_etas ← fdiv 1 (m.sqrt m.M_PI * hs.sigma_eta)
      let j_sum ← hs.parton_list.foldlM (energy_parton_body m hs tau x y eta_s) j_mu
      let norm ← fdiv hs.DATA_ptr.sFactor m.hbarc
      pure (j_sum.scale (norm * prefactor_tau * prefactor_prep * prefactor_etas))
    else some j_mu
  else some j_mu

/-- Lines 297-326 and 339-365: the body of the loop over `parton_list` in `get_hydro_rhob_source`;
`use_rapidity` is the test `string_dump_mode == 2` of line 312, which the AMPT branch does not
have. -/
def rhob_parton_body (m : cmath α) (hs : hydro_source α) (use_rapidity : Bool)
    (tau x y eta_s : α) (res : α) (it : parton α) : Option α :=
  let n_sigma_skip : α := 5
  let tau_dis := tau - it.tau
  if |tau_dis| > n_sigma_skip * hs.sigma_tau then some res
  else
    let x_dis := x - it.x
    if |x_dis| > n_sigma_skip * hs.sigma_x then some res
    else
      let y_dis := y - it.y
      if |y_dis| > n_sigma_skip * hs.sigma_x then some res
      else
        let eta_s_0 := if use_rapidity then it.rapidity else it.eta_s
        let eta_s_dis := eta_s - eta_s_0
        if |eta_s_dis| > n_sigma_skip * hs.sigma_eta then some res
        else do
          let inv_tau ← fdiv 1 it.tau
          let arg_tau ← fdiv (-tau_dis * tau_dis) (hs.sigma_tau * hs.sigma_tau)
          let exp_tau := inv_tau * m.exp arg_tau
          let arg_xperp ← fdiv (-(x_dis * x_dis + y_dis * y_dis)) (hs.sigma_x * hs.sigma_x)
          let exp_xperp := m.exp arg_xperp
          let arg_eta_s ← fdiv (-eta_s_dis * eta_s_dis) (hs.sigma_eta * hs.sigma_eta)
          let exp_eta_s := m.exp arg_eta_s
          pure (res + exp_tau * exp_xperp * exp_eta_s)

/-- Lines 285-372. -/
def get_hydro_rhob_source (m : cmath α) (hs : hydro_source α) (tau x y eta_s : α) : Option α :=
  let res : α := 0
  if hs.DATA_ptr.Initial_profile = 12 then
    let n_sigma_skip : α := 5
    let tau_dis_max := tau - hs.source_tau_max
    if tau_dis_max < n_sigma_skip * hs.sigma_tau then do
      let prefactor_prep ← fdiv 1 (m.M_PI * hs.sigma_x * hs.sigma_x)
      let prefactor_etas ← fdiv 1 (m.sqrt m.M_PI * hs.sigma_eta)
      let prefactor_tau ← fdiv 1 (m.sqrt m.M_PI * hs.sigma_tau)
      let res_sum ← hs.parton_list.foldlM
        (rhob_parton_body m hs (decide (hs.string_dump_mode = 2)) tau x y eta_s) res
      pure (res_sum * (prefactor_tau * prefactor_prep * prefactor_etas))
    else some res
  else if hs.DATA_ptr.Initial_profile = 30 then
    let n_sigma_skip : α := 5
    let tau_dis_max := tau - hs.source_tau_max
    if tau_dis_max < n_sigma_skip * hs.sigma_tau then do
      let prefactor_prep ← fdiv 1 (m.M_PI * hs.sigma_x * hs.sigma_x)
      let prefactor_etas ← fdiv 1 (m.sqrt m.M_PI * hs.sigma_eta)
      let prefactor_tau ← fdiv 1 (m.sqrt m.M_PI * hs.sigma_tau)
      let res_sum ← hs.parton_list.foldlM (rhob_parton_body m hs false tau x y eta_s) res
      pure (res_sum * (prefactor_tau * prefactor_prep * prefactor_etas))
    else some res
  else some res

/-- Conversion `static_cast<int>(q)`: truncation towards zero. -/
def trunc_int [FloorRing α] (q : α) : Int :=
  if 0 ≤ q then ⌊q⌋ else ⌈q⌉

/-- Lines 387-393: one step of the loop of `get_hydro_energy_source_before_tau`. -/
def energy_before_tau_step (m : cmath α) (hs : hydro_source α) (x y eta_s dtau : α)
    (u : Vec4 α) (j_mu : Vec4 α) (i : Nat) : Option (Vec4 α) := do
  let tau0 : α := 0
  let tau_local := tau0 + ((i : α) + 1 / 2) * dtau
  let j_mu_one_step ← get_hydro_energy_source m hs tau_local x y eta_s u
  pure { c0 := j_mu.c0 + tau_local * j_mu_one_step.c0 * dtau
         c1 := j_mu.c1 + tau_local * j_mu_one_step.c1 * dtau
         c2 := j_mu.c2 + tau_local * j_mu_one_step.c2 * dtau
         c3 := j_mu.c3 + tau_local * j_mu_one_step.c3 * dtau }

/-- Lines 374-400. -/
def get_hydro_energy_source_before_tau [FloorRing α] (m : cmath α) (hs : hydro_source α)
    (tau x y eta_s : α) : Option (Vec4 α) := do
  let u : Vec4 α := { c0 := 1, c1 := 0, c2 := 0, c3 := 0 }
  let tau0 : α := 0
  let dtau := hs.DATA_ptr.delta_tau
  let q ← fdiv (tau - tau0) dtau
  let n_tau_steps := trunc_int q
  let j_mu ← (List.range n_tau_steps.toNat).foldlM
    (energy_before_tau_step m hs x y eta_s dtau u) Vec4.zero
  let r0 ← fdiv j_mu.c0 tau
  let r1 ← fdiv j_mu.c1 tau
  let r2 ← fdiv j_mu.c2 tau
  let r3 ← fdiv j_mu.c3 tau
  pure { c0 := r0, c1 := r1, c2 := r2, c3 := r3 }

/-- Lines 409-412: one step of the loop of `get_hydro_rhob_source_before_tau`. -/
def rhob_before_tau_step (m : cmath α) (hs : hydro_source α) (x y eta_s dtau : α)
    (res : α) (i : Nat) : Option α := do
  let tau0 : α := 0
  let tau_local := tau0 + ((i : α) + 1 / 2) * dtau
  let res_local ← get_hydro_rhob_source m hs tau_local x y eta_s
  pure (res + tau_local * res_local * dtau)

/-- Lines 402-416. -/
def get_hydro_rhob_source_before_tau [FloorRing α] (m : cmath α) (hs : hydro_source α)
    (tau x y eta_s : α) : Option α := do
  let tau0 : α := 0
  let dtau := hs.DATA_ptr.delta_tau
  let q ← fdiv (tau - tau0) dtau
  let n_tau_steps := trunc_int q
  let res ← (List.range n_tau_steps.toNat).foldlM (rhob_before_tau_step m hs x y eta_s dtau) 0
  fdiv res tau

end evaluation

/-- The functions of `<cmath>` over the real numbers; `hbarc` is the constant of `util.h`. -/
noncomputable def real_cmath (hbarc : ℝ) : cmath ℝ :=
  { sqrt := Real.sqrt, exp := Real.exp, log := Real.log, cosh := Real.cosh, sinh := Real.sinh
    M_PI := Real.pi, hbarc := hbarc }

/-! ## The claims' formulas and the inputs used in the examples -/

section formulas

variable {α : Type} [LinearOrderedField α]

/-- Left end `L` of a string's interval: `eta_s_left`, or `y_l` when `string_dump_mode == 2`. -/
def string_left (hs : hydro_source α) (s : QCD_string α) : α :=
  if hs.string_dump_mode = 2 then s.y_l else s.eta_s_left

/-- Right end `R` of a string's interval: `eta_s_right`, or `y_r` when `string_dump_mode == 2`. -/
def string_right (hs : hydro_source α) (s : QCD_string α) : α :=
  if hs.string_dump_mode = 2 then s.y_r else s.eta_s_right

/-- The four box cutoffs of a string, as the claim words them. -/
def string_in_box (hs : hydro_source α) (tau x y eta_s : α) (s : QCD_string α) : Prop :=
  |tau - s.tau_form| ≤ 5 * hs.sigma_tau ∧ |x - s.x_perp| ≤ 5 * hs.sigma_x
    ∧ |y - s.y_perp| ≤ 5 * hs.sigma_x
    ∧ string_left hs s - 5 * hs.sigma_eta ≤ eta_s ∧ eta_s ≤ string_right hs s + 5 * hs.sigma_eta

instance (hs : hydro_source α) (tau x y eta_s : α) (s : QCD_string α) :
    Decidable (string_in_box hs tau x y eta_s s) := by
  unfold string_in_box; infer_instance

/-- The rapidity weight `w` of a string: 1 on `[L, R]`, and outside a Gaussian in the distance
to the nearest of the two ends. -/
def string_weight (m : cmath α) (hs : hydro_source α) (eta_s : α) (s : QCD_string α) : α :=
  if string_left hs s ≤ eta_s ∧ eta_s ≤ string_right hs s then 1
  else if eta_s < string_left hs s then
    m.exp (-(eta_s - string_left hs s) ^ 2 / hs.sigma_eta ^ 2)
  else m.exp (-(eta_s - string_right hs s) ^ 2 / hs.sigma_eta ^ 2)

/-- The energy scale `e_local` of a string at a point, as the claim words it. -/
def string_e_local (m : cmath α) (hs : hydro_source α) (tau x y eta_s : α)
    (s : QCD_string α) : α :=
  1 / s.tau_form * m.exp (-(tau - s.tau_form) ^ 2 / hs.sigma_tau ^ 2)
    * m.exp (-((x - s.x_perp) ^ 2 + (y - s.y_perp) ^ 2) / hs.sigma_x ^ 2)
    * string_weight m hs eta_s s * (hs.DATA_ptr.sFactor / m.hbarc)

/-- The interpolated rapidity `y_interp` of a string at `eta_s`, as the claim words it. -/
def string_y_interp (hs : hydro_source α) (eta_s : α) (s : QCD_string α) : α :=
  s.y_l + (s.y_r - s.y_l) / (string_right hs s - string_left hs s) * (eta_s - string_left hs s)

/-- The current of the string variant, as the claim words it: the two normalisation constants times
the sum over the strings inside their box. -/
def string_current (m : cmath α) (hs : hydro_source α) (tau x y eta_s : α) : Vec4 α :=
  let k := 1 / (m.M_PI * hs.sigma_x ^ 2) * (1 / (m.sqrt m.M_PI * hs.sigma_tau))
  let inside := hs.QCD_strings_list.filter (fun s => decide (string_in_box hs tau x y eta_s s))
  { c0 := k * (inside.map (fun s => string_e_local m hs tau x y eta_s s
            * m.cosh (string_y_interp hs eta_s s - eta_s))).sum
    c1 := 0
    c2 := 0
    c3 := k * (inside.map (fun s => string_e_local m hs tau x y eta_s s
            * m.sinh (string_y_interp hs eta_s s - eta_s))).sum }

/-- The four box cutoffs of a parton around the rapidity centre `c`, as the claims word them. -/
def parton_in_box (hs : hydro_source α) (c : parton α → α) (tau x y eta_s : α)
    (p : parton α) : Prop :=
  |tau - p.tau| ≤ 5 * hs.sigma_tau ∧ |x - p.x| ≤ 5 * hs.sigma_x ∧ |y - p.y| ≤ 5 * hs.sigma_x
    ∧ |eta_s - c p| ≤ 5 * hs.sigma_eta

instance (hs : hydro_source α) (c : parton α → α) (tau x y eta_s : α) (p : parton α) :
    Decidable (parton_in_box hs c tau x y eta_s p) := by
  unfold parton_in_box; infer_instance

/-- The smearing weight `f` of a parton around the rapidity centre `c`, as the claims word it. -/
def parton_smear (m : cmath α) (hs : hydro_source α) (c : parton α → α) (tau x y eta_s : α)
    (p : parton α) : α :=
  1 / p.tau * m.exp (-(tau - p.tau) ^ 2 / hs.sigma_tau ^ 2)
    * m.exp (-((x - p.x) ^ 2 + (y - p.y) ^ 2) / hs.sigma_x ^ 2)
    * m.exp (-(eta_s - c p) ^ 2 / hs.sigma_eta ^ 2)

/-- The transverse mass `m_perp` of a parton, as the claim words it. -/
def parton_m_perp (m : cmath α) (p : parton α) : α :=
  m.sqrt (p.mass ^ 2 + p.px ^ 2 + p.py ^ 2)

/-- The product of the prefactors of the parton variant's current. -/
def parton_prefactor (m : cmath α) (hs : hydro_source α) : α :=
  hs.DATA_ptr.sFactor / m.hbarc * (1 / (m.M_PI * hs.sigma_x ^ 2))
    * (1 / (m.sqrt m.M_PI * hs.sigma_tau)) * (1 / (m.sqrt m.M_PI * hs.sigma_eta))

/-- The current of the parton variant, as the claim words it: the prefactors times the sum over
the partons inside their box. -/
def parton_current (m : cmath α) (hs : hydro_source α) (tau x y eta_s : α) : Vec4 α :=
  let f := parton_smear m hs parton.eta_s tau x y eta_s
  let inside := hs.parton_list.filter
    (fun p => decide (parton_in_box hs parton.eta_s tau x y eta_s p))
  { c0 := parton_prefactor m hs
      * (inside.map (fun p => f p * (parton_m_perp m p * m.cosh (p.rapidity - eta_s)))).sum
    c1 := parton_prefactor m hs * (inside.map (fun p => f p * p.px)).sum
    c2 := parton_prefactor m hs * (inside.map (fun p => f p * p.py)).sum
    c3 := parton_prefactor m hs
      * (inside.map (fun p => f p * (parton_m_perp m p * m.sinh (p.rapidity - eta_s)))).sum }

/-- The same current with the prefactors multiplied into every term of the sum. -/
def parton_current_termwise (m : cmath α) (hs : hydro_source α) (tau x y eta_s : α) : Vec4 α :=
  let f := parton_smear m hs parton.eta_s tau x y eta_s
  let inside := hs.parton_list.filter
    (fun p => decide (parton_in_box hs parton.eta_s tau x y eta_s p))
  { c0 := (inside.map (fun p => parton_prefactor m hs
      * (f p * (parton_m_perp m p * m.cosh (p.rapidity - eta_s))))).sum
    c1 := (inside.map (fun p => parton_prefactor m hs * (f p * p.px))).sum
    c2 := (inside.map (fun p => parton_prefactor m hs * (f p * p.py))).sum
    c3 := (inside.map (fun p => parton_prefactor m hs
      * (f p * (parton_m_perp m p * m.sinh (p.rapidity - eta_s))))).sum }

/-- The rapidity centre of a parton in the baryon source: its `eta_s`, except in the string
variant with `string_dump_mode == 2`, where it is its momentum rapidity. -/
def rhob_centre (hs : hydro_source α) (p : parton α) : α :=
  if hs.DATA_ptr.Initial_profile = 12 ∧ hs.string_dump_mode = 2 then p.rapidity else p.eta_s

/-- The baryon source, as the claim words it: the three normalisation constants times the sum of
the Gaussian weights of the partons inside their box. -/
def rhob_density (m : cmath α) (hs : hydro_source α) (tau x y eta_s : α) : α :=
  1 / (m.sqrt m.M_PI * hs.sigma_tau) * (1 / (m.M_PI * hs.sigma_x ^ 2))
    * (1 / (m.sqrt m.M_PI * hs.sigma_eta))
    * ((hs.parton_list.filter
          (fun p => decide (parton_in_box hs (rhob_centre hs) tau x y eta_s p))).map
        (parton_smear m hs (rhob_centre hs) tau x y eta_s)).sum

/-- The common shape of the three reading loops: `while (!file.eof())` around a body that
processes `text_string` and is followed by `getline(file, text_string)`. -/
def eof_loop {σ : Type} (body : List Char → σ → σ) :
    Nat → ifstream → List Char → σ → Option σ
  | 0, _, _, _ => none
  | fuel + 1, f, text, s =>
    if f.eofbit then some s
    else eof_loop body fuel (getline f text).1 (getline f text).2 (body text s)

/-- The text of a sequence of lines, each ended by a newline. -/
def lines_text : List (List Char) → List Char
  | [] => []
  | l :: ls => l ++ '\n' :: lines_text ls

/-- A data line of the strings file holds the nine numbers of the record `r`: the nine
extractions of lines 66-70 store them. -/
def line_holds (lib : iolib α) (line : List Char) (r : QCD_string α) : Prop :=
  lib.extract line 0 = some r.norm ∧ lib.extract line 1 = some r.delta_E
    ∧ lib.extract line 2 = some r.tau_form ∧ lib.extract line 3 = some r.x_perp
    ∧ lib.extract line 4 = some r.y_perp ∧ lib.extract line 5 = some r.eta_s_left
    ∧ lib.extract line 6 = some r.eta_s_right ∧ lib.extract line 7 = some r.y_l
    ∧ lib.extract line 8 = some r.y_r

/-- The files that the active variant requires can be opened. -/
def required_files_open (DATA : InitData α) (files : String → Option (List Char)) : Prop :=
  (DATA.Initial_profile = 12 →
      (files DATA.initName).isSome = true ∧ (files DATA.initName_rhob).isSome = true)
    ∧ (DATA.Initial_profile = 30 → (files DATA.initName_AMPT).isSome = true)

/-- The AMPT file starts with its particle count: the extraction of line 119 does not fail, unless
by reaching the end of the file. -/
def count_token_ok (DATA : InitData α) (files : String → Option (List Char)) : Prop :=
  (extract_int (ifstream.open files DATA.initName_AMPT)).failbit = true →
    (extract_int (ifstream.open files DATA.initName_AMPT)).eofbit = true

/-- A stand-in for `>>` on the lines of the examples: the `k`-th blank-separated token, read as a
decimal integer with an optional minus sign. -/
def demo_extract (α : Type) [LinearOrderedField α] (text : List Char) (k : Nat) : Option α :=
  match ((text.splitOn ' ').filter (fun t => !t.isEmpty))[k]? with
  | some ('-' :: ds) => some (-(digits_value ds : α))
  | some ds => some (digits_value ds : α)
  | none => none

/-- The library of the examples: `demo_extract`, and zero for every indeterminate value. -/
def demo_lib (α : Type) [LinearOrderedField α] : iolib α :=
  { extract := demo_extract α
    new_string := { norm := 0, delta_E := 0, tau_form := 0, x_perp := 0, y_perp := 0,
                    eta_s_left := 0, eta_s_right := 0, y_l := 0, y_r := 0 }
    new_parton := { tau := 0, x := 0, y := 0, eta_s := 0, rapidity := 0, mass := 0, px := 0,
                    py := 0, E := 0, baryon_number := 0 }
    t_local := 0, z_local := 0, pz_local := 0, member := 0, member_mode := 0 }

/-- The files of the examples: a strings file with one string formed at proper time 1, a partons
file with one parton appearing at proper time 2, and an AMPT file with one row. -/
def demo_files (name : String) : Option (List Char) :=
  if name = "strings.dat" then some "header\n1 1 1 0 0 -1 1 -1 1\n".toList
  else if name = "partons.dat" then some "header\n2 0 0 0 0\n".toList
  else if name = "ampt.dat" then some "1\n2 0 0 1 2 0 0 1\n".toList
  else none

/-- A configuration with the given profile and dump mode, unit cells and `sFactor = 1`. -/
def demo_data (α : Type) [LinearOrderedField α] (profile mode : Int) : InitData α :=
  { Initial_profile := profile, string_dump_mode := mode, delta_x := 1, delta_y := 1,
    delta_eta := 1, delta_tau := 1, sFactor := 1, initName := "strings.dat",
    initName_rhob := "partons.dat", initName_AMPT := "ampt.dat" }

/-- A store with the constructor's widths holding the given strings and partons. -/
def demo_store (α : Type) [LinearOrderedField α] (profile mode : Int) (tau_max : α)
    (strings : List (QCD_string α)) (partons : List (parton α)) : hydro_source α :=
  { DATA_ptr := demo_data α profile mode, source_tau_max := tau_max, sigma_tau := 1 / 10,
    sigma_x := 1 / 2, sigma_eta := 1 / 2, volume := 1, string_dump_mode := mode,
    QCD_strings_list := strings, parton_list := partons }

/-- A string formed at proper time 1 at the origin, spanning `[-1, 1]` in both rapidities. -/
def demo_string (α : Type) [LinearOrderedField α] : QCD_string α :=
  { norm := 1, delta_E := 1, tau_form := 1, x_perp := 0, y_perp := 0, eta_s_left := -1,
    eta_s_right := 1, y_l := -1, y_r := 1 }

/-- A string of zero length: formed at proper time 1 at the origin, with
`eta_s_left = eta_s_right = 0` and `y_l = y_r = 0`. -/
def point_string (α : Type) [LinearOrderedField α] : QCD_string α :=
  { norm := 1, delta_E := 1, tau_form := 1, x_perp := 0, y_perp := 0, eta_s_left := 0,
    eta_s_right := 0, y_l := 0, y_r := 0 }

/-- A parton appearing at proper time 1 at the origin, at rest. -/
def demo_parton (α : Type) [LinearOrderedField α] : parton α :=
  { tau := 1, x := 0, y := 0, eta_s := 0, rapidity := 0, mass := 1, px := 0, py := 0, E := 1,
    baryon_number := 1 }

/-- One step of the loop of lines 408-413 around an arbitrary instantaneous scalar source. -/
def pre_integrator_step (source : α → Option α) (dtau : α) (res : α) (i : Nat) : Option α := do
  let tau0 : α := 0
  let tau_local := tau0 + ((i : α) + 1 / 2) * dtau
  let res_local ← source tau_local
  pure (res + tau_local * res_local * dtau)

/-- Lines 404-415 around an arbitrary instantaneous scalar source: the pre-integrator of
`get_hydro_rhob_source_before_tau` with the call of line 411 replaced by `source`. -/
def pre_integrator [FloorRing α] (source : α → Option α) (dtau tau : α) : Option α := do
  let tau0 : α := 0
  let q ← fdiv (tau - tau0) dtau
  let n_tau_steps := trunc_int q
  let res ← (List.range n_tau_steps.toNat).foldlM (pre_integrator_step source dtau) 0
  fdiv res tau

/-- One step of the loop of lines 386-394 around an arbitrary instantaneous vector source. -/
def pre_integrator_vec_step (source : α → Option (Vec4 α)) (dtau : α) (j_mu : Vec4 α)
    (i : Nat) : Option (Vec4 α) := do
  let tau0 : α := 0
  let tau_local := tau0 + ((i : α) + 1 / 2) * dtau
  let j_mu_one_step ← source tau_local
  pure { c0 := j_mu.c0 + tau_local * j_mu_one_step.c0 * dtau
         c1 := j_mu.c1 + tau_local * j_mu_one_step.c1 * dtau
         c2 := j_mu.c2 + tau_local * j_mu_one_step.c2 * dtau
         c3 := j_mu.c3 + tau_local * j_mu_one_step.c3 * dtau }

/-- Lines 376-397 around an arbitrary instantaneous vector source: the pre-integrator of
`get_hydro_energy_source_before_tau` with the call of line 390 replaced by `source`. -/
def pre_integrator_vec [FloorRing α] (source : α → Option (Vec4 α)) (dtau tau : α) :
    Option (Vec4 α) := do
  let tau0 : α := 0
  let q ← fdiv (tau - tau0) dtau
  let n_tau_steps := trunc_int q
  let j_mu ← (List.range n_tau_steps.toNat).foldlM (pre_integrator_vec_step source dtau)
    Vec4.zero
  let r0 ← fdiv j_mu.c0 tau
  let r1 ← fdiv j_mu.c1 tau
  let r2 ← fdiv j_mu.c2 tau
  let r3 ← fdiv j_mu.c3 tau
  pure { c0 := r0, c1 := r1, c2 := r2, c3 := r3 }

/-- Lines 201-211: the value of `exp_eta_s` for a string at `eta_s`, the two tests of the source
applied in their order. -/
def exp_eta_s_value (m : cmath α) (hs : hydro_source α) (eta_s : α) (s : QCD_string α) : α :=
  let first := if eta_s < string_left hs s then
      m.exp (-((eta_s - string_left hs s) * (eta_s - string_left hs s))
        / (hs.sigma_eta * hs.sigma_eta))
    else 1
  if eta_s > string_right hs s then
    m.exp (-((eta_s - string_right hs s) * (eta_s - string_right hs s))
      / (hs.sigma_eta * hs.sigma_eta))
  else first

/-- Lines 196-213: the value of `e_local` for a string at a point. -/
def e_local_value (m : cmath α) (hs : hydro_source α) (tau x y eta_s : α)
    (s : QCD_string α) : α :=
  1 / s.tau_form
      * m.exp (-(tau - s.tau_form) * (tau - s.tau_form) / (hs.sigma_tau * hs.sigma_tau))
    * m.exp (-((x - s.x_perp) * (x - s.x_perp) + (y - s.y_perp) * (y - s.y_perp))
        / (hs.sigma_x * hs.sigma_x))
    * exp_eta_s_value m hs eta_s s * (hs.DATA_ptr.sFactor / m.hbarc)

/-- Two strings agree on every field but `norm` and `delta_E`. -/
def same_geometry (s t : QCD_string α) : Prop :=
  s.tau_form = t.tau_form ∧ s.x_perp = t.x_perp ∧ s.y_perp = t.y_perp
    ∧ s.eta_s_left = t.eta_s_left ∧ s.eta_s_right = t.eta_s_right
    ∧ s.y_l = t.y_l ∧ s.y_r = t.y_r

/-- The value that lines 163-233 return for the string variant at a point that passes the global
cutoff: the sums of lines 218-221 over the strings inside their box, times
`prefactor_tau*prefactor_prep`. -/
def string_current_value (m : cmath α) (hs : hydro_source α) (tau x y eta_s : α) : Vec4 α :=
  let k := 1 / (m.sqrt m.M_PI * hs.sigma_tau) * (1 / (m.M_PI * hs.sigma_x * hs.sigma_x))
  let inside := hs.QCD_strings_list.filter (fun s => decide (string_in_box hs tau x y eta_s s))
  { c0 := (inside.map (fun s => m.cosh (string_y_interp hs eta_s s - eta_s)
            * e_local_value m hs tau x y eta_s s)).sum * k
    c1 := 0
    c2 := 0
    c3 := (inside.map (fun s => m.sinh (string_y_interp hs eta_s s - eta_s)
            * e_local_value m hs tau x y eta_s s)).sum * k }

/-- A string as `demo_string` with other values of `norm` and `delta_E`. -/
def demo_string_rescaled (α : Type) [LinearOrderedField α] : QCD_string α :=
  { norm := 7, delta_E := 3, tau_form := 1, x_perp := 0, y_perp := 0, eta_s_left := -1,
    eta_s_right := 1, y_l := -1, y_r := 1 }

/-- A string with `y_l = y_r = 0` spanning `[-1, 1]` in `eta_s`, formed at proper time 1 at the
origin. -/
def flat_string (α : Type) [LinearOrderedField α] : QCD_string α :=
  { norm := 1, delta_E := 1, tau_form := 1, x_perp := 0, y_perp := 0, eta_s_left := -1,
    eta_s_right := 1, y_l := 0, y_r := 0 }

/-- The parton that the partons file of the examples yields with `demo_lib`: proper time 2, at the
origin, baryon number 1. -/
def late_parton (α : Type) [LinearOrderedField α] : parton α :=
  { tau := 2, x := 0, y := 0, eta_s := 0, rapidity := 0, mass := 0, px := 0, py := 0, E := 0,
    baryon_number := 1 }

/-- Function `get_hydro_energy_source` with the global early-exit tests of lines 167 and 238
removed, everything else as in the source. -/
def get_hydro_energy_source_no_global (m : cmath α) (hs : hydro_source α)
    (tau x y eta_s : α) (_u_mu : Vec4 α) : Option (Vec4 α) :=
  let j_mu : Vec4 α := Vec4.zero
  if hs.DATA_ptr.Initial_profile = 12 then do
    let prefactor_prep ← fdiv 1 (m.M_PI * hs.sigma_x * hs.sigma_x)
    let prefactor_tau ← fdiv 1 (m.sqrt m.M_PI * hs.sigma_tau)
    let j_sum ← hs.QCD_strings_list.foldlM (energy_string_body m hs tau x y eta_s) j_mu
    pure (j_sum.scale (prefactor_tau * prefactor_prep))
  else if hs.DATA_ptr.Initial_profile = 30 then do
    let prefactor_prep ← fdiv 1 (m.M_PI * hs.sigma_x * hs.sigma_x)
    let prefactor_tau ← fdiv 1 (m.sqrt m.M_PI * hs.sigma_tau)
    let prefactor_etas ← fdiv 1 (m.sqrt m.M_PI * hs.sigma_eta)
    let j_sum ← hs.parton_list.foldlM (energy_parton_body m hs tau x y eta_s) j_mu
    let norm ← fdiv hs.DATA_ptr.sFactor m.hbarc
    pure (j_sum.scale (norm * prefactor_tau * prefactor_prep * prefactor_etas))
  else some j_mu

/-- Function `get_hydro_rhob_source` with the global early-exit tests of lines 291 and 333
removed, everything else as in the source. -/
def get_hydro_rhob_source_no_global (m : cmath α) (hs : hydro_source α)
    (tau x y eta_s : α) : Option α :=
  let res : α := 0
  if hs.DATA_ptr.Initial_profile = 12 then do
    let prefactor_prep ← fdiv 1 (m.M_PI * hs.sigma_x * hs.sigma_x)
    let prefactor_etas ← fdiv 1 (m.sqrt m.M_PI * hs.sigma_eta)
    let prefactor_tau ← fdiv 1 (m.sqrt m.M_PI * hs.sigma_tau)
    let res_sum ← hs.parton_list.foldlM
      (rhob_parton_body m hs (decide (hs.string_dump_mode = 2)) tau x y eta_s) res
    pure (res_sum * (prefactor_tau * prefactor_prep * prefactor_etas))
  else if hs.DATA_ptr.Initial_profile = 30 then do
    let prefactor_prep ← fdiv 1 (m.M_PI * hs.sigma_x * hs.sigma_x)
    let prefactor_etas ← fdiv 1 (m.sqrt m.M_PI * hs.sigma_eta)
    let prefactor_tau ← fdiv 1 (m.sqrt m.M_PI * hs.sigma_tau)
    let res_sum ← hs.parton_list.foldlM (rhob_parton_body m hs false tau x y eta_s) res
    pure (res_sum * (prefactor_tau * prefactor_prep * prefactor_etas))
  else some res

/-- The baryon source as a real number: the value `get_hydro_rhob_source` returns, 0 where it
has none. -/
noncomputable def rhob_value (hbarc : ℝ) (hs : hydro_source ℝ) (tau x y eta_s : ℝ) : ℝ :=
  (get_hydro_rhob_source (real_cmath hbarc) hs tau x y eta_s).getD 0

/-- The integral of the baryon source over all `x`, all `y` and all `eta_s` at a fixed `tau`. -/
noncomputable def rhob_integral (hbarc : ℝ) (hs : hydro_source ℝ) (tau : ℝ) : ℝ :=
  ∫ x : ℝ, ∫ y : ℝ, ∫ eta_s : ℝ, rhob_value hbarc hs tau x y eta_s

/-- The Gaussian kernel of width `sigma`, cut where the source cuts it: at distance 5 widths. -/
noncomputable def cut_gaussian (sigma u : ℝ) : ℝ :=
  if |u| ≤ 5 * sigma then Real.exp (-u ^ 2 / sigma ^ 2) else 0

/-- The integral of the cut Gaussian kernel of width `sigma`. -/
noncomputable def cut_gaussian_mass (sigma : ℝ) : ℝ :=
  ∫ u : ℝ, cut_gaussian sigma u

/-- The normalised proper-time weight of a parton at `tau`, as the claim words it. -/
noncomputable def proper_time_weight (hs : hydro_source ℝ) (p : parton ℝ) (tau : ℝ) : ℝ :=
  1 / (Real.sqrt Real.pi * hs.sigma_tau) * (1 / p.tau)
    * Real.exp (-(tau - p.tau) ^ 2 / hs.sigma_tau ^ 2)

/-- The four strict inequalities that place a point in the interior of a string's box. -/
def string_strictly_in_box (hs : hydro_source α) (tau x y eta_s : α) (s : QCD_string α) : Prop :=
  |tau - s.tau_form| < 5 * hs.sigma_tau ∧ |x - s.x_perp| < 5 * hs.sigma_x
    ∧ |y - s.y_perp| < 5 * hs.sigma_x
    ∧ string_left hs s - 5 * hs.sigma_eta < eta_s ∧ eta_s < string_right hs s + 5 * hs.sigma_eta

/-- The four strict inequalities that place a point in the interior of a parton's box. -/
def parton_strictly_in_box (hs : hydro_source α) (c : parton α → α) (tau x y eta_s : α)
    (p : parton α) : Prop :=
  |tau - p.tau| < 5 * hs.sigma_tau ∧ |x - p.x| < 5 * hs.sigma_x ∧ |y - p.y| < 5 * hs.sigma_x
    ∧ |eta_s - c p| < 5 * hs.sigma_eta

/-- A point on a face of a string's box cutoff: in the box, not in its interior. -/
def on_string_box_face (hs : hydro_source α) (tau x y eta_s : α) (s : QCD_string α) : Prop :=
  string_in_box hs tau x y eta_s s ∧ ¬ string_strictly_in_box hs tau x y eta_s s

/-- A point on a face of a parton's box cutoff: in the box, not in its interior. -/
def on_parton_box_face (hs : hydro_source α) (c : parton α → α) (tau x y eta_s : α)
    (p : parton α) : Prop :=
  parton_in_box hs c tau x y eta_s p ∧ ¬ parton_strictly_in_box hs c tau x y eta_s p

/-- A point on a cutoff boundary of the energy source, as the claim words it: on the global
proper-time cutoff, or on a face of the box cutoff of some emitter of the store's variant. -/
def on_cutoff_boundary (hs : hydro_source α) (tau x y eta_s : α) : Prop :=
  tau - hs.source_tau_max = 5 * hs.sigma_tau
    ∨ (hs.DATA_ptr.Initial_profile = 12
        ∧ ∃ s ∈ hs.QCD_strings_list, on_string_box_face hs tau x y eta_s s)
    ∨ (hs.DATA_ptr.Initial_profile = 30
        ∧ ∃ p ∈ hs.parton_list, on_parton_box_face hs parton.eta_s tau x y eta_s p)

/-- The map `(tau, x, y, eta_s) -> j_mu` of a fixed store over the reals: the four components
that `get_hydro_energy_source` returns, the zero vector where it has no value. -/
noncomputable def energy_current_map (hbarc : ℝ) (hs : hydro_source ℝ) (u_mu : Vec4 ℝ)
    (q : ℝ × ℝ × ℝ × ℝ) : ℝ × ℝ × ℝ × ℝ :=
  let j := (get_hydro_energy_source (real_cmath hbarc) hs q.1 q.2.1 q.2.2.1 q.2.2.2 u_mu).getD
    Vec4.zero
  (j.c0, j.c1, j.c2, j.c3)

/-- The files of the examples with the final newline of the strings file removed: its second
line, the only record, is not terminated. -/
def unterminated_files (name : String) : Option (List Char) :=
  if name = "strings.dat" then some "header\n1 1 1 0 0 -1 1 -1 1".toList
  else if name = "partons.dat" then some "header\n2 0 0 0 0\n".toList
  else if name = "ampt.dat" then some "1\n2 0 0 1 2 0 0 1\n".toList
  else none

/-- The files of the examples with an AMPT file that starts with a word where the particle count
should be. -/
def bad_count_files (name : String) : Option (List Char) :=
  if name = "strings.dat" then some "header\n1 1 1 0 0 -1 1 -1 1\n".toList
  else if name = "partons.dat" then some "header\n2 0 0 0 0\n".toList
  else if name = "ampt.dat" then some "npartons\n2 0 0 1 2 0 0 1\n".toList
  else none

/-- A string whose interval is reversed: `eta_s_left = 1` above `eta_s_right = -1`. -/
def reversed_string (α : Type) [LinearOrderedField α] : QCD_string α :=
  { norm := 1, delta_E := 1, tau_form := 1, x_perp := 0, y_perp := 0, eta_s_left := 1,
    eta_s_right := -1, y_l := -1, y_r := 1 }

end formulas

/-! ## Theorems -/

section cutoff

variable {α : Type} [LinearOrderedField α]

/-- C1: in every store (both emitter variants), at a point with
`tau - source_tau_max >= 5*sigma_tau` the energy source is the zero vector and the baryon source
is 0, whatever the emitter lists hold. -/
theorem global_cutoff_gives_zero (m : cmath α) (hs : hydro_source α) (tau x y eta_s : α)
    (u_mu : Vec4 α) (h : tau - hs.source_tau_max ≥ 5 * hs.sigma_tau) :
    get_hydro_energy_source m hs tau x y eta_s u_mu = some Vec4.zero
      ∧ get_hydro_rhob_source m hs tau x y eta_s = some 0 := by
  have h1 : ¬ (tau - hs.source_tau_max < 5 * hs.sigma_tau) := not_lt.mpr h
  constructor
  · unfold get_hydro_energy_source
    simp only [h1, if_false]
    split_ifs <;> rfl
  · unfold get_hydro_rhob_source
    simp only [h1, if_false]
    split_ifs <;> rfl

/-- C1 at a point: string store with `source_tau_max = 1`, evaluated at `tau = 2`. -/
theorem global_cutoff_gives_zero_witness :
    (2 : ℝ) - (demo_store ℝ 12 0 1 [demo_string ℝ] [demo_parton ℝ]).source_tau_max
        ≥ 5 * (demo_store ℝ 12 0 1 [demo_string ℝ] [demo_parton ℝ]).sigma_tau
      ∧ get_hydro_energy_source (real_cmath (19733 / 100000))
          (demo_store ℝ 12 0 1 [demo_string ℝ] [demo_parton ℝ]) 2 0 0 0 Vec4.zero
          = some Vec4.zero
      ∧ get_hydro_rhob_source (real_cmath (19733 / 100000))
          (demo_store ℝ 12 0 1 [demo_string ℝ] [demo_parton ℝ]) 2 0 0 0 = some 0 :=
  ⟨by norm_num [demo_store],
   global_cutoff_gives_zero _ _ 2 0 0 0 _ (by norm_num [demo_store])⟩

end cutoff


section strings

variable {α : Type} [LinearOrderedField α]

theorem fdiv_of_ne (a : α) {b : α} (h : b ≠ 0) : fdiv a b = some (a / b) := by
  simp [fdiv, h]

/-- A loop whose body always yields a value is a plain fold. -/
theorem foldlM_eq_foldl {β γ : Type} (f : γ → β → Option γ) (g : γ → β → γ) :
    ∀ (l : List β) (c : γ), (∀ b ∈ l, ∀ c, f c b = some (g c b)) →
      l.foldlM f c = some (l.foldl g c)
  | [], c, _ => rfl
  | b :: l, c, h => by
    rw [List.foldlM_cons, h b (List.mem_cons_self b l) c, List.foldl_cons]
    exact foldlM_eq_foldl f g l (g c b) (fun b1 hb1 => h b1 (List.mem_cons_of_mem b hb1))

/-- A fold that adds four terms per selected element accumulates the four sums. -/
theorem foldl_vec4_sum {β : Type} (p : β → Prop) [DecidablePred p] (t0 t1 t2 t3 : β → α) :
    ∀ (l : List β) (j : Vec4 α),
      l.foldl (fun j b => if p b then
          ({ c0 := j.c0 + t0 b, c1 := j.c1 + t1 b, c2 := j.c2 + t2 b, c3 := j.c3 + t3 b } : Vec4 α)
        else j) j
      = { c0 := j.c0 + ((l.filter (fun b => decide (p b))).map t0).sum
          c1 := j.c1 + ((l.filter (fun b => decide (p b))).map t1).sum
          c2 := j.c2 + ((l.filter (fun b => decide (p b))).map t2).sum
          c3 := j.c3 + ((l.filter (fun b => decide (p b))).map t3).sum }
  | [], j => by simp
  | b :: l, j => by
    rw [List.foldl_cons, foldl_vec4_sum p t0 t1 t2 t3 l]
    by_cases hb : p b
    · simp [hb, List.filter_cons, add_assoc]
    · simp [hb, List.filter_cons]

/-- What one string adds to the accumulator, as the claim words it. -/
theorem energy_string_body_eq (m : cmath α) (hs : hydro_source α) (tau x y eta_s : α)
    (j : Vec4 α) (s : QCD_string α) (h1 : hs.sigma_tau ≠ 0) (h2 : hs.sigma_x ≠ 0)
    (h3 : hs.sigma_eta ≠ 0) (hb : m.hbarc ≠ 0) (ht : s.tau_form ≠ 0)
    (hLR : string_left hs s < string_right hs s) :
    energy_string_body m hs tau x y eta_s j s
      = some (if string_in_box hs tau x y eta_s s then
          { c0 := j.c0 + string_e_local m hs tau x y eta_s s
              * m.cosh (string_y_interp hs eta_s s - eta_s)
            c1 := j.c1 + 0
            c2 := j.c2 + 0
            c3 := j.c3 + string_e_local m hs tau x y eta_s s
              * m.sinh (string_y_interp hs eta_s s - eta_s) }
        else j) := by
  unfold energy_string_body string_in_box
  by_cases c1 : |tau - s.tau_form| > 5 * hs.sigma_tau
  · simp [c1, not_le.mpr c1]
  by_cases c2 : |x - s.x_perp| > 5 * hs.sigma_x
  · simp [c1, c2, not_le.mpr c2]
  by_cases c3 : |y - s.y_perp| > 5 * hs.sigma_x
  · simp [c1, c2, c3, not_le.mpr c3]
  have hL : (if hs.string_dump_mode = 2 then s.y_l else s.eta_s_left) = string_left hs s := rfl
  have hR : (if hs.string_dump_mode = 2 then s.y_r else s.eta_s_right) = string_right hs s := rfl
  simp only [hL, hR, c1, c2, c3, if_false]
  by_cases c4 : eta_s < string_left hs s - 5 * hs.sigma_eta
      ∨ eta_s > string_right hs s + 5 * hs.sigma_eta
  · have : ¬ (string_left hs s - 5 * hs.sigma_eta ≤ eta_s
        ∧ eta_s ≤ string_right hs s + 5 * hs.sigma_eta) := by
      rintro ⟨a, b⟩
      rcases c4 with c | c
      · exact absurd a (not_le.mpr c)
      · exact absurd b (not_le.mpr c)
    simp only [c4, if_true]
    rw [if_neg (fun hh => this hh.2.2.2)]
  have c4a : string_left hs s - 5 * hs.sigma_eta ≤ eta_s := by
    by_contra hh; exact c4 (Or.inl (not_le.mp hh))
  have c4b : eta_s ≤ string_right hs s + 5 * hs.sigma_eta := by
    by_contra hh; exact c4 (Or.inr (not_le.mp hh))
  have hbox : |tau - s.tau_form| ≤ 5 * hs.sigma_tau ∧ |x - s.x_perp| ≤ 5 * hs.sigma_x
      ∧ |y - s.y_perp| ≤ 5 * hs.sigma_x
      ∧ string_left hs s - 5 * hs.sigma_eta ≤ eta_s
      ∧ eta_s ≤ string_right hs s + 5 * hs.sigma_eta :=
    ⟨not_lt.mp c1, not_lt.mp c2, not_lt.mp c3, c4a, c4b⟩
  have hd : string_right hs s - string_left hs s ≠ 0 := (sub_pos.mpr hLR).ne.symm
  simp only [c4, if_false, hbox, if_true, and_self, fdiv_of_ne _ ht, fdiv_of_ne _ (mul_ne_zero h1 h1),
    fdiv_of_ne _ (mul_ne_zero h2 h2), fdiv_of_ne _ (mul_ne_zero h3 h3), fdiv_of_ne _ hb,
    fdiv_of_ne _ hd]
  have e1 : -(tau - s.tau_form) * (tau - s.tau_form) / (hs.sigma_tau * hs.sigma_tau)
      = -(tau - s.tau_form) ^ 2 / hs.sigma_tau ^ 2 := by ring
  have e2 : -((x - s.x_perp) * (x - s.x_perp) + (y - s.y_perp) * (y - s.y_perp))
      / (hs.sigma_x * hs.sigma_x)
      = -((x - s.x_perp) ^ 2 + (y - s.y_perp) ^ 2) / hs.sigma_x ^ 2 := by ring
  have e3 : ∀ c : α, -((eta_s - c) * (eta_s - c)) / (hs.sigma_eta * hs.sigma_eta)
      = -(eta_s - c) ^ 2 / hs.sigma_eta ^ 2 := fun c => by ring
  simp only [e1, e2, e3, Option.some_bind, Option.bind_eq_bind, Option.map_some']
  unfold string_e_local string_weight string_y_interp
  by_cases a : eta_s < string_left hs s
  · have b : ¬ eta_s > string_right hs s := not_lt.mpr (le_of_lt (lt_trans a hLR))
    have ab : ¬ (string_left hs s ≤ eta_s ∧ eta_s ≤ string_right hs s) :=
      fun hh => absurd hh.1 (not_le.mpr a)
    simp only [a, b, ab, if_true, if_false, Option.some_bind, pure]
    congr 2 <;> ring
  · by_cases b : eta_s > string_right hs s
    · have ab : ¬ (string_left hs s ≤ eta_s ∧ eta_s ≤ string_right hs s) :=
        fun hh => absurd hh.2 (not_le.mpr b)
      simp only [a, b, ab, if_true, if_false, Option.some_bind, pure]
      congr 2 <;> ring
    · have ab : string_left hs s ≤ eta_s ∧ eta_s ≤ string_right hs s :=
        ⟨not_lt.mp a, not_lt.mp b⟩
      simp only [a, b, ab, if_true, if_false, and_self, Option.some_bind, pure]
      congr 2 <;> ring

/-- C2: string variant, every string with `L < R` and a non-zero formation time, widths and `hbarc`
non-zero, point not beyond the global cutoff: the energy source is
`1/(pi*sigma_x^2) * 1/(sqrt(pi)*sigma_tau)` times the sum, over the strings inside their four box
cutoffs, of `e_local * (cosh(y_interp - eta_s), 0, 0, sinh(y_interp - eta_s))`; the rapidity
normalisation does not appear and the transverse components are 0. -/
theorem string_variant_current (hbarc : ℝ) (hs : hydro_source ℝ) (tau x y eta_s : ℝ)
    (u_mu : Vec4 ℝ) (hprofile : hs.DATA_ptr.Initial_profile = 12)
    (hwidths : 0 < hs.sigma_tau ∧ 0 < hs.sigma_x ∧ 0 < hs.sigma_eta) (hbar : hbarc ≠ 0)
    (hstrings : ∀ s ∈ hs.QCD_strings_list,
      s.tau_form ≠ 0 ∧ string_left hs s < string_right hs s)
    (hcut : tau - hs.source_tau_max < 5 * hs.sigma_tau) :
    get_hydro_energy_source (real_cmath hbarc) hs tau x y eta_s u_mu
        = some (string_current (real_cmath hbarc) hs tau x y eta_s)
      ∧ (string_current (real_cmath hbarc) hs tau x y eta_s).c1 = 0
      ∧ (string_current (real_cmath hbarc) hs tau x y eta_s).c2 = 0 := by
  obtain ⟨w1, w2, w3⟩ := hwidths
  refine ⟨?_, rfl, rfl⟩
  have hpi : Real.pi * hs.sigma_x * hs.sigma_x ≠ 0 :=
    mul_ne_zero (mul_ne_zero Real.pi_ne_zero w2.ne.symm) w2.ne.symm
  have hsq : Real.sqrt Real.pi * hs.sigma_tau ≠ 0 :=
    mul_ne_zero (Real.sqrt_pos.mpr Real.pi_pos).ne.symm w1.ne.symm
  have hfold := foldlM_eq_foldl (energy_string_body (real_cmath hbarc) hs tau x y eta_s) _
    hs.QCD_strings_list Vec4.zero
    (fun s hmem j => energy_string_body_eq (real_cmath hbarc) hs tau x y eta_s j s
      w1.ne.symm w2.ne.symm w3.ne.symm hbar (hstrings s hmem).1 (hstrings s hmem).2)
  unfold get_hydro_energy_source
  simp only [hprofile, hcut, if_true]
  have hM : (real_cmath hbarc).M_PI = Real.pi := rfl
  have hS : (real_cmath hbarc).sqrt = Real.sqrt := rfl
  rw [hM, hS, fdiv_of_ne _ hpi, fdiv_of_ne _ hsq, hfold, foldl_vec4_sum]
  simp only [Option.some_bind, Option.bind_eq_bind, pure, Vec4.scale, Vec4.zero, string_current,
    zero_add, List.map_const', List.sum_replicate, smul_zero, zero_mul, hM, hS]
  congr 2 <;> ring

/-- C2 at a point: one string on `[-1, 1]` formed at proper time 1, evaluated at its centre. -/
theorem string_variant_current_witness :
    get_hydro_energy_source (real_cmath (19733 / 100000))
        (demo_store ℝ 12 0 1 [demo_string ℝ] []) 1 0 0 0 Vec4.zero
        = some (string_current (real_cmath (19733 / 100000))
            (demo_store ℝ 12 0 1 [demo_string ℝ] []) 1 0 0 0)
      ∧ (string_current (real_cmath (19733 / 100000))
            (demo_store ℝ 12 0 1 [demo_string ℝ] []) 1 0 0 0).c1 = 0
      ∧ (string_current (real_cmath (19733 / 100000))
            (demo_store ℝ 12 0 1 [demo_string ℝ] []) 1 0 0 0).c2 = 0 :=
  string_variant_current (19733 / 100000) (demo_store ℝ 12 0 1 [demo_string ℝ] []) 1 0 0 0
    Vec4.zero rfl (by norm_num [demo_store]) (by norm_num)
    (by simp [demo_store, demo_string, string_left, string_right])
    (by norm_num [demo_store])

end strings

section partons

variable {α : Type} [LinearOrderedField α]

/-- A fold that adds one term per selected element accumulates the sum. -/
theorem foldl_sum {β : Type} (p : β → Prop) [DecidablePred p] (t : β → α) :
    ∀ (l : List β) (r : α),
      l.foldl (fun r b => if p b then r + t b else r) r
        = r + ((l.filter (fun b => decide (p b))).map t).sum
  | [], r => by simp
  | b :: l, r => by
    rw [List.foldl_cons, foldl_sum p t l]
    by_cases hb : p b
    · simp [hb, List.filter_cons, add_assoc]
    · simp [hb, List.filter_cons]

/-- What one parton adds to the accumulator of the energy source, as the claim words it. -/
theorem energy_parton_body_eq (m : cmath α) (hs : hydro_source α) (tau x y eta_s : α)
    (j : Vec4 α) (p : parton α) (h1 : hs.sigma_tau ≠ 0) (h2 : hs.sigma_x ≠ 0)
    (h3 : hs.sigma_eta ≠ 0) (ht : p.tau ≠ 0) :
    energy_parton_body m hs tau x y eta_s j p
      = some (if parton_in_box hs parton.eta_s tau x y eta_s p then
          { c0 := j.c0 + parton_smear m hs parton.eta_s tau x y eta_s p
              * (parton_m_perp m p * m.cosh (p.rapidity - eta_s))
            c1 := j.c1 + parton_smear m hs parton.eta_s tau x y eta_s p * p.px
            c2 := j.c2 + parton_smear m hs parton.eta_s tau x y eta_s p * p.py
            c3 := j.c3 + parton_smear m hs parton.eta_s tau x y eta_s p
              * (parton_m_perp m p * m.sinh (p.rapidity - eta_s)) }
        else j) := by
  unfold energy_parton_body parton_in_box
  by_cases c1 : |tau - p.tau| > 5 * hs.sigma_tau
  · simp [c1, not_le.mpr c1]
  by_cases c2 : |x - p.x| > 5 * hs.sigma_x
  · simp [c1, c2, not_le.mpr c2]
  by_cases c3 : |y - p.y| > 5 * hs.sigma_x
  · simp [c1, c2, c3, not_le.mpr c3]
  by_cases c4 : |eta_s - p.eta_s| > 5 * hs.sigma_eta
  · simp [c1, c2, c3, c4, not_le.mpr c4]
  have hbox : |tau - p.tau| ≤ 5 * hs.sigma_tau ∧ |x - p.x| ≤ 5 * hs.sigma_x
      ∧ |y - p.y| ≤ 5 * hs.sigma_x ∧ |eta_s - p.eta_s| ≤ 5 * hs.sigma_eta :=
    ⟨not_lt.mp c1, not_lt.mp c2, not_lt.mp c3, not_lt.mp c4⟩
  have e1 : -(tau - p.tau) * (tau - p.tau) / (hs.sigma_tau * hs.sigma_tau)
      = -(tau - p.tau) ^ 2 / hs.sigma_tau ^ 2 := by ring
  have e2 : -((x - p.x) * (x - p.x) + (y - p.y) * (y - p.y)) / (hs.sigma_x * hs.sigma_x)
      = -((x - p.x) ^ 2 + (y - p.y) ^ 2) / hs.sigma_x ^ 2 := by ring
  have e3 : -(eta_s - p.eta_s) * (eta_s - p.eta_s) / (hs.sigma_eta * hs.sigma_eta)
      = -(eta_s - p.eta_s) ^ 2 / hs.sigma_eta ^ 2 := by ring
  have e4 : p.mass * p.mass + (p.px * p.px + p.py * p.py)
      = p.mass ^ 2 + p.px ^ 2 + p.py ^ 2 := by ring
  simp only [c1, c2, c3, c4, if_false, hbox, if_true, and_self, fdiv_of_ne _ ht,
    fdiv_of_ne _ (mul_ne_zero h1 h1), fdiv_of_ne _ (mul_ne_zero h2 h2),
    fdiv_of_ne _ (mul_ne_zero h3 h3), e1, e2, e3, e4, Option.some_bind, Option.bind_eq_bind, pure]
  unfold parton_smear parton_m_perp
  congr 2 <;> ring

/-- What one parton adds to the accumulator of the baryon source, as the claim words it. -/
theorem rhob_parton_body_eq (m : cmath α) (hs : hydro_source α) (b : Bool)
    (tau x y eta_s res : α) (p : parton α) (h1 : hs.sigma_tau ≠ 0) (h2 : hs.sigma_x ≠ 0)
    (h3 : hs.sigma_eta ≠ 0) (ht : p.tau ≠ 0) :
    rhob_parton_body m hs b tau x y eta_s res p
      = some (if parton_in_box hs (fun q => if b then q.rapidity else q.eta_s) tau x y eta_s p
          then res + parton_smear m hs (fun q => if b then q.rapidity else q.eta_s) tau x y eta_s p
          else res) := by
  unfold rhob_parton_body parton_in_box
  by_cases c1 : |tau - p.tau| > 5 * hs.sigma_tau
  · simp [c1, not_le.mpr c1]
  by_cases c2 : |x - p.x| > 5 * hs.sigma_x
  · simp [c1, c2, not_le.mpr c2]
  by_cases c3 : |y - p.y| > 5 * hs.sigma_x
  · simp [c1, c2, c3, not_le.mpr c3]
  by_cases c4 : |eta_s - (if b then p.rapidity else p.eta_s)| > 5 * hs.sigma_eta
  · simp only [c1, c2, c3, c4, if_true, if_false]
    rw [if_neg (fun hh => absurd hh.2.2.2 (not_le.mpr c4))]
  have hbox : |tau - p.tau| ≤ 5 * hs.sigma_tau ∧ |x - p.x| ≤ 5 * hs.sigma_x
      ∧ |y - p.y| ≤ 5 * hs.sigma_x
      ∧ |eta_s - (if b then p.rapidity else p.eta_s)| ≤ 5 * hs.sigma_eta :=
    ⟨not_lt.mp c1, not_lt.mp c2, not_lt.mp c3, not_lt.mp c4⟩
  have e1 : -(tau - p.tau) * (tau - p.tau) / (hs.sigma_tau * hs.sigma_tau)
      = -(tau - p.tau) ^ 2 / hs.sigma_tau ^ 2 := by ring
  have e2 : -((x - p.x) * (x - p.x) + (y - p.y) * (y - p.y)) / (hs.sigma_x * hs.sigma_x)
      = -((x - p.x) ^ 2 + (y - p.y) ^ 2) / hs.sigma_x ^ 2 := by ring
  have e3 : ∀ c : α, -(eta_s - c) * (eta_s - c) / (hs.sigma_eta * hs.sigma_eta)
      = -(eta_s - c) ^ 2 / hs.sigma_eta ^ 2 := fun c => by ring
  simp only [c1, c2, c3, c4, if_false, fdiv_of_ne _ ht,
    fdiv_of_ne _ (mul_ne_zero h1 h1), fdiv_of_ne _ (mul_ne_zero h2 h2),
    fdiv_of_ne _ (mul_ne_zero h3 h3), e1, e2, e3, Option.some_bind, Option.bind_eq_bind, pure]
  rw [if_pos hbox]
  rfl

/-- C3: parton variant, every parton with a non-zero proper time, widths and `hbarc` non-zero,
point not beyond the global cutoff: the energy source is
`(sFactor/hbarc) * 1/(pi*sigma_x^2) * 1/(sqrt(pi)*sigma_tau) * 1/(sqrt(pi)*sigma_eta)` times the sum,
over the partons inside their four box cutoffs, of
`f * (m_perp*cosh(rapidity - eta_s), px, py, m_perp*sinh(rapidity - eta_s))`; and multiplying the
sum by the prefactors once gives the same value as multiplying every term by them. -/
theorem parton_variant_current (hbarc : ℝ) (hs : hydro_source ℝ) (tau x y eta_s : ℝ)
    (u_mu : Vec4 ℝ) (hprofile : hs.DATA_ptr.Initial_profile = 30)
    (hwidths : 0 < hs.sigma_tau ∧ 0 < hs.sigma_x ∧ 0 < hs.sigma_eta) (hbar : hbarc ≠ 0)
    (hpartons : ∀ p ∈ hs.parton_list, p.tau ≠ 0)
    (hcut : tau - hs.source_tau_max < 5 * hs.sigma_tau) :
    get_hydro_energy_source (real_cmath hbarc) hs tau x y eta_s u_mu
        = some (parton_current (real_cmath hbarc) hs tau x y eta_s)
      ∧ parton_current (real_cmath hbarc) hs tau x y eta_s
        = parton_current_termwise (real_cmath hbarc) hs tau x y eta_s := by
  obtain ⟨w1, w2, w3⟩ := hwidths
  constructor
  · have hpi : Real.pi * hs.sigma_x * hs.sigma_x ≠ 0 :=
      mul_ne_zero (mul_ne_zero Real.pi_ne_zero w2.ne.symm) w2.ne.symm
    have hsq : Real.sqrt Real.pi * hs.sigma_tau ≠ 0 :=
      mul_ne_zero (Real.sqrt_pos.mpr Real.pi_pos).ne.symm w1.ne.symm
    have hse : Real.sqrt Real.pi * hs.sigma_eta ≠ 0 :=
      mul_ne_zero (Real.sqrt_pos.mpr Real.pi_pos).ne.symm w3.ne.symm
    have hfold := foldlM_eq_foldl (energy_parton_body (real_cmath hbarc) hs tau x y eta_s) _
      hs.parton_list Vec4.zero
      (fun p hmem j => energy_parton_body_eq (real_cmath hbarc) hs tau x y eta_s j p
        w1.ne.symm w2.ne.symm w3.ne.symm (hpartons p hmem))
    unfold get_hydro_energy_source
    have h12 : ¬ ((30 : Int) = 12) := by decide
    simp only [hprofile, h12, hcut, if_true, if_false]
    have hM : (real_cmath hbarc).M_PI = Real.pi := rfl
    have hS : (real_cmath hbarc).sqrt = Real.sqrt := rfl
    have hB : (real_cmath hbarc).hbarc = hbarc := rfl
    rw [hM, hS, hB, fdiv_of_ne _ hpi, fdiv_of_ne _ hsq, fdiv_of_ne _ hse, hfold, foldl_vec4_sum,
      fdiv_of_ne _ hbar]
    simp only [Option.some_bind, Option.bind_eq_bind, pure, Vec4.scale, Vec4.zero,
      parton_current, parton_prefactor, zero_add, hM, hS, hB]
    congr 2 <;> ring
  · simp only [parton_current, parton_current_termwise, List.sum_map_mul_left]

/-- C3 at a point: one parton appearing at proper time 1 at the origin, evaluated there. -/
theorem parton_variant_current_witness :
    get_hydro_energy_source (real_cmath (19733 / 100000))
        (demo_store ℝ 30 0 1 [] [demo_parton ℝ]) 1 0 0 0 Vec4.zero
        = some (parton_current (real_cmath (19733 / 100000))
            (demo_store ℝ 30 0 1 [] [demo_parton ℝ]) 1 0 0 0)
      ∧ parton_current (real_cmath (19733 / 100000))
            (demo_store ℝ 30 0 1 [] [demo_parton ℝ]) 1 0 0 0
        = parton_current_termwise (real_cmath (19733 / 100000))
            (demo_store ℝ 30 0 1 [] [demo_parton ℝ]) 1 0 0 0 :=
  parton_variant_current (19733 / 100000) (demo_store ℝ 30 0 1 [] [demo_parton ℝ]) 1 0 0 0
    Vec4.zero rfl (by norm_num [demo_store]) (by norm_num)
    (by simp [demo_store, demo_parton]) (by norm_num [demo_store])

/-- C4: either variant, every parton with a non-zero proper time, widths non-zero, point not beyond
the global cutoff: the baryon source is
`1/(sqrt(pi)*sigma_tau) * 1/(pi*sigma_x^2) * 1/(sqrt(pi)*sigma_eta)` times the sum, over the
partons inside their four box cutoffs, of the product of the three Gaussian weights; the rapidity
weight is a pure Gaussian around the parton's `eta_s`, or around its momentum rapidity in the
string variant with `string_dump_mode == 2`, and the same centre is used in the cutoff. -/
theorem baryon_source_formula (hbarc : ℝ) (hs : hydro_source ℝ) (tau x y eta_s : ℝ)
    (hprofile : hs.DATA_ptr.Initial_profile = 12 ∨ hs.DATA_ptr.Initial_profile = 30)
    (hwidths : 0 < hs.sigma_tau ∧ 0 < hs.sigma_x ∧ 0 < hs.sigma_eta)
    (hpartons : ∀ p ∈ hs.parton_list, p.tau ≠ 0)
    (hcut : tau - hs.source_tau_max < 5 * hs.sigma_tau) :
    get_hydro_rhob_source (real_cmath hbarc) hs tau x y eta_s
      = some (rhob_density (real_cmath hbarc) hs tau x y eta_s) := by
  obtain ⟨w1, w2, w3⟩ := hwidths
  have hpi : Real.pi * hs.sigma_x * hs.sigma_x ≠ 0 :=
    mul_ne_zero (mul_ne_zero Real.pi_ne_zero w2.ne.symm) w2.ne.symm
  have hsq : Real.sqrt Real.pi * hs.sigma_tau ≠ 0 :=
    mul_ne_zero (Real.sqrt_pos.mpr Real.pi_pos).ne.symm w1.ne.symm
  have hse : Real.sqrt Real.pi * hs.sigma_eta ≠ 0 :=
    mul_ne_zero (Real.sqrt_pos.mpr Real.pi_pos).ne.symm w3.ne.symm
  have hM : (real_cmath hbarc).M_PI = Real.pi := rfl
  have hS : (real_cmath hbarc).sqrt = Real.sqrt := rfl
  have hfold : ∀ b : Bool,
      hs.parton_list.foldlM (rhob_parton_body (real_cmath hbarc) hs b tau x y eta_s) 0
        = some (0 + ((hs.parton_list.filter (fun p => decide (parton_in_box hs
              (fun q => if b then q.rapidity else q.eta_s) tau x y eta_s p))).map
            (parton_smear (real_cmath hbarc) hs
              (fun q => if b then q.rapidity else q.eta_s) tau x y eta_s)).sum) := by
    intro b
    rw [foldlM_eq_foldl (rhob_parton_body (real_cmath hbarc) hs b tau x y eta_s) _
      hs.parton_list 0
      (fun p hmem r => rhob_parton_body_eq (real_cmath hbarc) hs b tau x y eta_s r p
        w1.ne.symm w2.ne.symm w3.ne.symm (hpartons p hmem)), foldl_sum]
  unfold get_hydro_rhob_source
  rcases hprofile with h | h
  · have hc : rhob_centre hs
        = fun q => if decide (hs.string_dump_mode = 2) then q.rapidity else q.eta_s := by
      funext q
      simp [rhob_centre, h]
    simp only [h, hcut, if_true]
    rw [hM, hS, fdiv_of_ne _ hpi, fdiv_of_ne _ hsq, fdiv_of_ne _ hse, hfold]
    simp only [Option.some_bind, Option.bind_eq_bind, pure, rhob_density, hc, zero_add, hM, hS]
    congr 1; ring
  · have hc : rhob_centre hs = fun q => if false then q.rapidity else q.eta_s := by
      funext q
      simp [rhob_centre, h]
    have h12 : ¬ ((30 : Int) = 12) := by decide
    simp only [h, h12, hcut, if_true, if_false]
    rw [hM, hS, fdiv_of_ne _ hpi, fdiv_of_ne _ hsq, fdiv_of_ne _ hse, hfold]
    simp only [Option.some_bind, Option.bind_eq_bind, pure, rhob_density, hc, zero_add, hM, hS]
    congr 1; ring

/-- C4 at a point: string variant with `string_dump_mode == 2`, one parton, evaluated at it. -/
theorem baryon_source_formula_witness :
    get_hydro_rhob_source (real_cmath (19733 / 100000))
        (demo_store ℝ 12 2 1 [] [demo_parton ℝ]) 1 0 0 0
      = some (rhob_density (real_cmath (19733 / 100000))
          (demo_store ℝ 12 2 1 [] [demo_parton ℝ]) 1 0 0 0) :=
  baryon_source_formula (19733 / 100000) (demo_store ℝ 12 2 1 [] [demo_parton ℝ]) 1 0 0 0
    (Or.inl rfl) (by norm_num [demo_store]) (by simp [demo_store, demo_parton])
    (by norm_num [demo_store])

end partons

section streams

theorem read_line_of_line (line rest : List Char) (h : '\n' ∉ line) :
    read_line (line ++ '\n' :: rest) = (line, some rest) := by
  induction line with
  | nil => simp [read_line]
  | cons c cs ih =>
    have hc : c ≠ '\n' := fun e => h (by simp [e])
    have hcs : '\n' ∉ cs := fun e => h (List.mem_cons_of_mem c e)
    simp [read_line, hc, ih hcs]

theorem read_line_shorter : ∀ (l : List Char) (rest : List Char),
    (read_line l).2 = some rest → rest.length < l.length
  | [], rest, h => by simp [read_line] at h
  | c :: cs, rest, h => by
    by_cases hc : c = '\n'
    · simp [read_line, hc] at h
      simp [← h]
    · simp only [read_line, hc, if_false] at h
      have := read_line_shorter cs rest h
      simp only [List.length_cons]
      omega

theorem getline_of_line (line rest text : List Char) (h : '\n' ∉ line) :
    getline { buf := line ++ '\n' :: rest, eofbit := false, failbit := false } text
      = ({ buf := rest, eofbit := false, failbit := false }, line) := by
  simp [getline, read_line_of_line line rest h]

theorem getline_at_end (text : List Char) :
    getline { buf := [], eofbit := false, failbit := false } text
      = ({ buf := [], eofbit := true, failbit := true }, []) := by
  simp [getline, read_line]

theorem strings_loop_eq {α : Type} [LinearOrderedField α] (lib : iolib α) :
    ∀ (fuel : Nat) (f : ifstream) (text : List Char) (hs : hydro_source α),
      strings_loop lib fuel f text hs = eof_loop (string_line lib) fuel f text hs
  | 0, _, _, _ => rfl
  | fuel + 1, f, text, hs => by
    simp only [strings_loop, eof_loop, strings_loop_eq lib fuel]

theorem partons_loop_eq {α : Type} [LinearOrderedField α] (lib : iolib α) :
    ∀ (fuel : Nat) (f : ifstream) (text : List Char) (hs : hydro_source α),
      partons_loop lib fuel f text hs = eof_loop (parton_line lib) fuel f text hs
  | 0, _, _, _ => rfl
  | fuel + 1, f, text, hs => by
    simp only [partons_loop, eof_loop, partons_loop_eq lib fuel]

theorem AMPT_loop_eq {α : Type} [LinearOrderedField α] (m : cmath α) (lib : iolib α) :
    ∀ (fuel : Nat) (f : ifstream) (text : List Char) (hs : hydro_source α),
      AMPT_loop m lib fuel f text hs = eof_loop (AMPT_line m lib) fuel f text hs
  | 0, _, _, _ => rfl
  | fuel + 1, f, text, hs => by
    simp only [AMPT_loop, eof_loop, AMPT_loop_eq m lib fuel]

/-- On a stream holding newline-terminated lines the loop processes the pending line and then
every line of the stream, in order. -/
theorem eof_loop_lines {σ : Type} (body : List Char → σ → σ) :
    ∀ (rest : List (List Char)) (cur : List Char) (s : σ) (fuel : Nat),
      (∀ l ∈ rest, '\n' ∉ l) → rest.length + 2 ≤ fuel →
      eof_loop body fuel { buf := lines_text rest, eofbit := false, failbit := false } cur s
        = some ((cur :: rest).foldl (fun s l => body l s) s)
  | [], cur, s, fuel, _, hf => by
    obtain ⟨k, rfl⟩ : ∃ k, fuel = k + 2 := ⟨fuel - 2, by simp at hf; omega⟩
    simp [eof_loop, lines_text, getline_at_end]
  | l :: ls, cur, s, fuel, hl, hf => by
    obtain ⟨k, rfl⟩ : ∃ k, fuel = k + 1 := ⟨fuel - 1, by simp at hf; omega⟩
    have h1 : '\n' ∉ l := hl l (List.mem_cons_self l ls)
    have h2 : ∀ l1 ∈ ls, '\n' ∉ l1 := fun l1 h => hl l1 (List.mem_cons_of_mem l h)
    have h3 : ls.length + 2 ≤ k := by simp at hf; omega
    simp only [eof_loop, lines_text, getline_of_line l _ cur h1, Bool.false_eq_true, if_false]
    rw [eof_loop_lines body ls l (body cur s) k h2 h3]
    simp

/-- After the header line of a file of newline-terminated lines, the second `getline` and the
loop process every data line, in order. -/
theorem eof_loop_file {σ : Type} (body : List Char → σ → σ) (header : List Char)
    (lines : List (List Char)) (s : σ) (fuel : Nat) (f : ifstream)
    (hfile : f = { buf := header ++ '\n' :: lines_text lines, eofbit := false, failbit := false })
    (hh : '\n' ∉ header) (hl : ∀ l ∈ lines, '\n' ∉ l) (hf : lines.length + 1 ≤ fuel) :
    eof_loop body fuel (getline (getline f []).1 (getline f []).2).1
        (getline (getline f []).1 (getline f []).2).2 s
      = some (lines.foldl (fun s l => body l s) s) := by
  subst hfile
  rw [getline_of_line header _ [] hh]
  cases lines with
  | nil =>
    obtain ⟨k, rfl⟩ : ∃ k, fuel = k + 1 := ⟨fuel - 1, by simp at hf; omega⟩
    simp [lines_text, getline_at_end, eof_loop]
  | cons l ls =>
    have h1 : '\n' ∉ l := hl l (List.mem_cons_self l ls)
    have h2 : ∀ l1 ∈ ls, '\n' ∉ l1 := fun l1 h => hl l1 (List.mem_cons_of_mem l h)
    simp only [lines_text, getline_of_line l _ header h1]
    exact eof_loop_lines body ls l s fuel h2 (by simpa using hf)

/-- The loop ends on every stream whose `failbit` is set only together with `eofbit`. -/
theorem eof_loop_terminates {σ : Type} (body : List Char → σ → σ) :
    ∀ (n : Nat) (f : ifstream) (text : List Char) (s : σ) (fuel : Nat),
      f.buf.length ≤ n → (f.failbit = true → f.eofbit = true) → n + 2 ≤ fuel →
      ∃ r, eof_loop body fuel f text s = some r
  | n, f, text, s, fuel, hn, hbits, hf => by
    obtain ⟨k, rfl⟩ : ∃ k, fuel = k + 1 := ⟨fuel - 1, by omega⟩
    by_cases he : f.eofbit = true
    · exact ⟨s, by simp [eof_loop, he]⟩
    · have hfail : f.failbit = false := by
        cases hfb : f.failbit with
        | false => rfl
        | true => exact absurd (hbits hfb) he
      have he2 : f.eofbit = false := by simpa using he
      simp only [eof_loop, he2, Bool.false_eq_true, if_false]
      cases hr : read_line f.buf with
      | mk line rest =>
        cases rest with
        | none =>
          obtain ⟨k2, rfl⟩ : ∃ k2, k = k2 + 1 := ⟨k - 1, by omega⟩
          refine ⟨body text s, ?_⟩
          simp [getline, he2, hfail, hr, eof_loop]
        | some rest =>
          have hlen : rest.length < f.buf.length := read_line_shorter f.buf rest (by simp [hr])
          obtain ⟨n2, rfl⟩ : ∃ n2, n = n2 + 1 := ⟨n - 1, by omega⟩
          have hg : getline f text = ({ buf := rest, eofbit := false, failbit := false }, line) := by
            simp [getline, he2, hfail, hr]
          rw [hg]
          exact eof_loop_terminates body n2 _ line (body text s) k (by simp; omega)
            (by simp) (by omega)

/-- The loop never ends on a stream whose `failbit` is set while `eofbit` is not. -/
theorem eof_loop_diverges {σ : Type} (body : List Char → σ → σ) :
    ∀ (fuel : Nat) (f : ifstream) (text : List Char) (s : σ),
      f.failbit = true → f.eofbit = false → eof_loop body fuel f text s = none
  | 0, _, _, _, _, _ => rfl
  | fuel + 1, f, text, s, hfail, he => by
    have hg : getline f text = ({ f with failbit := true }, text) := by
      simp [getline, he, hfail]
    simp only [eof_loop, he, Bool.false_eq_true, if_false, hg]
    exact eof_loop_diverges body fuel _ text (body text s) rfl (by simp [he])

end streams

section reading

theorem decode_string_of_holds {α : Type} (lib : iolib α) (line : List Char) (r : QCD_string α)
    (h : line_holds lib line r) : decode_string lib line = r := by
  obtain ⟨h0, h1, h2, h3, h4, h5, h6, h7, h8⟩ := h
  simp [decode_string, h0, h1, h2, h3, h4, h5, h6, h7, h8]

variable {α : Type} [LinearOrderedField α]

/-- What the loop returns agrees with its start on everything the body leaves alone. -/
theorem eof_loop_preserves {σ β : Type} (body : List Char → σ → σ) (proj : σ → β)
    (h : ∀ t s, proj (body t s) = proj s) :
    ∀ (fuel : Nat) (f : ifstream) (text : List Char) (s r : σ),
      eof_loop body fuel f text s = some r → proj r = proj s
  | 0, _, _, _, _, hr => by simp [eof_loop] at hr
  | fuel + 1, f, text, s, r, hr => by
    by_cases he : f.eofbit = true
    · simp [eof_loop, he] at hr
      rw [← hr]
    · simp only [eof_loop, he, if_false] at hr
      rw [eof_loop_preserves body proj h fuel _ _ _ r hr, h]

theorem getline_bits (f : ifstream) (text : List Char)
    (h : f.failbit = true → f.eofbit = true) :
    ((getline f text).1.failbit = true → (getline f text).1.eofbit = true)
      ∧ (getline f text).1.buf.length ≤ f.buf.length := by
  by_cases he : f.eofbit = true
  · simp [getline, he]
  · have hfail : f.failbit = false := by
      cases hfb : f.failbit with
      | false => rfl
      | true => exact absurd (h hfb) he
    have he2 : f.eofbit = false := by simpa using he
    cases hr : read_line f.buf with
    | mk line rest =>
      cases rest with
      | none => simp [getline, he2, hfail, hr]
      | some rest =>
        have hlen : rest.length < f.buf.length := read_line_shorter f.buf rest (by simp [hr])
        simp [getline, he2, hfail, hr]
        omega

theorem string_line_list (lib : iolib α) (t : List Char) (s : hydro_source α) :
    (string_line lib t s).QCD_strings_list = s.QCD_strings_list ++ [decode_string lib t] := by
  unfold string_line
  simp only
  split_ifs <;> rfl

theorem string_line_max (lib : iolib α) (t : List Char) (s : hydro_source α) :
    (string_line lib t s).source_tau_max
      = max s.source_tau_max (decode_string lib t).tau_form := by
  unfold string_line
  simp only
  split_ifs with hlt
  · exact (max_eq_right (le_of_lt hlt)).symm
  · exact (max_eq_left (not_lt.mp hlt)).symm

/-- The strings loop body run over a sequence of lines: the records are appended in order, the
partons and the configuration are untouched, and `source_tau_max` becomes the larger of its old
value and the largest `tau_form`. -/
theorem foldl_string_line (lib : iolib α) :
    ∀ (lines : List (List Char)) (records : List (QCD_string α)) (hs : hydro_source α),
      List.Forall₂ (line_holds lib) lines records →
      (lines.foldl (fun s l => string_line lib l s) hs).QCD_strings_list
          = hs.QCD_strings_list ++ records
        ∧ (∀ q ∈ records,
            q.tau_form ≤ (lines.foldl (fun s l => string_line lib l s) hs).source_tau_max)
        ∧ hs.source_tau_max ≤ (lines.foldl (fun s l => string_line lib l s) hs).source_tau_max
        ∧ ((lines.foldl (fun s l => string_line lib l s) hs).source_tau_max = hs.source_tau_max
            ∨ ∃ q ∈ records,
              q.tau_form = (lines.foldl (fun s l => string_line lib l s) hs).source_tau_max)
  | [], records, hs, h => by
    cases h
    simp
  | l :: ls, records, hs, h => by
    cases h with
    | cons hl hrest =>
      rename_i r rs
      have hd := decode_string_of_holds lib l r hl
      obtain ⟨i1, i2, i3, i4⟩ := foldl_string_line lib ls rs (string_line lib l hs) hrest
      have hlist : (string_line lib l hs).QCD_strings_list = hs.QCD_strings_list ++ [r] := by
        rw [string_line_list, hd]
      have hmax : (string_line lib l hs).source_tau_max = max hs.source_tau_max r.tau_form := by
        rw [string_line_max, hd]
      rw [List.foldl_cons]
      refine ⟨by rw [i1, hlist]; simp, ?_, ?_, ?_⟩
      · intro q hq
        rcases List.mem_cons.mp hq with rfl | hq
        · exact le_trans (by rw [hmax]; exact le_max_right _ _) i3
        · exact i2 q hq
      · exact le_trans (by rw [hmax]; exact le_max_left _ _) i3
      · rcases i4 with e | ⟨q, hq, e⟩
        · rw [e, hmax]
          rcases max_choice hs.source_tau_max r.tau_form with c | c
          · exact Or.inl c
          · exact Or.inr ⟨r, List.mem_cons_self r rs, c.symm⟩
        · exact Or.inr ⟨q, List.mem_cons_of_mem r hq, e⟩

/-- The round trip of a strings file whose data lines all end with a newline: a header line and
`n >= 1` newline-terminated data lines, the `i`-th holding the nine numbers of the `i`-th record,
each with `tau_form > 0`, read into an empty store (the partons file being openable).
`read_in_QCD_strings_and_partons` returns, and `QCD_strings_list` is exactly the list of the
records in file order (none for the header), while `source_tau_max` is the largest `tau_form`. -/
theorem strings_file_round_trip (lib : iolib α) (files : String → Option (List Char))
    (hs : hydro_source α) (header : List Char) (lines : List (List Char))
    (records : List (QCD_string α)) (partons_text : List Char)
    (hfile : files hs.DATA_ptr.initName = some (header ++ '\n' :: lines_text lines))
    (hpartons : files hs.DATA_ptr.initName_rhob = some partons_text)
    (hheader : '\n' ∉ header) (hlines : ∀ l ∈ lines, '\n' ∉ l) (hn : 1 ≤ lines.length)
    (hholds : List.Forall₂ (line_holds lib) lines records)
    (hpos : ∀ r ∈ records, 0 < r.tau_form)
    (hinit : hs.QCD_strings_list = [] ∧ hs.source_tau_max = 0) :
    ∃ N, ∀ fuel, N ≤ fuel → ∃ hs1,
      read_in_QCD_strings_and_partons lib files fuel hs = some (Except.ok hs1)
        ∧ hs1.QCD_strings_list = records
        ∧ (∀ r ∈ records, r.tau_form ≤ hs1.source_tau_max)
        ∧ ∃ r ∈ records, r.tau_form = hs1.source_tau_max := by
  refine ⟨lines.length + 1 + (partons_text.length + 2), fun fuel hfuel => ?_⟩
  obtain ⟨i1, i2, _, i4⟩ := foldl_string_line lib lines records hs hholds
  have hstrings := eof_loop_file (string_line lib) header lines hs fuel
    { buf := header ++ '\n' :: lines_text lines, eofbit := false, failbit := false } rfl
    hheader hlines (by omega)
  have hb0 : ∀ t, (getline { buf := partons_text, eofbit := false, failbit := false } t).1.failbit
      = true → (getline { buf := partons_text, eofbit := false, failbit := false } t).1.eofbit
      = true := fun t => (getline_bits _ t (by simp)).1
  have hl0 : ∀ t, (getline { buf := partons_text, eofbit := false, failbit := false }
      t).1.buf.length ≤ partons_text.length := fun t => (getline_bits _ t (by simp)).2
  obtain ⟨hs1, hloop⟩ := eof_loop_terminates (parton_line lib) partons_text.length
    (getline (getline { buf := partons_text, eofbit := false, failbit := false } []).1
      (getline { buf := partons_text, eofbit := false, failbit := false } []).2).1
    (getline (getline { buf := partons_text, eofbit := false, failbit := false } []).1
      (getline { buf := partons_text, eofbit := false, failbit := false } []).2).2
    (lines.foldl (fun s l => string_line lib l s) hs) fuel
    (le_trans (getline_bits _ _ (hb0 [])).2 (hl0 []))
    (getline_bits _ _ (hb0 [])).1 (by omega)
  have k1 := eof_loop_preserves (parton_line lib) hydro_source.QCD_strings_list
    (fun _ _ => rfl) fuel _ _ _ hs1 hloop
  have k2 := eof_loop_preserves (parton_line lib) hydro_source.source_tau_max
    (fun _ _ => rfl) fuel _ _ _ hs1 hloop
  refine ⟨hs1, ?_, ?_, ?_, ?_⟩
  · simp only [read_in_QCD_strings_and_partons, ifstream.open, hfile, hpartons,
      strings_loop_eq, partons_loop_eq, hstrings, hloop, Bool.false_eq_true, if_false]
  · rw [k1, i1, hinit.1, List.nil_append]
  · intro r hr
    rw [k2]
    exact i2 r hr
  · rw [k2]
    rcases i4 with e | e
    · obtain ⟨l, ls, rfl⟩ : ∃ l ls, lines = l :: ls := by
        cases lines with
        | nil => simp at hn
        | cons l ls => exact ⟨l, ls, rfl⟩
      cases hholds with
      | cons hl hrest =>
        rename_i r rs
        have hr : r ∈ r :: rs := List.mem_cons_self r rs
        have h1 := i2 r hr
        have h2 := hpos r hr
        rw [e, hinit.2] at h1
        exact absurd h2 (not_lt.mpr h1)
    · exact e

end reading

section examples

/-- The round trip at a file: a two-line strings file with one newline-terminated record;
`source_tau_max` is its `tau_form`. -/
theorem strings_file_round_trip_witness :
    ∃ N, ∀ fuel, N ≤ fuel → ∃ hs1,
      read_in_QCD_strings_and_partons (demo_lib ℚ) demo_files fuel (demo_store ℚ 12 0 0 [] [])
          = some (Except.ok hs1)
        ∧ hs1.QCD_strings_list = [demo_string ℚ]
        ∧ (∀ r ∈ [demo_string ℚ], r.tau_form ≤ hs1.source_tau_max)
        ∧ ∃ r ∈ [demo_string ℚ], r.tau_form = hs1.source_tau_max :=
  strings_file_round_trip (demo_lib ℚ) demo_files (demo_store ℚ 12 0 0 [] [])
    "header".toList ["1 1 1 0 0 -1 1 -1 1".toList] [demo_string ℚ] "header\n2 0 0 0 0\n".toList
    (by decide) (by decide) (by decide) (by decide) (by decide)
    (List.Forall₂.cons (by unfold line_holds; decide) List.Forall₂.nil)
    (by simp [demo_string]) ⟨rfl, rfl⟩

/-- C5 fails on the string variant: the constructor run on a strings file whose only string forms
at proper time 1 and a partons file whose only parton appears at proper time 2 returns a store with
`source_tau_max = 1`, below the proper time 2 of the parton in `parton_list`. -/
theorem string_variant_parton_after_source_tau_max (m : cmath ℚ) :
    ∃ hs, hydro_source.ctor m (demo_lib ℚ) demo_files 10 (demo_data ℚ 12 0) = some (Except.ok hs)
      ∧ hs.QCD_strings_list.map QCD_string.tau_form = [1]
      ∧ hs.parton_list.map parton.tau = [2]
      ∧ hs.source_tau_max = 1
      ∧ ¬ (∀ p ∈ hs.parton_list, p.tau ≤ hs.source_tau_max) :=
  ⟨_, rfl, rfl, rfl, rfl, fun h => absurd (h _ (List.mem_singleton.mpr rfl)) (by decide)⟩

/-- C7: a line of the AMPT file holding a row with `t <= z`, or with
`E^2 - px^2 - py^2 - pz^2 <= 0`, leaves the whole store as it was, whatever `x`, `y` and the store
are: no parton is appended and `source_tau_max` is unchanged. -/
theorem AMPT_row_outside_is_dropped {α : Type} [LinearOrderedField α] (m : cmath α)
    (lib : iolib α) (text : List Char) (hs : hydro_source α) (t z E px py pz : α)
    (h0 : lib.extract text 0 = some t) (h3 : lib.extract text 3 = some z)
    (h4 : lib.extract text 4 = some E) (h5 : lib.extract text 5 = some px)
    (h6 : lib.extract text 6 = some py) (h7 : lib.extract text 7 = some pz)
    (hout : t ≤ z ∨ E ^ 2 - px ^ 2 - py ^ 2 - pz ^ 2 ≤ 0) :
    AMPT_line m lib text hs = hs
      ∧ (AMPT_line m lib text hs).parton_list = hs.parton_list
      ∧ (AMPT_line m lib text hs).source_tau_max = hs.source_tau_max := by
  have key : AMPT_line m lib text hs = hs := by
    unfold AMPT_line AMPT_row
    simp only [h0, h3, h4, h5, h6, h7, Option.getD_some]
    rcases hout with h | h
    · rw [if_neg (not_lt.mpr h)]
    · have hm : ¬ (E * E - px * px - py * py - pz * pz > 0) := by
        have e : E * E - px * px - py * py - pz * pz = E ^ 2 - px ^ 2 - py ^ 2 - pz ^ 2 := by
          ring
        rw [e]
        exact not_lt.mpr h
      split_ifs
      · rfl
      · rfl
  exact ⟨key, by rw [key], by rw [key]⟩

/-- C7 at a row: `t = z = 1`. -/
theorem AMPT_row_outside_is_dropped_witness :
    AMPT_line (real_cmath (19733 / 100000)) (demo_lib ℝ) "1 0 0 1 2 0 0 1".toList
        (demo_store ℝ 30 0 0 [] []) = demo_store ℝ 30 0 0 [] []
      ∧ (AMPT_line (real_cmath (19733 / 100000)) (demo_lib ℝ) "1 0 0 1 2 0 0 1".toList
          (demo_store ℝ 30 0 0 [] [])).parton_list = (demo_store ℝ 30 0 0 [] []).parton_list
      ∧ (AMPT_line (real_cmath (19733 / 100000)) (demo_lib ℝ) "1 0 0 1 2 0 0 1".toList
          (demo_store ℝ 30 0 0 [] [])).source_tau_max
        = (demo_store ℝ 30 0 0 [] []).source_tau_max :=
  AMPT_row_outside_is_dropped (real_cmath (19733 / 100000)) (demo_lib ℝ)
    "1 0 0 1 2 0 0 1".toList (demo_store ℝ 30 0 0 [] []) 1 1 2 0 0 1
    (by simp [demo_lib, demo_extract, digits_value, List.splitOn, List.splitOnP,
      List.splitOnP.go])
    (by simp [demo_lib, demo_extract, digits_value, List.splitOn, List.splitOnP,
      List.splitOnP.go])
    (by simp [demo_lib, demo_extract, digits_value, List.splitOn, List.splitOnP,
      List.splitOnP.go])
    (by simp [demo_lib, demo_extract, digits_value, List.splitOn, List.splitOnP,
      List.splitOnP.go])
    (by simp [demo_lib, demo_extract, digits_value, List.splitOn, List.splitOnP,
      List.splitOnP.go])
    (by simp [demo_lib, demo_extract, digits_value, List.splitOn, List.splitOnP,
      List.splitOnP.go])
    (Or.inl (le_refl 1))

/-- C8 fails on a spacelike row: the line `t = 1, z = -2, E = 2, px = py = pz = 0` has
`t^2 - z^2 = -3`, yet it passes the test `t_local > z_local` and a parton is appended, whose
proper time is the square root of `-3`. -/
theorem spacelike_row_is_kept (m : cmath ℚ) (hs : hydro_source ℚ) :
    (AMPT_line m (demo_lib ℚ) "1 0 0 -2 2 0 0 0".toList hs).parton_list.map parton.tau
        = hs.parton_list.map parton.tau ++ [m.sqrt (-3)]
      ∧ ¬ ((1 : ℚ) ^ 2 - (-2) ^ 2 > 0) := by
  have e0 : (demo_lib ℚ).extract "1 0 0 -2 2 0 0 0".toList 0 = some 1 := by decide
  have e3 : (demo_lib ℚ).extract "1 0 0 -2 2 0 0 0".toList 3 = some (-2) := by decide
  have e4 : (demo_lib ℚ).extract "1 0 0 -2 2 0 0 0".toList 4 = some 2 := by decide
  have e5 : (demo_lib ℚ).extract "1 0 0 -2 2 0 0 0".toList 5 = some 0 := by decide
  have e6 : (demo_lib ℚ).extract "1 0 0 -2 2 0 0 0".toList 6 = some 0 := by decide
  have e7 : (demo_lib ℚ).extract "1 0 0 -2 2 0 0 0".toList 7 = some 0 := by decide
  constructor
  · unfold AMPT_line AMPT_row
    simp only [e0, e3, e4, e5, e6, e7, Option.getD_some]
    norm_num
    split_ifs <;> simp
  · norm_num

end examples

section construction

variable {α : Type} [LinearOrderedField α]

theorem length_dropWhile_le (p : Char → Bool) (l : List Char) :
    (l.dropWhile p).length ≤ l.length :=
  (List.dropWhile_sublist p).length_le

theorem extract_int_shorter (f : ifstream) : (extract_int f).buf.length ≤ f.buf.length := by
  unfold extract_int
  split_ifs
  · exact le_refl _
  · have h1 := length_dropWhile_le isspace f.buf
    cases hd : f.buf.dropWhile isspace with
    | nil => simp
    | cons c cs =>
      rw [hd] at h1
      simp only [List.length_cons] at h1
      simp only
      split_ifs
      · exact le_trans (length_dropWhile_le _ _) (by omega)
      · exact le_trans (length_dropWhile_le _ _) (by simp only [List.length_cons]; omega)

/-- Reading the two files of the string variant ends: with the diagnostic when one of them cannot
be opened, with a store otherwise. -/
theorem read_in_QCD_strings_and_partons_outcome (lib : iolib α)
    (files : String → Option (List Char)) (hs : hydro_source α) (fuel : Nat)
    (hfuel : ((files hs.DATA_ptr.initName).getD []).length
      + ((files hs.DATA_ptr.initName_rhob).getD []).length + 2 ≤ fuel) :
    ((files hs.DATA_ptr.initName).isSome = true ∧ (files hs.DATA_ptr.initName_rhob).isSome = true
        → ∃ hs1, read_in_QCD_strings_and_partons lib files fuel hs = some (Except.ok hs1))
      ∧ (¬ ((files hs.DATA_ptr.initName).isSome = true
            ∧ (files hs.DATA_ptr.initName_rhob).isSome = true)
        → ∃ e, read_in_QCD_strings_and_partons lib files fuel hs = some (Except.error e)) := by
  cases h1 : files hs.DATA_ptr.initName with
  | none => simp [read_in_QCD_strings_and_partons, ifstream.open, h1]
  | some sc =>
    rw [h1] at hfuel
    simp only [Option.getD_some] at hfuel
    have hb0 : ∀ t, (getline { buf := sc, eofbit := false, failbit := false } t).1.failbit
        = true → (getline { buf := sc, eofbit := false, failbit := false } t).1.eofbit
        = true := fun t => (getline_bits _ t (by simp)).1
    have hl0 : ∀ t, (getline { buf := sc, eofbit := false, failbit := false }
        t).1.buf.length ≤ sc.length := fun t => (getline_bits _ t (by simp)).2
    obtain ⟨hsS, hloopS⟩ := eof_loop_terminates (string_line lib) sc.length
      (getline (getline { buf := sc, eofbit := false, failbit := false } []).1
        (getline { buf := sc, eofbit := false, failbit := false } []).2).1
      (getline (getline { buf := sc, eofbit := false, failbit := false } []).1
        (getline { buf := sc, eofbit := false, failbit := false } []).2).2
      hs fuel (le_trans (getline_bits _ _ (hb0 [])).2 (hl0 []))
      (getline_bits _ _ (hb0 [])).1 (by omega)
    cases h2 : files hs.DATA_ptr.initName_rhob with
    | none =>
      simp [read_in_QCD_strings_and_partons, ifstream.open, h1, h2, strings_loop_eq, hloopS]
    | some pc =>
      rw [h2] at hfuel
      simp only [Option.getD_some] at hfuel
      have hb1 : ∀ t, (getline { buf := pc, eofbit := false, failbit := false } t).1.failbit
          = true → (getline { buf := pc, eofbit := false, failbit := false } t).1.eofbit
          = true := fun t => (getline_bits _ t (by simp)).1
      have hl1 : ∀ t, (getline { buf := pc, eofbit := false, failbit := false }
          t).1.buf.length ≤ pc.length := fun t => (getline_bits _ t (by simp)).2
      obtain ⟨hsP, hloopP⟩ := eof_loop_terminates (parton_line lib) pc.length
        (getline (getline { buf := pc, eofbit := false, failbit := false } []).1
          (getline { buf := pc, eofbit := false, failbit := false } []).2).1
        (getline (getline { buf := pc, eofbit := false, failbit := false } []).1
          (getline { buf := pc, eofbit := false, failbit := false } []).2).2
        hsS fuel (le_trans (getline_bits _ _ (hb1 [])).2 (hl1 []))
        (getline_bits _ _ (hb1 [])).1 (by omega)
      simp [read_in_QCD_strings_and_partons, ifstream.open, h1, h2, strings_loop_eq,
        partons_loop_eq, hloopS, hloopP]

/-- Reading the AMPT file ends when the file starts with its particle count: with the diagnostic
when it cannot be opened, with a store otherwise. -/
theorem read_in_AMPT_partons_outcome (m : cmath α) (lib : iolib α)
    (files : String → Option (List Char)) (hs : hydro_source α) (fuel : Nat)
    (hcount : count_token_ok hs.DATA_ptr files)
    (hfuel : ((files hs.DATA_ptr.initName_AMPT).getD []).length + 2 ≤ fuel) :
    ((files hs.DATA_ptr.initName_AMPT).isSome = true
        → ∃ hs1, read_in_AMPT_partons m lib files fuel hs = some (Except.ok hs1))
      ∧ (¬ ((files hs.DATA_ptr.initName_AMPT).isSome = true)
        → ∃ e, read_in_AMPT_partons m lib files fuel hs = some (Except.error e)) := by
  unfold count_token_ok at hcount
  cases h1 : files hs.DATA_ptr.initName_AMPT with
  | none => simp [read_in_AMPT_partons, ifstream.open, h1]
  | some cs =>
    rw [h1] at hfuel
    simp only [Option.getD_some] at hfuel
    simp only [ifstream.open, h1] at hcount
    have hlen := extract_int_shorter { buf := cs, eofbit := false, failbit := false }
    obtain ⟨hsA, hloopA⟩ := eof_loop_terminates (AMPT_line m lib) cs.length
      (getline (extract_int { buf := cs, eofbit := false, failbit := false }) []).1
      (getline (extract_int { buf := cs, eofbit := false, failbit := false }) []).2
      hs fuel (le_trans (getline_bits _ _ hcount).2 hlen)
      (getline_bits _ _ hcount).1 (by omega)
    simp [read_in_AMPT_partons, ifstream.open, h1, AMPT_loop_eq, hloopA]

/-- What holds at the start of the loop and is kept by its body holds for what it returns. -/
theorem eof_loop_invariant {σ : Type} (body : List Char → σ → σ) (P : σ → Prop)
    (h : ∀ t s, P s → P (body t s)) :
    ∀ (fuel : Nat) (f : ifstream) (text : List Char) (s r : σ),
      P s → eof_loop body fuel f text s = some r → P r
  | 0, _, _, _, _, _, hr => by simp [eof_loop] at hr
  | fuel + 1, f, text, s, r, hP, hr => by
    by_cases he : f.eofbit = true
    · simp [eof_loop, he] at hr
      rw [← hr]
      exact hP
    · simp only [eof_loop, he, if_false] at hr
      exact eof_loop_invariant body P h fuel _ _ _ r (h text s hP) hr

/-- The divisors of lines 139 and 141 are non-zero on the path that executes them. -/
theorem AMPT_row_divisors (t_local z_local pz_local : α) (new_parton : parton α)
    (h1 : t_local > z_local)
    (h2 : new_parton.E * new_parton.E - new_parton.px * new_parton.px
      - new_parton.py * new_parton.py - pz_local * pz_local > 0) :
    t_local - z_local + 1 / 10 ^ 15 ≠ 0 ∧ new_parton.E - pz_local ≠ 0 := by
  constructor
  · have : (0 : α) < 1 / 10 ^ 15 := by positivity
    have h3 : 0 < t_local - z_local := sub_pos.mpr h1
    exact (add_pos h3 this).ne.symm
  · intro h
    have e : new_parton.E = pz_local := sub_eq_zero.mp h
    rw [e] at h2
    nlinarith [mul_self_nonneg new_parton.px, mul_self_nonneg new_parton.py]

/-- A line of the AMPT file either leaves the store as it was or appends one parton and raises
`source_tau_max` to its proper time if that is later. -/
theorem AMPT_line_cases (m : cmath α) (lib : iolib α) (t : List Char) (s : hydro_source α) :
    AMPT_line m lib t s = s
      ∨ ∃ p, (AMPT_line m lib t s).parton_list = s.parton_list ++ [p]
          ∧ (AMPT_line m lib t s).source_tau_max = max s.source_tau_max p.tau := by
  unfold AMPT_line AMPT_row
  simp only
  split_ifs with h1 h2 hlt
  · exact Or.inr ⟨_, rfl, (max_eq_right (le_of_lt hlt)).symm⟩
  · exact Or.inr ⟨_, rfl, (max_eq_left (not_lt.mp hlt)).symm⟩
  · exact Or.inl rfl
  · exact Or.inl rfl

/-- The strings kept by `read_in_QCD_strings_and_partons` all form no later than
`source_tau_max`. -/
theorem strings_bounded_by_source_tau_max (lib : iolib α)
    (files : String → Option (List Char)) (fuel : Nat) (hs hs1 : hydro_source α)
    (hstart : ∀ q ∈ hs.QCD_strings_list, q.tau_form ≤ hs.source_tau_max)
    (hread : read_in_QCD_strings_and_partons lib files fuel hs = some (Except.ok hs1)) :
    ∀ q ∈ hs1.QCD_strings_list, q.tau_form ≤ hs1.source_tau_max := by
  have hbody : ∀ (t : List Char) (s : hydro_source α),
      (∀ q ∈ s.QCD_strings_list, q.tau_form ≤ s.source_tau_max) →
      ∀ q ∈ (string_line lib t s).QCD_strings_list,
        q.tau_form ≤ (string_line lib t s).source_tau_max := by
    intro t s hP q hq
    rw [string_line_list] at hq
    rw [string_line_max]
    rcases List.mem_append.mp hq with hq | hq
    · exact le_trans (hP q hq) (le_max_left _ _)
    · rw [List.mem_singleton.mp hq]
      exact le_max_right _ _
  unfold read_in_QCD_strings_and_partons at hread
  simp only [strings_loop_eq, partons_loop_eq] at hread
  by_cases o1 : (ifstream.open files hs.DATA_ptr.initName).failbit = true
  · simp only [o1, if_true] at hread
    cases hread
  simp only [o1, Bool.false_eq_true, if_false] at hread
  by_cases o2 : (ifstream.open files hs.DATA_ptr.initName_rhob).failbit = true
  · simp only [o2, if_true] at hread
    split at hread <;> simp at hread
  simp only [o2, Bool.false_eq_true, if_false] at hread
  split at hread
  · cases hread
  · rename_i hsS hS
    split at hread
    · cases hread
    · rename_i hsP hP
      simp only [Option.some.injEq, Except.ok.injEq] at hread
      subst hread
      have hinv := eof_loop_invariant (string_line lib)
        (fun s => ∀ q ∈ s.QCD_strings_list, q.tau_form ≤ s.source_tau_max) hbody fuel _ _ hs hsS
        hstart hS
      exact eof_loop_invariant (parton_line lib)
        (fun s => ∀ q ∈ s.QCD_strings_list, q.tau_form ≤ s.source_tau_max)
        (fun _ _ hh => hh) fuel _ _ hsS hsP hinv hP

/-- The partons kept by `read_in_AMPT_partons` all appear no later than `source_tau_max`. -/
theorem AMPT_partons_bounded_by_source_tau_max (m : cmath α) (lib : iolib α)
    (files : String → Option (List Char)) (fuel : Nat) (hs hs1 : hydro_source α)
    (hstart : ∀ p ∈ hs.parton_list, p.tau ≤ hs.source_tau_max)
    (hread : read_in_AMPT_partons m lib files fuel hs = some (Except.ok hs1)) :
    ∀ p ∈ hs1.parton_list, p.tau ≤ hs1.source_tau_max := by
  have hbody : ∀ (t : List Char) (s : hydro_source α),
      (∀ p ∈ s.parton_list, p.tau ≤ s.source_tau_max) →
      ∀ p ∈ (AMPT_line m lib t s).parton_list, p.tau ≤ (AMPT_line m lib t s).source_tau_max := by
    intro t s hP p hp
    rcases AMPT_line_cases m lib t s with e | ⟨p1, e1, e2⟩
    · rw [e] at hp ⊢
      exact hP p hp
    · rw [e1] at hp
      rw [e2]
      rcases List.mem_append.mp hp with hp | hp
      · exact le_trans (hP p hp) (le_max_left _ _)
      · rw [List.mem_singleton.mp hp]
        exact le_max_right _ _
  unfold read_in_AMPT_partons at hread
  simp only [AMPT_loop_eq] at hread
  by_cases o1 : (ifstream.open files hs.DATA_ptr.initName_AMPT).failbit = true
  · simp only [o1, if_true] at hread
    cases hread
  simp only [o1, Bool.false_eq_true, if_false] at hread
  split at hread
  · cases hread
  · rename_i hsA hA
    simp only [Option.some.injEq, Except.ok.injEq] at hread
    subst hread
    exact eof_loop_invariant (AMPT_line m lib)
      (fun s => ∀ p ∈ s.parton_list, p.tau ≤ s.source_tau_max) hbody fuel _ _ hs hsA hstart hA

/-- When the AMPT file starts with its particle count, the constructor ends with enough fuel, and
it ends with the error result exactly when a file required by the active variant cannot be opened
(strings file or partons file for `Initial_profile == 12`, AMPT file for
`Initial_profile == 30`); when every required file opens it returns a store, whatever the lines
hold. -/
theorem construction_fails_iff_file_missing (m : cmath α) (lib : iolib α)
    (files : String → Option (List Char)) (DATA_in : InitData α)
    (hcount : DATA_in.Initial_profile = 30 → count_token_ok DATA_in files) :
    ∃ N, ∀ fuel, N ≤ fuel →
      ((∃ e, hydro_source.ctor m lib files fuel DATA_in = some (Except.error e))
          ↔ ¬ required_files_open DATA_in files)
        ∧ (required_files_open DATA_in files
          → ∃ hs, hydro_source.ctor m lib files fuel DATA_in = some (Except.ok hs)) := by
  refine ⟨((files DATA_in.initName).getD []).length
    + ((files DATA_in.initName_rhob).getD []).length
    + ((files DATA_in.initName_AMPT).getD []).length + 2, fun fuel hfuel => ?_⟩
  have split : (required_files_open DATA_in files
        → ∃ hs, hydro_source.ctor m lib files fuel DATA_in = some (Except.ok hs))
      ∧ (¬ required_files_open DATA_in files
        → ∃ e, hydro_source.ctor m lib files fuel DATA_in = some (Except.error e)) := by
    by_cases h12 : DATA_in.Initial_profile = 12
    · have h30 : ¬ ((12 : Int) = 30) := by decide
      have hreq : required_files_open DATA_in files
          ↔ ((files DATA_in.initName).isSome = true
            ∧ (files DATA_in.initName_rhob).isSome = true) := by
        simp [required_files_open, h12]
      obtain ⟨a, b⟩ := read_in_QCD_strings_and_partons_outcome lib files
        { DATA_ptr := DATA_in, source_tau_max := 0, sigma_tau := 1 / 10, sigma_x := 1 / 2,
          sigma_eta := 1 / 2,
          volume := DATA_in.delta_x * DATA_in.delta_y * DATA_in.delta_eta,
          string_dump_mode := DATA_in.string_dump_mode, QCD_strings_list := [],
          parton_list := [] } fuel (by simp only; omega)
      constructor
      · intro hr
        obtain ⟨hs1, e1⟩ := a (hreq.mp hr)
        exact ⟨hs1, by simp only [hydro_source.ctor, h12, h30, if_true, if_false, e1]⟩
      · intro hr
        obtain ⟨e, e1⟩ := b (fun hh => hr (hreq.mpr hh))
        exact ⟨e, by simp only [hydro_source.ctor, h12, if_true, e1]⟩
    · by_cases h30 : DATA_in.Initial_profile = 30
      · have hreq : required_files_open DATA_in files
            ↔ (files DATA_in.initName_AMPT).isSome = true := by
          simp [required_files_open, h30]
        obtain ⟨a, b⟩ := read_in_AMPT_partons_outcome m lib files
          { DATA_ptr := DATA_in, source_tau_max := 0, sigma_tau := 1 / 10, sigma_x := 1 / 2,
            sigma_eta := 1 / 2,
            volume := DATA_in.delta_x * DATA_in.delta_y * DATA_in.delta_eta,
            string_dump_mode := lib.member_mode, QCD_strings_list := [],
            parton_list := [] } fuel (hcount h30) (by simp only; omega)
        have h3012 : ¬ ((30 : Int) = 12) := by decide
        constructor
        · intro hr
          obtain ⟨hs1, e1⟩ := a (hreq.mp hr)
          exact ⟨hs1, by simp only [hydro_source.ctor, h30, h3012, if_true, if_false, e1]⟩
        · intro hr
          obtain ⟨e, e1⟩ := b (fun hh => hr (hreq.mpr hh))
          exact ⟨e, by simp only [hydro_source.ctor, h30, h3012, if_true, if_false, e1]⟩
      · constructor
        · intro _
          simp only [hydro_source.ctor, h12, h30, if_false]
          exact ⟨_, rfl⟩
        · intro hr
          exact absurd (by simp [required_files_open, h12, h30]) hr
  refine ⟨⟨fun ⟨e, he⟩ hr => ?_, split.2⟩, split.1⟩
  obtain ⟨hs1, h1⟩ := split.1 hr
  rw [he] at h1
  cases h1

/-- The outcome of the constructor at a configuration: the AMPT variant with the files of the
examples. -/
theorem construction_fails_iff_file_missing_witness :
    ∃ N, ∀ fuel, N ≤ fuel →
      ((∃ e, hydro_source.ctor (real_cmath (19733 / 100000)) (demo_lib ℝ) demo_files fuel
            (demo_data ℝ 30 0) = some (Except.error e))
          ↔ ¬ required_files_open (demo_data ℝ 30 0) demo_files)
        ∧ (required_files_open (demo_data ℝ 30 0) demo_files
          → ∃ hs, hydro_source.ctor (real_cmath (19733 / 100000)) (demo_lib ℝ) demo_files fuel
            (demo_data ℝ 30 0) = some (Except.ok hs)) :=
  construction_fails_iff_file_missing (real_cmath (19733 / 100000)) (demo_lib ℝ) demo_files
    (demo_data ℝ 30 0) (fun _ => by unfold count_token_ok; decide)

/-- When the AMPT file opens but does not start with an integer, the extraction of line 119 sets
`failbit` alone, every later `getline` fails, `eof()` stays false and the loop of line 123 does
not end. -/
theorem read_in_AMPT_partons_never_ends (m : cmath α) (lib : iolib α)
    (files : String → Option (List Char)) (hs : hydro_source α) (fuel : Nat)
    (hopen : (files hs.DATA_ptr.initName_AMPT).isSome = true)
    (hfail : (extract_int (ifstream.open files hs.DATA_ptr.initName_AMPT)).failbit = true)
    (heof : (extract_int (ifstream.open files hs.DATA_ptr.initName_AMPT)).eofbit = false) :
    read_in_AMPT_partons m lib files fuel hs = none := by
  cases h1 : files hs.DATA_ptr.initName_AMPT with
  | none => simp [h1] at hopen
  | some cs =>
    simp only [ifstream.open, h1] at hfail heof
    have hg : getline (extract_int { buf := cs, eofbit := false, failbit := false }) []
        = ({ extract_int { buf := cs, eofbit := false, failbit := false } with
            failbit := true }, []) := by
      simp [getline, hfail]
    have hd := eof_loop_diverges (AMPT_line m lib) fuel
      { extract_int { buf := cs, eofbit := false, failbit := false } with failbit := true }
      [] hs rfl heof
    simp [read_in_AMPT_partons, ifstream.open, h1, AMPT_loop_eq, hg, hd]

end construction

section symmetry

/-- C10 fails on the code: for the single string of zero length, at its own position and
`eta_s = 0`, line 215 divides `y_r - y_l = 0` by `eta_s_right - eta_s_left = 0`, so the energy
source has no value (`NaN` in IEEE arithmetic) instead of the rest-frame form `(E, 0, 0, 0)`. -/
theorem zero_length_string_has_no_current :
    get_hydro_energy_source (real_cmath (19733 / 100000))
      (demo_store ℝ 12 0 1 [point_string ℝ] []) 1 0 0 0 Vec4.zero = none := by
  have hpi : Real.pi * (1 / 2) * (1 / 2) ≠ 0 := by positivity
  have hsq : Real.sqrt Real.pi * (1 / 10) ≠ 0 :=
    mul_ne_zero (Real.sqrt_pos.mpr Real.pi_pos).ne.symm (by norm_num)
  have hM : (real_cmath (19733 / 100000)).M_PI = Real.pi := rfl
  have hS : (real_cmath (19733 / 100000)).sqrt = Real.sqrt := rfl
  have hbody : energy_string_body (real_cmath (19733 / 100000))
      (demo_store ℝ 12 0 1 [point_string ℝ] []) 1 0 0 0 Vec4.zero (point_string ℝ) = none := by
    unfold energy_string_body
    norm_num [demo_store, point_string, fdiv, demo_data, real_cmath]
  unfold get_hydro_energy_source
  simp only [demo_store, demo_data, if_true, List.foldlM_cons, List.foldlM_nil] at hbody ⊢
  rw [hM, hS, fdiv_of_ne _ hpi, fdiv_of_ne _ hsq]
  norm_num [hbody]

end symmetry

section single_parton

variable {α : Type} [LinearOrderedField α]

/-- The parton branch of the energy source is the claim's sum whenever every division it executes
is defined. -/
theorem energy_source_partons_eq (m : cmath α) (hs : hydro_source α) (tau x y eta_s : α)
    (u_mu : Vec4 α) (hprofile : hs.DATA_ptr.Initial_profile = 30)
    (h1 : hs.sigma_tau ≠ 0) (h2 : hs.sigma_x ≠ 0) (h3 : hs.sigma_eta ≠ 0)
    (hpi : m.M_PI ≠ 0) (hsq : m.sqrt m.M_PI ≠ 0) (hb : m.hbarc ≠ 0)
    (hpartons : ∀ p ∈ hs.parton_list, p.tau ≠ 0)
    (hcut : tau - hs.source_tau_max < 5 * hs.sigma_tau) :
    get_hydro_energy_source m hs tau x y eta_s u_mu = some (parton_current m hs tau x y eta_s) := by
  have d1 : m.M_PI * hs.sigma_x * hs.sigma_x ≠ 0 := mul_ne_zero (mul_ne_zero hpi h2) h2
  have d2 : m.sqrt m.M_PI * hs.sigma_tau ≠ 0 := mul_ne_zero hsq h1
  have d3 : m.sqrt m.M_PI * hs.sigma_eta ≠ 0 := mul_ne_zero hsq h3
  have hfold := foldlM_eq_foldl (energy_parton_body m hs tau x y eta_s) _
    hs.parton_list Vec4.zero
    (fun p hmem j => energy_parton_body_eq m hs tau x y eta_s j p h1 h2 h3 (hpartons p hmem))
  unfold get_hydro_energy_source
  have h12 : ¬ ((30 : Int) = 12) := by decide
  simp only [hprofile, h12, hcut, if_true, if_false]
  rw [fdiv_of_ne _ d1, fdiv_of_ne _ d2, fdiv_of_ne _ d3, hfold, foldl_vec4_sum, fdiv_of_ne _ hb]
  simp only [Option.some_bind, Option.bind_eq_bind, pure, Vec4.scale, Vec4.zero,
    parton_current, parton_prefactor, zero_add]
  congr 2 <;> ring

/-- Past the global cutoff the energy source is the zero vector. -/
theorem energy_source_past_cutoff (m : cmath α) (hs : hydro_source α) (tau x y eta_s : α)
    (u_mu : Vec4 α) (h : ¬ (tau - hs.source_tau_max < 5 * hs.sigma_tau)) :
    get_hydro_energy_source m hs tau x y eta_s u_mu = some Vec4.zero := by
  unfold get_hydro_energy_source
  simp only [h, if_false]
  split_ifs <;> rfl

end single_parton

section resting_parton

/-- The claim's sum for a store holding a single parton. -/
theorem parton_current_single {α : Type} [LinearOrderedField α] (m : cmath α)
    (hs : hydro_source α) (tau x y eta_s : α) (p : parton α) (hl : hs.parton_list = [p]) :
    parton_current m hs tau x y eta_s
      = if parton_in_box hs parton.eta_s tau x y eta_s p then
          { c0 := parton_prefactor m hs * (parton_smear m hs parton.eta_s tau x y eta_s p
              * (parton_m_perp m p * m.cosh (p.rapidity - eta_s)))
            c1 := parton_prefactor m hs * (parton_smear m hs parton.eta_s tau x y eta_s p * p.px)
            c2 := parton_prefactor m hs * (parton_smear m hs parton.eta_s tau x y eta_s p * p.py)
            c3 := parton_prefactor m hs * (parton_smear m hs parton.eta_s tau x y eta_s p
              * (parton_m_perp m p * m.sinh (p.rapidity - eta_s))) }
        else Vec4.zero := by
  unfold parton_current
  rw [hl]
  by_cases hb : parton_in_box hs parton.eta_s tau x y eta_s p
  · simp [List.filter_cons, hb]
  · simp [List.filter_cons, hb, Vec4.zero]

/-- C11 fails away from `eta_s = 0`: for the single parton at rest at the origin (`px = py = 0`,
rapidity 0, mass 1, proper time 1) the energy source at `tau = 1, x = y = 0, eta_s = 1` has a
non-zero component `j[3]`, proportional to `sinh(0 - 1)`. -/
theorem resting_parton_has_longitudinal_current :
    ∃ j, get_hydro_energy_source (real_cmath (19733 / 100000))
        (demo_store ℝ 30 0 1 [] [demo_parton ℝ]) 1 0 0 1 Vec4.zero = some j ∧ j.c3 ≠ 0 := by
  refine ⟨_, energy_source_partons_eq (real_cmath (19733 / 100000))
    (demo_store ℝ 30 0 1 [] [demo_parton ℝ]) 1 0 0 1 Vec4.zero rfl
    (by norm_num [demo_store]) (by norm_num [demo_store]) (by norm_num [demo_store])
    Real.pi_ne_zero (Real.sqrt_pos.mpr Real.pi_pos).ne.symm (by norm_num [real_cmath])
    (by simp [demo_store, demo_parton]) (by norm_num [demo_store]), ?_⟩
  have hbox : parton_in_box (demo_store ℝ 30 0 1 [] [demo_parton ℝ]) parton.eta_s 1 0 0 1
      (demo_parton ℝ) := by
    unfold parton_in_box
    norm_num [demo_store, demo_parton]
  have hsinh : Real.sinh (0 - 1) ≠ 0 := by
    rw [zero_sub, Real.sinh_neg]
    exact neg_ne_zero.mpr (Real.sinh_pos_iff.mpr one_pos).ne.symm
  have hsq : Real.sqrt Real.pi ≠ 0 := (Real.sqrt_pos.mpr Real.pi_pos).ne.symm
  rw [parton_current_single _ _ 1 0 0 1 (demo_parton ℝ) rfl, if_pos hbox]
  simp only [parton_prefactor, parton_smear, parton_m_perp, demo_parton, demo_data, demo_store,
    real_cmath]
  have hm : Real.sqrt ((1 : ℝ) ^ 2 + 0 ^ 2 + 0 ^ 2) = 1 := by norm_num
  rw [hm]
  have hpi := Real.pi_ne_zero
  have e1 := (Real.exp_pos (-((1 : ℝ) - 1) ^ 2 / (1 / 10) ^ 2)).ne.symm
  have e2 := (Real.exp_pos (-(((0 : ℝ) - 0) ^ 2 + (0 - 0) ^ 2) / (1 / 2) ^ 2)).ne.symm
  have e3 := (Real.exp_pos (-((1 : ℝ) - 0) ^ 2 / (1 / 2) ^ 2)).ne.symm
  refine mul_ne_zero ?_ (mul_ne_zero (mul_ne_zero (mul_ne_zero (mul_ne_zero ?_ e1) e2) e3)
    (mul_ne_zero one_ne_zero hsinh))
  · have a : (1 : ℝ) / (19733 / 100000) ≠ 0 := by norm_num
    have b : (1 : ℝ) / (Real.pi * (1 / 2) ^ 2) ≠ 0 :=
      one_div_ne_zero (mul_ne_zero hpi (by norm_num))
    have c : (1 : ℝ) / (Real.sqrt Real.pi * (1 / 10)) ≠ 0 :=
      one_div_ne_zero (mul_ne_zero hsq (by norm_num))
    have d : (1 : ℝ) / (Real.sqrt Real.pi * (1 / 2)) ≠ 0 :=
      one_div_ne_zero (mul_ne_zero hsq (by norm_num))
    exact mul_ne_zero (mul_ne_zero (mul_ne_zero a b) c) d
  · norm_num

/-- C11 as amended: for a store of the parton variant holding a single parton with `px = py = 0`
and momentum rapidity 0 (non-zero proper time, non-zero widths and `hbarc`), the energy source has
`j[1] = j[2] = 0` at every point, and `j[3] = 0` at every point with `eta_s = 0`. -/
theorem resting_parton_spatial_components (hbarc : ℝ) (hs : hydro_source ℝ) (p : parton ℝ)
    (tau x y eta_s : ℝ) (u_mu : Vec4 ℝ) (hprofile : hs.DATA_ptr.Initial_profile = 30)
    (hwidths : 0 < hs.sigma_tau ∧ 0 < hs.sigma_x ∧ 0 < hs.sigma_eta) (hbar : hbarc ≠ 0)
    (hlist : hs.parton_list = [p]) (htau : p.tau ≠ 0)
    (hpx : p.px = 0) (hpy : p.py = 0) (hrap : p.rapidity = 0) :
    ∃ j, get_hydro_energy_source (real_cmath hbarc) hs tau x y eta_s u_mu = some j
      ∧ j.c1 = 0 ∧ j.c2 = 0 ∧ (eta_s = 0 → j.c3 = 0) := by
  obtain ⟨w1, w2, w3⟩ := hwidths
  by_cases hcut : tau - hs.source_tau_max < 5 * hs.sigma_tau
  · refine ⟨_, energy_source_partons_eq (real_cmath hbarc) hs tau x y eta_s u_mu hprofile
      w1.ne.symm w2.ne.symm w3.ne.symm Real.pi_ne_zero (Real.sqrt_pos.mpr Real.pi_pos).ne.symm
      hbar (by rw [hlist]; simpa using htau) hcut, ?_⟩
    rw [parton_current_single _ _ tau x y eta_s p hlist]
    by_cases hb : parton_in_box hs parton.eta_s tau x y eta_s p
    · rw [if_pos hb]
      refine ⟨by simp [hpx], by simp [hpy], fun h0 => ?_⟩
      have hs0 : (real_cmath hbarc).sinh (p.rapidity - eta_s) = 0 := by
        rw [hrap, h0, sub_zero]
        exact Real.sinh_zero
      simp [hs0]
    · rw [if_neg hb]
      exact ⟨rfl, rfl, fun _ => rfl⟩
  · exact ⟨_, energy_source_past_cutoff _ hs tau x y eta_s u_mu hcut, rfl, rfl, fun _ => rfl⟩

/-- C11 as amended, at a point: the parton at rest of the examples, seen from `eta_s = 0`. -/
theorem resting_parton_spatial_components_witness :
    ∃ j, get_hydro_energy_source (real_cmath (19733 / 100000))
        (demo_store ℝ 30 0 1 [] [demo_parton ℝ]) 1 0 0 0 Vec4.zero = some j
      ∧ j.c1 = 0 ∧ j.c2 = 0 ∧ ((0 : ℝ) = 0 → j.c3 = 0) :=
  resting_parton_spatial_components (19733 / 100000) (demo_store ℝ 30 0 1 [] [demo_parton ℝ])
    (demo_parton ℝ) 1 0 0 0 Vec4.zero rfl (by norm_num [demo_store]) (by norm_num) rfl
    (by norm_num [demo_parton]) rfl rfl rfl

end resting_parton

section midpoint_sums

variable {α : Type} [LinearOrderedField α]

/-- The scalar loop over `N` steps of a constant source accumulates the midpoint sum. -/
theorem pre_integrator_fold_const (c h : α) :
    ∀ (N : Nat) (r : α),
      (List.range N).foldlM (pre_integrator_step (fun _ => some c) h) r
        = some (r + (Finset.range N).sum (fun i => ((i : α) + 1 / 2) * h * c * h))
  | 0, r => by simp
  | N + 1, r => by
    rw [List.range_succ, List.foldlM_append, pre_integrator_fold_const c h N r]
    simp only [Option.some_bind, Option.bind_eq_bind, List.foldlM_cons, List.foldlM_nil,
      pre_integrator_step, pure, Finset.sum_range_succ, zero_add]
    congr 1
    ring

/-- The vector loop over `N` steps of a constant source accumulates the four midpoint sums. -/
theorem pre_integrator_vec_fold_const (c : Vec4 α) (h : α) :
    ∀ (N : Nat) (r : Vec4 α),
      (List.range N).foldlM (pre_integrator_vec_step (fun _ => some c) h) r
        = some { c0 := r.c0 + (Finset.range N).sum (fun i => ((i : α) + 1 / 2) * h * c.c0 * h)
                 c1 := r.c1 + (Finset.range N).sum (fun i => ((i : α) + 1 / 2) * h * c.c1 * h)
                 c2 := r.c2 + (Finset.range N).sum (fun i => ((i : α) + 1 / 2) * h * c.c2 * h)
                 c3 := r.c3 + (Finset.range N).sum (fun i => ((i : α) + 1 / 2) * h * c.c3 * h) }
  | 0, r => by simp
  | N + 1, r => by
    rw [List.range_succ, List.foldlM_append, pre_integrator_vec_fold_const c h N r]
    simp only [Option.some_bind, Option.bind_eq_bind, List.foldlM_cons, List.foldlM_nil,
      pre_integrator_vec_step, pure, Finset.sum_range_succ, zero_add]
    congr 2 <;> ring

/-- The midpoint sum of a constant is the exact integral of `tau'*c`. -/
theorem midpoint_sum_const (c h : α) (N : Nat) :
    (Finset.range N).sum (fun i => ((i : α) + 1 / 2) * h * c * h)
      = c * ((N : α) * h) ^ 2 / 2 := by
  induction N with
  | zero => simp
  | succ n ih =>
    rw [Finset.sum_range_succ, ih]
    push_cast
    ring

end midpoint_sums

section pre_integration

variable {α : Type} [LinearOrderedField α] [FloorRing α]

theorem trunc_int_natCast (N : Nat) : trunc_int (N : α) = (N : Int) := by
  unfold trunc_int
  rw [if_pos (Nat.cast_nonneg N)]
  exact Int.floor_natCast N

/-- The scalar pre-integrator on a constant source, `N` steps of width `h`. -/
theorem pre_integrator_const_value (c h : α) (N : Nat) (hh : 0 < h) (hN : 1 ≤ N) :
    pre_integrator (fun _ => some c) h ((N : α) * h)
      = some (1 / ((N : α) * h)
          * (Finset.range N).sum (fun i => ((i : α) + 1 / 2) * h * c * h)) := by
  have hN0 : (0 : α) < (N : α) := by exact_mod_cast hN
  have htau : (N : α) * h ≠ 0 := (mul_pos hN0 hh).ne.symm
  have hq : ((N : α) * h - 0) / h = (N : α) := by
    rw [sub_zero, mul_div_assoc, div_self hh.ne.symm, mul_one]
  unfold pre_integrator
  simp only [fdiv_of_ne _ hh.ne.symm, hq, trunc_int_natCast, Int.toNat_ofNat, Option.some_bind,
    Option.bind_eq_bind, pre_integrator_fold_const, fdiv_of_ne _ htau, zero_add]
  congr 1
  ring

/-- The vector pre-integrator on a constant source, `N` steps of width `h`. -/
theorem pre_integrator_vec_const_value (c : Vec4 α) (h : α) (N : Nat) (hh : 0 < h)
    (hN : 1 ≤ N) :
    pre_integrator_vec (fun _ => some c) h ((N : α) * h)
      = some { c0 := c.c0 * ((N : α) * h) / 2, c1 := c.c1 * ((N : α) * h) / 2,
               c2 := c.c2 * ((N : α) * h) / 2, c3 := c.c3 * ((N : α) * h) / 2 } := by
  have hN0 : (0 : α) < (N : α) := by exact_mod_cast hN
  have htau : (N : α) * h ≠ 0 := (mul_pos hN0 hh).ne.symm
  have hq : ((N : α) * h - 0) / h = (N : α) := by
    rw [sub_zero, mul_div_assoc, div_self hh.ne.symm, mul_one]
  unfold pre_integrator_vec
  simp only [fdiv_of_ne _ hh.ne.symm, hq, trunc_int_natCast, Int.toNat_ofNat, Option.some_bind,
    Option.bind_eq_bind, pre_integrator_vec_fold_const, fdiv_of_ne _ htau, Vec4.zero, zero_add,
    midpoint_sum_const, pure]
  congr 2 <;> field_simp <;> ring

end pre_integration

section constant_stub

/-- The two loops with the call of the instantaneous evaluator replaced by a stub that returns the
constant `c`, with a step `h > 0` and `tau = N*h`, `N >= 1`: they return
`(1/tau) * SUM_{i<N} (i + 1/2)*h*c*h`, which equals `(1/tau)` times the integral of `tau'*c`
from 0 to `tau`, that is `c*tau/2`, for every `N` and `h`, so also in the limit of fine steps. -/
theorem constant_stub_loop_value (c : ℝ) (cv : Vec4 ℝ) (h : ℝ) (N : ℕ) (hh : 0 < h)
    (hN : 1 ≤ N) :
    pre_integrator (fun _ => some c) h ((N : ℝ) * h)
        = some (1 / ((N : ℝ) * h)
            * (Finset.range N).sum (fun i => ((i : ℝ) + 1 / 2) * h * c * h))
      ∧ pre_integrator_vec (fun _ => some cv) h ((N : ℝ) * h)
        = some { c0 := cv.c0 * ((N : ℝ) * h) / 2, c1 := cv.c1 * ((N : ℝ) * h) / 2,
                 c2 := cv.c2 * ((N : ℝ) * h) / 2, c3 := cv.c3 * ((N : ℝ) * h) / 2 }
      ∧ 1 / ((N : ℝ) * h) * (Finset.range N).sum (fun i => ((i : ℝ) + 1 / 2) * h * c * h)
        = 1 / ((N : ℝ) * h) * ∫ t in (0 : ℝ)..((N : ℝ) * h), t * c
      ∧ 1 / ((N : ℝ) * h) * (∫ t in (0 : ℝ)..((N : ℝ) * h), t * c) = c * ((N : ℝ) * h) / 2
      ∧ ∀ tau : ℝ, 0 < tau →
          Filter.Tendsto
            (fun n : ℕ => (pre_integrator (fun _ => some c) (tau / ((n : ℝ) + 1)) tau).getD 0)
            Filter.atTop (nhds (c * tau / 2)) := by
  have hN0 : (0 : ℝ) < (N : ℝ) := by exact_mod_cast hN
  have htau : (N : ℝ) * h ≠ 0 := (mul_pos hN0 hh).ne.symm
  have hint : ∀ T : ℝ, (∫ t in (0 : ℝ)..T, t * c) = c * T ^ 2 / 2 := by
    intro T
    rw [intervalIntegral.integral_mul_const, integral_id]
    ring
  refine ⟨pre_integrator_const_value c h N hh hN, pre_integrator_vec_const_value cv h N hh hN,
    ?_, ?_, ?_⟩
  · rw [hint, midpoint_sum_const]
  · rw [hint]
    field_simp
    ring
  · intro tau htau0
    have hconst : (fun n : ℕ =>
        (pre_integrator (fun _ => some c) (tau / ((n : ℝ) + 1)) tau).getD 0)
        = fun _ => c * tau / 2 := by
      funext n
      have hn0 : (0 : ℝ) < (n : ℝ) + 1 := by positivity
      have hstep : 0 < tau / ((n : ℝ) + 1) := div_pos htau0 hn0
      have hval := pre_integrator_const_value c (tau / ((n : ℝ) + 1)) (n + 1) hstep
        (Nat.succ_le_succ (Nat.zero_le n))
      have hprod : ((n + 1 : ℕ) : ℝ) * (tau / ((n : ℝ) + 1)) = tau := by
        push_cast
        field_simp
      rw [hprod] at hval
      rw [hval, Option.getD_some, midpoint_sum_const, hprod]
      field_simp
      ring
    rw [hconst]
    exact tendsto_const_nhds

/-- The loops on the constant stub 3 (and `(3, 0, 0, 1)`), four steps of width 1/2. -/
theorem constant_stub_loop_value_example :
    pre_integrator (fun _ => some (3 : ℝ)) (1 / 2) (((4 : ℕ) : ℝ) * (1 / 2))
        = some (1 / (((4 : ℕ) : ℝ) * (1 / 2))
            * (Finset.range 4).sum (fun i => ((i : ℝ) + 1 / 2) * (1 / 2) * 3 * (1 / 2)))
      ∧ pre_integrator_vec (fun _ => some ({ c0 := 3, c1 := 0, c2 := 0, c3 := 1 } : Vec4 ℝ))
          (1 / 2) (((4 : ℕ) : ℝ) * (1 / 2))
        = some { c0 := 3 * (((4 : ℕ) : ℝ) * (1 / 2)) / 2, c1 := 0 * (((4 : ℕ) : ℝ) * (1 / 2)) / 2,
                 c2 := 0 * (((4 : ℕ) : ℝ) * (1 / 2)) / 2,
                 c3 := 1 * (((4 : ℕ) : ℝ) * (1 / 2)) / 2 }
      ∧ 1 / (((4 : ℕ) : ℝ) * (1 / 2))
          * (Finset.range 4).sum (fun i => ((i : ℝ) + 1 / 2) * (1 / 2) * 3 * (1 / 2))
        = 1 / (((4 : ℕ) : ℝ) * (1 / 2)) * ∫ t in (0 : ℝ)..(((4 : ℕ) : ℝ) * (1 / 2)), t * 3
      ∧ 1 / (((4 : ℕ) : ℝ) * (1 / 2)) * (∫ t in (0 : ℝ)..(((4 : ℕ) : ℝ) * (1 / 2)), t * 3)
        = 3 * (((4 : ℕ) : ℝ) * (1 / 2)) / 2
      ∧ ∀ tau : ℝ, 0 < tau →
          Filter.Tendsto
            (fun n : ℕ =>
              (pre_integrator (fun _ => some (3 : ℝ)) (tau / ((n : ℝ) + 1)) tau).getD 0)
            Filter.atTop (nhds (3 * tau / 2)) :=
  constant_stub_loop_value 3 { c0 := 3, c1 := 0, c2 := 0, c3 := 1 } (1 / 2) 4
    (by norm_num) (by norm_num)

end constant_stub

section step_count

variable {α : Type} [LinearOrderedField α] [FloorRing α]

theorem trunc_int_of_lt_one {q : α} (h0 : 0 ≤ q) (h1 : q < 1) : trunc_int q = 0 := by
  unfold trunc_int
  rw [if_pos h0]
  exact Int.floor_eq_zero_iff.mpr ⟨h0, h1⟩

/-- The sample times of the pre-integrator lie below `trunc(tau/delta_tau)*delta_tau`, which is at
most `tau`. -/
theorem sample_times_bound (dtau tau : α) (hd : 0 < dtau) (ht : 0 < tau) :
    (∀ i : Nat, i < (trunc_int ((tau - 0) / dtau)).toNat →
        0 + ((i : α) + 1 / 2) * dtau < ((trunc_int ((tau - 0) / dtau)).toNat : α) * dtau)
      ∧ ((trunc_int ((tau - 0) / dtau)).toNat : α) * dtau ≤ tau := by
  have hq : 0 ≤ (tau - 0) / dtau := by
    rw [sub_zero]
    exact (div_pos ht hd).le
  have hfl : trunc_int ((tau - 0) / dtau) = ⌊(tau - 0) / dtau⌋ := by
    unfold trunc_int
    rw [if_pos hq]
  have hnn : 0 ≤ ⌊(tau - 0) / dtau⌋ := Int.floor_nonneg.mpr hq
  have hcast : (((trunc_int ((tau - 0) / dtau)).toNat : Nat) : α)
      = ((⌊(tau - 0) / dtau⌋ : Int) : α) := by
    rw [hfl]
    have := Int.toNat_of_nonneg hnn
    exact_mod_cast congrArg (fun z : Int => (z : α)) this
  constructor
  · intro i hi
    have hi2 : (i : α) + 1 ≤ ((trunc_int ((tau - 0) / dtau)).toNat : α) := by
      exact_mod_cast Nat.succ_le_of_lt hi
    have : (i : α) + 1 / 2 < ((trunc_int ((tau - 0) / dtau)).toNat : α) := by linarith
    rw [zero_add]
    exact mul_lt_mul_of_pos_right this hd
  · rw [hcast]
    have h1 : ((⌊(tau - 0) / dtau⌋ : Int) : α) ≤ (tau - 0) / dtau := Int.floor_le _
    have h2 := mul_le_mul_of_nonneg_right h1 hd.le
    rw [div_mul_cancel₀ _ hd.ne.symm] at h2
    exact le_trans h2 (by rw [sub_zero])

/-- C20: when `0 < tau < delta_tau` the step count `trunc(tau/delta_tau)` is 0, so for every
store `get_hydro_energy_source_before_tau` returns `(0, 0, 0, 0)` and
`get_hydro_rhob_source_before_tau` returns 0. More generally, for `delta_tau > 0` and `tau > 0`
every sample time lies below `trunc(tau/delta_tau)*delta_tau <= tau`, and two values of `tau`
with the same step count give the same accumulated sums (the results times `tau`): what lies
between `trunc(tau/delta_tau)*delta_tau` and `tau` contributes nothing. -/
theorem pre_integrator_ignores_last_incomplete_step (m : cmath α) (hs : hydro_source α)
    (tau x y eta_s : α) (h0 : 0 < tau) (h1 : tau < hs.DATA_ptr.delta_tau) :
    (trunc_int ((tau - 0) / hs.DATA_ptr.delta_tau) = 0
        ∧ get_hydro_energy_source_before_tau m hs tau x y eta_s = some Vec4.zero
        ∧ get_hydro_rhob_source_before_tau m hs tau x y eta_s = some 0)
      ∧ (∀ t : α, 0 < t →
          (∀ i : Nat, i < (trunc_int ((t - 0) / hs.DATA_ptr.delta_tau)).toNat →
            0 + ((i : α) + 1 / 2) * hs.DATA_ptr.delta_tau
              < ((trunc_int ((t - 0) / hs.DATA_ptr.delta_tau)).toNat : α)
                * hs.DATA_ptr.delta_tau)
          ∧ ((trunc_int ((t - 0) / hs.DATA_ptr.delta_tau)).toNat : α) * hs.DATA_ptr.delta_tau
              ≤ t)
      ∧ (∀ t1 t2 : α, 0 < t1 → 0 < t2 →
          trunc_int ((t1 - 0) / hs.DATA_ptr.delta_tau)
            = trunc_int ((t2 - 0) / hs.DATA_ptr.delta_tau) →
          (get_hydro_rhob_source_before_tau m hs t1 x y eta_s).map (fun r => r * t1)
              = (get_hydro_rhob_source_before_tau m hs t2 x y eta_s).map (fun r => r * t2)
            ∧ (get_hydro_energy_source_before_tau m hs t1 x y eta_s).map
                (fun j => j.scale t1)
              = (get_hydro_energy_source_before_tau m hs t2 x y eta_s).map
                (fun j => j.scale t2)) := by
  have hd : 0 < hs.DATA_ptr.delta_tau := lt_trans h0 h1
  have hq0 : 0 ≤ (tau - 0) / hs.DATA_ptr.delta_tau := by
    rw [sub_zero]
    exact (div_pos h0 hd).le
  have hq1 : (tau - 0) / hs.DATA_ptr.delta_tau < 1 := by
    rw [sub_zero]
    exact (div_lt_one hd).mpr h1
  have hn := trunc_int_of_lt_one hq0 hq1
  refine ⟨⟨hn, ?_, ?_⟩, fun t ht => sample_times_bound _ t hd ht, ?_⟩
  · unfold get_hydro_energy_source_before_tau
    simp only [fdiv_of_ne _ hd.ne.symm, hn, Option.some_bind, Option.bind_eq_bind,
      Int.toNat_zero, List.range_zero, List.foldlM_nil, pure, Vec4.zero, fdiv_of_ne _ h0.ne.symm,
      zero_div]
  · unfold get_hydro_rhob_source_before_tau
    simp only [fdiv_of_ne _ hd.ne.symm, hn, Option.some_bind, Option.bind_eq_bind,
      Int.toNat_zero, List.range_zero, List.foldlM_nil, pure, fdiv_of_ne _ h0.ne.symm,
      zero_div]
  · intro t1 t2 ht1 ht2 hsame
    constructor
    · unfold get_hydro_rhob_source_before_tau
      simp only [fdiv_of_ne _ hd.ne.symm, hsame, Option.some_bind, Option.bind_eq_bind]
      cases (List.range (trunc_int ((t2 - 0) / hs.DATA_ptr.delta_tau)).toNat).foldlM
          (rhob_before_tau_step m hs x y eta_s hs.DATA_ptr.delta_tau) 0 with
      | none => rfl
      | some r =>
        simp only [Option.some_bind, fdiv_of_ne _ ht1.ne.symm, fdiv_of_ne _ ht2.ne.symm,
          Option.map_some', div_mul_cancel₀ _ ht1.ne.symm, div_mul_cancel₀ _ ht2.ne.symm]
    · unfold get_hydro_energy_source_before_tau
      simp only [fdiv_of_ne _ hd.ne.symm, hsame, Option.some_bind, Option.bind_eq_bind]
      cases (List.range (trunc_int ((t2 - 0) / hs.DATA_ptr.delta_tau)).toNat).foldlM
          (energy_before_tau_step m hs x y eta_s hs.DATA_ptr.delta_tau
            { c0 := 1, c1 := 0, c2 := 0, c3 := 0 }) Vec4.zero with
      | none => rfl
      | some r =>
        simp only [Option.some_bind, fdiv_of_ne _ ht1.ne.symm, fdiv_of_ne _ ht2.ne.symm,
          Option.map_some', pure, Vec4.scale, div_mul_cancel₀ _ ht1.ne.symm,
          div_mul_cancel₀ _ ht2.ne.symm]

/-- C20 at a point: step width 1, `tau = 1/2`, the store holding the parton of the examples. -/
theorem pre_integrator_ignores_last_incomplete_step_witness :
    (0 : ℝ) < 1 / 2 ∧ (1 / 2 : ℝ) < (demo_store ℝ 30 0 1 [] [demo_parton ℝ]).DATA_ptr.delta_tau
      ∧ trunc_int (((1 / 2 : ℝ) - 0) / (demo_store ℝ 30 0 1 [] [demo_parton ℝ]).DATA_ptr.delta_tau)
          = 0
      ∧ get_hydro_energy_source_before_tau (real_cmath (19733 / 100000))
          (demo_store ℝ 30 0 1 [] [demo_parton ℝ]) (1 / 2) 0 0 0 = some Vec4.zero
      ∧ get_hydro_rhob_source_before_tau (real_cmath (19733 / 100000))
          (demo_store ℝ 30 0 1 [] [demo_parton ℝ]) (1 / 2) 0 0 0 = some 0 :=
  ⟨by norm_num, by norm_num [demo_store, demo_data],
    (pre_integrator_ignores_last_incomplete_step (real_cmath (19733 / 100000))
      (demo_store ℝ 30 0 1 [] [demo_parton ℝ]) (1 / 2) 0 0 0 (by norm_num)
      (by norm_num [demo_store, demo_data])).1⟩

end step_count

section strings_general

variable {α : Type} [LinearOrderedField α]

/-- What one string adds to the accumulator, in the source's own terms, whenever the divisions
of the loop body are defined. -/
theorem energy_string_body_value (m : cmath α) (hs : hydro_source α) (tau x y eta_s : α)
    (j : Vec4 α) (s : QCD_string α) (h1 : hs.sigma_tau ≠ 0) (h2 : hs.sigma_x ≠ 0)
    (h3 : hs.sigma_eta ≠ 0) (hb : m.hbarc ≠ 0) (ht : s.tau_form ≠ 0)
    (hLR : string_right hs s - string_left hs s ≠ 0) :
    energy_string_body m hs tau x y eta_s j s
      = some (if string_in_box hs tau x y eta_s s then
          { c0 := j.c0 + m.cosh (string_y_interp hs eta_s s - eta_s)
              * e_local_value m hs tau x y eta_s s
            c1 := j.c1 + 0
            c2 := j.c2 + 0
            c3 := j.c3 + m.sinh (string_y_interp hs eta_s s - eta_s)
              * e_local_value m hs tau x y eta_s s }
        else j) := by
  unfold energy_string_body string_in_box
  by_cases c1 : |tau - s.tau_form| > 5 * hs.sigma_tau
  · simp [c1, not_le.mpr c1]
  by_cases c2 : |x - s.x_perp| > 5 * hs.sigma_x
  · simp [c1, c2, not_le.mpr c2]
  by_cases c3 : |y - s.y_perp| > 5 * hs.sigma_x
  · simp [c1, c2, c3, not_le.mpr c3]
  have hL : (if hs.string_dump_mode = 2 then s.y_l else s.eta_s_left) = string_left hs s := rfl
  have hR : (if hs.string_dump_mode = 2 then s.y_r else s.eta_s_right) = string_right hs s := rfl
  simp only [hL, hR, c1, c2, c3, if_false]
  by_cases c4 : eta_s < string_left hs s - 5 * hs.sigma_eta
      ∨ eta_s > string_right hs s + 5 * hs.sigma_eta
  · have : ¬ (string_left hs s - 5 * hs.sigma_eta ≤ eta_s
        ∧ eta_s ≤ string_right hs s + 5 * hs.sigma_eta) := by
      rintro ⟨a, b⟩
      rcases c4 with c | c
      · exact absurd a (not_le.mpr c)
      · exact absurd b (not_le.mpr c)
    simp only [c4, if_true]
    rw [if_neg (fun hh => this hh.2.2.2)]
  have c4a : string_left hs s - 5 * hs.sigma_eta ≤ eta_s := by
    by_contra hh; exact c4 (Or.inl (not_le.mp hh))
  have c4b : eta_s ≤ string_right hs s + 5 * hs.sigma_eta := by
    by_contra hh; exact c4 (Or.inr (not_le.mp hh))
  have hbox : |tau - s.tau_form| ≤ 5 * hs.sigma_tau ∧ |x - s.x_perp| ≤ 5 * hs.sigma_x
      ∧ |y - s.y_perp| ≤ 5 * hs.sigma_x
      ∧ string_left hs s - 5 * hs.sigma_eta ≤ eta_s
      ∧ eta_s ≤ string_right hs s + 5 * hs.sigma_eta :=
    ⟨not_lt.mp c1, not_lt.mp c2, not_lt.mp c3, c4a, c4b⟩
  simp only [c4, if_false, hbox, if_true, and_self, fdiv_of_ne _ ht,
    fdiv_of_ne _ (mul_ne_zero h1 h1), fdiv_of_ne _ (mul_ne_zero h2 h2),
    fdiv_of_ne _ (mul_ne_zero h3 h3), fdiv_of_ne _ hb, fdiv_of_ne _ hLR, Option.some_bind,
    Option.bind_eq_bind, Option.map_some']
  unfold e_local_value exp_eta_s_value string_y_interp
  by_cases a : eta_s < string_left hs s <;> by_cases b : eta_s > string_right hs s <;>
    simp only [a, b, if_true, if_false, Option.some_bind, pure]

/-- The string branch of the energy source at a point that passes the global cutoff, whenever
every division it executes is defined. -/
theorem energy_source_strings_value (m : cmath α) (hs : hydro_source α) (tau x y eta_s : α)
    (u_mu : Vec4 α) (hprofile : hs.DATA_ptr.Initial_profile = 12)
    (h1 : hs.sigma_tau ≠ 0) (h2 : hs.sigma_x ≠ 0) (h3 : hs.sigma_eta ≠ 0)
    (hpi : m.M_PI ≠ 0) (hsq : m.sqrt m.M_PI ≠ 0) (hb : m.hbarc ≠ 0)
    (hstrings : ∀ s ∈ hs.QCD_strings_list,
      s.tau_form ≠ 0 ∧ string_right hs s - string_left hs s ≠ 0)
    (hcut : tau - hs.source_tau_max < 5 * hs.sigma_tau) :
    get_hydro_energy_source m hs tau x y eta_s u_mu
      = some (string_current_value m hs tau x y eta_s) := by
  have d1 : m.M_PI * hs.sigma_x * hs.sigma_x ≠ 0 := mul_ne_zero (mul_ne_zero hpi h2) h2
  have d2 : m.sqrt m.M_PI * hs.sigma_tau ≠ 0 := mul_ne_zero hsq h1
  have hfold := foldlM_eq_foldl (energy_string_body m hs tau x y eta_s) _
    hs.QCD_strings_list Vec4.zero
    (fun s hmem j => energy_string_body_value m hs tau x y eta_s j s h1 h2 h3 hb
      (hstrings s hmem).1 (hstrings s hmem).2)
  unfold get_hydro_energy_source
  simp only [hprofile, hcut, if_true]
  rw [fdiv_of_ne _ d1, fdiv_of_ne _ d2, hfold, foldl_vec4_sum]
  simp only [Option.some_bind, Option.bind_eq_bind, pure, Vec4.scale, Vec4.zero,
    string_current_value, zero_add, List.map_const', List.sum_replicate, smul_zero, zero_mul]

end strings_general

section dump_mode_two

/-- C17: string variant with `string_dump_mode == 2`, every string with `y_l != y_r` (and a
non-zero formation time; widths and `hbarc` non-zero): at every point the interpolated rapidity of
every string equals `eta_s`, and the energy source is `(j0, 0, 0, 0)` with
`j0 = 1/(pi*sigma_x^2) * 1/(sqrt(pi)*sigma_tau) * SUM e_local` over the strings passing the
cutoffs (the global proper-time cutoff and the four box cutoffs), `e_local` being the value the
source computes in lines 196-213: no longitudinal component anywhere. -/
theorem dump_mode_two_has_no_longitudinal_current (hbarc : ℝ) (hs : hydro_source ℝ)
    (tau x y eta_s : ℝ) (u_mu : Vec4 ℝ) (hprofile : hs.DATA_ptr.Initial_profile = 12)
    (hmode : hs.string_dump_mode = 2)
    (hwidths : 0 < hs.sigma_tau ∧ 0 < hs.sigma_x ∧ 0 < hs.sigma_eta) (hbar : hbarc ≠ 0)
    (hstrings : ∀ s ∈ hs.QCD_strings_list, s.tau_form ≠ 0 ∧ s.y_l ≠ s.y_r) :
    (∀ s ∈ hs.QCD_strings_list, string_y_interp hs eta_s s = eta_s)
      ∧ get_hydro_energy_source (real_cmath hbarc) hs tau x y eta_s u_mu
        = some { c0 := if tau - hs.source_tau_max < 5 * hs.sigma_tau then
                    1 / (Real.pi * hs.sigma_x ^ 2) * (1 / (Real.sqrt Real.pi * hs.sigma_tau))
                      * ((hs.QCD_strings_list.filter
                            (fun s => decide (string_in_box hs tau x y eta_s s))).map
                          (e_local_value (real_cmath hbarc) hs tau x y eta_s)).sum
                  else 0
                 c1 := 0, c2 := 0, c3 := 0 } := by
  obtain ⟨w1, w2, w3⟩ := hwidths
  have hLR : ∀ s ∈ hs.QCD_strings_list, string_right hs s - string_left hs s ≠ 0 := by
    intro s hmem
    simp only [string_left, string_right, hmode, if_true]
    exact sub_ne_zero.mpr (hstrings s hmem).2.symm
  have hinterp : ∀ s ∈ hs.QCD_strings_list, string_y_interp hs eta_s s = eta_s := by
    intro s hmem
    have hd := hLR s hmem
    simp only [string_left, string_right, hmode, if_true] at hd
    simp only [string_y_interp, string_left, string_right, hmode, if_true]
    rw [div_self hd]
    ring
  refine ⟨hinterp, ?_⟩
  by_cases hcut : tau - hs.source_tau_max < 5 * hs.sigma_tau
  · rw [energy_source_strings_value (real_cmath hbarc) hs tau x y eta_s u_mu hprofile
      w1.ne.symm w2.ne.symm w3.ne.symm Real.pi_ne_zero (Real.sqrt_pos.mpr Real.pi_pos).ne.symm
      hbar (fun s hmem => ⟨(hstrings s hmem).1, hLR s hmem⟩) hcut, if_pos hcut]
    have hc : ∀ s ∈ hs.QCD_strings_list.filter
        (fun s => decide (string_in_box hs tau x y eta_s s)),
        (real_cmath hbarc).cosh (string_y_interp hs eta_s s - eta_s)
            * e_local_value (real_cmath hbarc) hs tau x y eta_s s
          = e_local_value (real_cmath hbarc) hs tau x y eta_s s := by
      intro s hmem
      rw [hinterp s (List.mem_of_mem_filter hmem), sub_self]
      show Real.cosh 0 * _ = _
      rw [Real.cosh_zero, one_mul]
    have hsn : ∀ s ∈ hs.QCD_strings_list.filter
        (fun s => decide (string_in_box hs tau x y eta_s s)),
        (real_cmath hbarc).sinh (string_y_interp hs eta_s s - eta_s)
            * e_local_value (real_cmath hbarc) hs tau x y eta_s s
          = (fun _ => (0 : ℝ)) s := by
      intro s hmem
      rw [hinterp s (List.mem_of_mem_filter hmem), sub_self]
      show Real.sinh 0 * _ = 0
      rw [Real.sinh_zero, zero_mul]
    simp only [string_current_value]
    rw [List.map_congr_left hc, List.map_congr_left hsn]
    simp only [List.map_const', List.sum_replicate, smul_zero, zero_mul]
    have hM : (real_cmath hbarc).M_PI = Real.pi := rfl
    have hS : (real_cmath hbarc).sqrt = Real.sqrt := rfl
    rw [hM, hS]
    congr 2
    ring
  · rw [energy_source_past_cutoff _ hs tau x y eta_s u_mu hcut, if_neg hcut]
    rfl

/-- C17 at a point: dump mode 2, one string with `y_l = -1`, `y_r = 1`, seen from the origin at
its formation time. -/
theorem dump_mode_two_has_no_longitudinal_current_witness :
    (∀ s ∈ (demo_store ℝ 12 2 1 [demo_string ℝ] []).QCD_strings_list,
        string_y_interp (demo_store ℝ 12 2 1 [demo_string ℝ] []) 0 s = 0)
      ∧ get_hydro_energy_source (real_cmath (19733 / 100000))
          (demo_store ℝ 12 2 1 [demo_string ℝ] []) 1 0 0 0 Vec4.zero
        = some { c0 := if (1 : ℝ) - (demo_store ℝ 12 2 1 [demo_string ℝ] []).source_tau_max
                      < 5 * (demo_store ℝ 12 2 1 [demo_string ℝ] []).sigma_tau then
                    1 / (Real.pi * (demo_store ℝ 12 2 1 [demo_string ℝ] []).sigma_x ^ 2)
                      * (1 / (Real.sqrt Real.pi
                          * (demo_store ℝ 12 2 1 [demo_string ℝ] []).sigma_tau))
                      * (((demo_store ℝ 12 2 1 [demo_string ℝ] []).QCD_strings_list.filter
                            (fun s => decide (string_in_box
                              (demo_store ℝ 12 2 1 [demo_string ℝ] []) 1 0 0 0 s))).map
                          (e_local_value (real_cmath (19733 / 100000))
                            (demo_store ℝ 12 2 1 [demo_string ℝ] []) 1 0 0 0)).sum
                  else 0
                 c1 := 0, c2 := 0, c3 := 0 } :=
  dump_mode_two_has_no_longitudinal_current (19733 / 100000)
    (demo_store ℝ 12 2 1 [demo_string ℝ] []) 1 0 0 0 Vec4.zero rfl rfl
    (by norm_num [demo_store]) (by norm_num)
    (by norm_num [demo_store, demo_string])

end dump_mode_two

section unused_fields

variable {α : Type} [LinearOrderedField α]

/-- Two loops whose bodies agree on related elements return the same result on related lists. -/
theorem foldlM_congr_forall₂ {β γ δ : Type} (f : γ → β → Option γ) (g : γ → δ → Option γ)
    (R : β → δ → Prop) (h : ∀ j s t, R s t → f j s = g j t) :
    ∀ (l1 : List β) (l2 : List δ), List.Forall₂ R l1 l2 →
      ∀ j, l1.foldlM f j = l2.foldlM g j
  | [], _, hr, j => by
    cases hr
    rfl
  | s :: l1, _, hr, j => by
    cases hr with
    | cons hst hrest =>
      rw [List.foldlM_cons, List.foldlM_cons, h j s _ hst]
      cases g j _ with
      | none => rfl
      | some j1 => exact foldlM_congr_forall₂ f g R h l1 _ hrest j1

/-- C19: string variant, two stores that share `source_tau_max`, the widths, `sFactor` and
`string_dump_mode`, and whose string lists agree string by string on `tau_form`, `x_perp`,
`y_perp`, `eta_s_left`, `eta_s_right`, `y_l`, `y_r` (only `norm` and `delta_E` may differ):
`get_hydro_energy_source` returns the same result at every point. -/
theorem string_current_ignores_norm_and_delta_E (m : cmath α) (hs1 hs2 : hydro_source α)
    (tau x y eta_s : α) (u_mu : Vec4 α)
    (hprofile1 : hs1.DATA_ptr.Initial_profile = 12)
    (hprofile2 : hs2.DATA_ptr.Initial_profile = 12)
    (hfactor : hs2.DATA_ptr.sFactor = hs1.DATA_ptr.sFactor)
    (hmax : hs2.source_tau_max = hs1.source_tau_max)
    (hwidths : hs2.sigma_tau = hs1.sigma_tau ∧ hs2.sigma_x = hs1.sigma_x
      ∧ hs2.sigma_eta = hs1.sigma_eta)
    (hmode : hs2.string_dump_mode = hs1.string_dump_mode)
    (hlists : List.Forall₂ same_geometry hs1.QCD_strings_list hs2.QCD_strings_list) :
    get_hydro_energy_source m hs1 tau x y eta_s u_mu
      = get_hydro_energy_source m hs2 tau x y eta_s u_mu := by
  obtain ⟨w1, w2, w3⟩ := hwidths
  have hbody : ∀ (j : Vec4 α) (s t : QCD_string α), same_geometry s t →
      energy_string_body m hs1 tau x y eta_s j s = energy_string_body m hs2 tau x y eta_s j t := by
    intro j s t hst
    obtain ⟨g1, g2, g3, g4, g5, g6, g7⟩ := hst
    unfold energy_string_body
    simp only [w1, w2, w3, hmode, hfactor, g1, g2, g3, g4, g5, g6, g7]
  have hfold := foldlM_congr_forall₂ _ _ same_geometry hbody _ _ hlists Vec4.zero
  unfold get_hydro_energy_source
  simp only [hprofile1, hprofile2, if_true, hmax, w1, w2, hfold]

/-- C19 at a point: the string of the examples and the same string with `norm = 7`,
`delta_E = 3`. -/
theorem string_current_ignores_norm_and_delta_E_witness :
    get_hydro_energy_source (real_cmath (19733 / 100000))
        (demo_store ℝ 12 0 1 [demo_string ℝ] []) 1 0 0 0 Vec4.zero
      = get_hydro_energy_source (real_cmath (19733 / 100000))
        (demo_store ℝ 12 0 1 [demo_string_rescaled ℝ] []) 1 0 0 0 Vec4.zero :=
  string_current_ignores_norm_and_delta_E (real_cmath (19733 / 100000))
    (demo_store ℝ 12 0 1 [demo_string ℝ] []) (demo_store ℝ 12 0 1 [demo_string_rescaled ℝ] [])
    1 0 0 0 Vec4.zero rfl rfl rfl rfl ⟨rfl, rfl, rfl⟩ rfl
    (List.Forall₂.cons ⟨rfl, rfl, rfl, rfl, rfl, rfl, rfl⟩ List.Forall₂.nil)

end unused_fields

section forward_cone

/-- The sum of two future-directed vectors that are timelike or null is one. -/
theorem forward_cone_add (a0 a1 a2 a3 b0 b1 b2 b3 : ℝ) (ha0 : 0 ≤ a0)
    (ha : a1 ^ 2 + a2 ^ 2 + a3 ^ 2 ≤ a0 ^ 2) (hb0 : 0 ≤ b0)
    (hb : b1 ^ 2 + b2 ^ 2 + b3 ^ 2 ≤ b0 ^ 2) :
    0 ≤ a0 + b0 ∧ (a1 + b1) ^ 2 + (a2 + b2) ^ 2 + (a3 + b3) ^ 2 ≤ (a0 + b0) ^ 2 := by
  refine ⟨add_nonneg ha0 hb0, ?_⟩
  have hcs : (a1 * b1 + a2 * b2 + a3 * b3) ^ 2 ≤ (a0 * b0) ^ 2 := by
    have lagrange : (a1 * b1 + a2 * b2 + a3 * b3) ^ 2
        ≤ (a1 ^ 2 + a2 ^ 2 + a3 ^ 2) * (b1 ^ 2 + b2 ^ 2 + b3 ^ 2) := by
      nlinarith [sq_nonneg (a1 * b2 - a2 * b1), sq_nonneg (a1 * b3 - a3 * b1),
        sq_nonneg (a2 * b3 - a3 * b2)]
    have hprod : (a1 ^ 2 + a2 ^ 2 + a3 ^ 2) * (b1 ^ 2 + b2 ^ 2 + b3 ^ 2)
        ≤ a0 ^ 2 * b0 ^ 2 :=
      mul_le_mul ha hb (by positivity) (by positivity)
    calc (a1 * b1 + a2 * b2 + a3 * b3) ^ 2
        ≤ a0 ^ 2 * b0 ^ 2 := le_trans lagrange hprod
      _ = (a0 * b0) ^ 2 := by ring
  have hdot : a1 * b1 + a2 * b2 + a3 * b3 ≤ a0 * b0 :=
    le_trans (le_abs_self _) (abs_le_of_sq_le_sq hcs (mul_nonneg ha0 hb0))
  nlinarith [hdot, ha, hb]

/-- A sum of future-directed timelike-or-null vectors, taken component by component over a
list, is future-directed and timelike or null. -/
theorem forward_cone_sum {β : Type} (t0 t1 t2 t3 : β → ℝ) :
    ∀ l : List β,
      (∀ b ∈ l, 0 ≤ t0 b ∧ t1 b ^ 2 + t2 b ^ 2 + t3 b ^ 2 ≤ t0 b ^ 2) →
      0 ≤ (l.map t0).sum
        ∧ (l.map t1).sum ^ 2 + (l.map t2).sum ^ 2 + (l.map t3).sum ^ 2 ≤ (l.map t0).sum ^ 2
  | [], _ => by simp
  | b :: l, h => by
    have hb := h b (List.mem_cons_self b l)
    have hl := forward_cone_sum t0 t1 t2 t3 l (fun c hc => h c (List.mem_cons_of_mem b hc))
    simp only [List.map_cons, List.sum_cons]
    exact forward_cone_add _ _ _ _ _ _ _ _ hb.1 hb.2 hl.1 hl.2

/-- The contribution of one parton with positive proper time is future-directed and timelike
or null. -/
theorem parton_term_forward (hbarc : ℝ) (hs : hydro_source ℝ) (tau x y eta_s : ℝ)
    (p : parton ℝ) (ht : 0 < p.tau) :
    0 ≤ parton_smear (real_cmath hbarc) hs parton.eta_s tau x y eta_s p
          * (parton_m_perp (real_cmath hbarc) p * (real_cmath hbarc).cosh (p.rapidity - eta_s))
      ∧ (parton_smear (real_cmath hbarc) hs parton.eta_s tau x y eta_s p * p.px) ^ 2
          + (parton_smear (real_cmath hbarc) hs parton.eta_s tau x y eta_s p * p.py) ^ 2
          + (parton_smear (real_cmath hbarc) hs parton.eta_s tau x y eta_s p
              * (parton_m_perp (real_cmath hbarc) p
                * (real_cmath hbarc).sinh (p.rapidity - eta_s))) ^ 2
        ≤ (parton_smear (real_cmath hbarc) hs parton.eta_s tau x y eta_s p
            * (parton_m_perp (real_cmath hbarc) p
              * (real_cmath hbarc).cosh (p.rapidity - eta_s))) ^ 2 := by
  have hf : 0 ≤ parton_smear (real_cmath hbarc) hs parton.eta_s tau x y eta_s p := by
    unfold parton_smear
    have : 0 < 1 / p.tau := one_div_pos.mpr ht
    exact mul_nonneg (mul_nonneg (mul_nonneg this.le (Real.exp_pos _).le) (Real.exp_pos _).le)
      (Real.exp_pos _).le
  have hm : 0 ≤ parton_m_perp (real_cmath hbarc) p := Real.sqrt_nonneg _
  have hm2 : parton_m_perp (real_cmath hbarc) p ^ 2 = p.mass ^ 2 + p.px ^ 2 + p.py ^ 2 :=
    Real.sq_sqrt (by positivity)
  have hc : (real_cmath hbarc).cosh (p.rapidity - eta_s) ^ 2
      = (real_cmath hbarc).sinh (p.rapidity - eta_s) ^ 2 + 1 := Real.cosh_sq _
  have hcpos : 0 ≤ (real_cmath hbarc).cosh (p.rapidity - eta_s) := (Real.cosh_pos _).le
  refine ⟨mul_nonneg hf (mul_nonneg hm hcpos), ?_⟩
  have key : p.px ^ 2 + p.py ^ 2
      + (parton_m_perp (real_cmath hbarc) p * (real_cmath hbarc).sinh (p.rapidity - eta_s)) ^ 2
      ≤ (parton_m_perp (real_cmath hbarc) p
          * (real_cmath hbarc).cosh (p.rapidity - eta_s)) ^ 2 := by
    rw [mul_pow, mul_pow, hc, hm2]
    nlinarith [sq_nonneg p.mass, sq_nonneg ((real_cmath hbarc).sinh (p.rapidity - eta_s))]
  have hf2 := sq_nonneg (parton_smear (real_cmath hbarc) hs parton.eta_s tau x y eta_s p)
  calc (parton_smear (real_cmath hbarc) hs parton.eta_s tau x y eta_s p * p.px) ^ 2
        + (parton_smear (real_cmath hbarc) hs parton.eta_s tau x y eta_s p * p.py) ^ 2
        + (parton_smear (real_cmath hbarc) hs parton.eta_s tau x y eta_s p
            * (parton_m_perp (real_cmath hbarc) p
              * (real_cmath hbarc).sinh (p.rapidity - eta_s))) ^ 2
      = parton_smear (real_cmath hbarc) hs parton.eta_s tau x y eta_s p ^ 2
          * (p.px ^ 2 + p.py ^ 2 + (parton_m_perp (real_cmath hbarc) p
              * (real_cmath hbarc).sinh (p.rapidity - eta_s)) ^ 2) := by ring
    _ ≤ parton_smear (real_cmath hbarc) hs parton.eta_s tau x y eta_s p ^ 2
          * (parton_m_perp (real_cmath hbarc) p
              * (real_cmath hbarc).cosh (p.rapidity - eta_s)) ^ 2 :=
        mul_le_mul_of_nonneg_left key hf2
    _ = (parton_smear (real_cmath hbarc) hs parton.eta_s tau x y eta_s p
            * (parton_m_perp (real_cmath hbarc) p
              * (real_cmath hbarc).cosh (p.rapidity - eta_s))) ^ 2 := by ring

/-- C18: parton variant, every parton with `tau > 0`, `sFactor/hbarc >= 0` (widths and `hbarc`
non-zero): at every point the energy source is future-directed and timelike, null or zero:
`j[0] >= 0` and `j[0]^2 >= j[1]^2 + j[2]^2 + j[3]^2`. -/
theorem parton_current_is_future_directed (hbarc : ℝ) (hs : hydro_source ℝ)
    (tau x y eta_s : ℝ) (u_mu : Vec4 ℝ) (hprofile : hs.DATA_ptr.Initial_profile = 30)
    (hwidths : 0 < hs.sigma_tau ∧ 0 < hs.sigma_x ∧ 0 < hs.sigma_eta) (hbar : hbarc ≠ 0)
    (hscale : 0 ≤ hs.DATA_ptr.sFactor / hbarc)
    (hpartons : ∀ p ∈ hs.parton_list, 0 < p.tau) :
    ∃ j, get_hydro_energy_source (real_cmath hbarc) hs tau x y eta_s u_mu = some j
      ∧ 0 ≤ j.c0 ∧ j.c1 ^ 2 + j.c2 ^ 2 + j.c3 ^ 2 ≤ j.c0 ^ 2 := by
  obtain ⟨w1, w2, w3⟩ := hwidths
  by_cases hcut : tau - hs.source_tau_max < 5 * hs.sigma_tau
  · refine ⟨_, energy_source_partons_eq (real_cmath hbarc) hs tau x y eta_s u_mu hprofile
      w1.ne.symm w2.ne.symm w3.ne.symm Real.pi_ne_zero (Real.sqrt_pos.mpr Real.pi_pos).ne.symm
      hbar (fun p hp => (hpartons p hp).ne.symm) hcut, ?_⟩
    have hk : 0 ≤ parton_prefactor (real_cmath hbarc) hs := by
      unfold parton_prefactor
      have hsq : 0 < Real.sqrt Real.pi := Real.sqrt_pos.mpr Real.pi_pos
      have a : 0 ≤ 1 / ((real_cmath hbarc).M_PI * hs.sigma_x ^ 2) :=
        (one_div_pos.mpr (mul_pos Real.pi_pos (pow_pos w2 2))).le
      have b : 0 ≤ 1 / ((real_cmath hbarc).sqrt (real_cmath hbarc).M_PI * hs.sigma_tau) :=
        (one_div_pos.mpr (mul_pos hsq w1)).le
      have c : 0 ≤ 1 / ((real_cmath hbarc).sqrt (real_cmath hbarc).M_PI * hs.sigma_eta) :=
        (one_div_pos.mpr (mul_pos hsq w3)).le
      exact mul_nonneg (mul_nonneg (mul_nonneg hscale a) b) c
    obtain ⟨s0, s1⟩ := forward_cone_sum
      (fun p => parton_smear (real_cmath hbarc) hs parton.eta_s tau x y eta_s p
        * (parton_m_perp (real_cmath hbarc) p * (real_cmath hbarc).cosh (p.rapidity - eta_s)))
      (fun p => parton_smear (real_cmath hbarc) hs parton.eta_s tau x y eta_s p * p.px)
      (fun p => parton_smear (real_cmath hbarc) hs parton.eta_s tau x y eta_s p * p.py)
      (fun p => parton_smear (real_cmath hbarc) hs parton.eta_s tau x y eta_s p
        * (parton_m_perp (real_cmath hbarc) p * (real_cmath hbarc).sinh (p.rapidity - eta_s)))
      (hs.parton_list.filter (fun p => decide (parton_in_box hs parton.eta_s tau x y eta_s p)))
      (fun p hp => parton_term_forward hbarc hs tau x y eta_s p
        (hpartons p (List.mem_of_mem_filter hp)))
    simp only [parton_current]
    refine ⟨mul_nonneg hk s0, ?_⟩
    have hk2 := sq_nonneg (parton_prefactor (real_cmath hbarc) hs)
    have := mul_le_mul_of_nonneg_left s1 hk2
    simp only [mul_pow]
    linarith [this]
  · exact ⟨_, energy_source_past_cutoff _ hs tau x y eta_s u_mu hcut, le_refl _,
      by simp [Vec4.zero]⟩

/-- C18 at a point: the parton of the examples, seen from `eta_s = 1`. -/
theorem parton_current_is_future_directed_witness :
    ∃ j, get_hydro_energy_source (real_cmath (19733 / 100000))
        (demo_store ℝ 30 0 1 [] [demo_parton ℝ]) 1 0 0 1 Vec4.zero = some j
      ∧ 0 ≤ j.c0 ∧ j.c1 ^ 2 + j.c2 ^ 2 + j.c3 ^ 2 ≤ j.c0 ^ 2 :=
  parton_current_is_future_directed (19733 / 100000) (demo_store ℝ 30 0 1 [] [demo_parton ℝ])
    1 0 0 1 Vec4.zero rfl (by norm_num [demo_store]) (by norm_num)
    (by norm_num [demo_store, demo_data]) (by norm_num [demo_store, demo_parton])

end forward_cone

section division

theorem rhob_centre_of_profile_12 {α : Type} (hs : hydro_source α)
    (h : hs.DATA_ptr.Initial_profile = 12) :
    rhob_centre hs
      = fun q => if decide (hs.string_dump_mode = 2) then q.rapidity else q.eta_s := by
  funext q
  simp [rhob_centre, h]

theorem rhob_centre_of_profile_30 {α : Type} (hs : hydro_source α)
    (h : hs.DATA_ptr.Initial_profile = 30) :
    rhob_centre hs = fun q => if false then q.rapidity else q.eta_s := by
  funext q
  simp [rhob_centre, h]

variable {α : Type} [LinearOrderedField α]

/-- A loop one of whose elements makes the body fail, whatever the accumulator, fails. -/
theorem foldlM_none_of_mem {β γ : Type} (f : γ → β → Option γ) (b : β)
    (hb : ∀ j, f j b = none) :
    ∀ (l : List β), b ∈ l → ∀ j, l.foldlM f j = none
  | [], hmem, _ => by simp at hmem
  | a :: l, hmem, j => by
    rw [List.foldlM_cons]
    cases hfa : f j a with
    | none => rfl
    | some j1 =>
      rcases List.mem_cons.mp hmem with e | hl
      · rw [← e, hb j] at hfa
        cases hfa
      · exact foldlM_none_of_mem f b hb l hl j1

/-- A string whose interval has zero length and whose box holds the point makes the loop body
divide by zero in line 216. -/
theorem energy_string_body_zero_length (m : cmath α) (hs : hydro_source α) (tau x y eta_s : α)
    (j : Vec4 α) (s : QCD_string α) (h1 : hs.sigma_tau ≠ 0) (h2 : hs.sigma_x ≠ 0)
    (h3 : hs.sigma_eta ≠ 0) (hb : m.hbarc ≠ 0) (ht : s.tau_form ≠ 0)
    (hLR : string_right hs s - string_left hs s = 0)
    (hbox : string_in_box hs tau x y eta_s s) :
    energy_string_body m hs tau x y eta_s j s = none := by
  obtain ⟨b1, b2, b3, b4, b5⟩ := hbox
  have hL : (if hs.string_dump_mode = 2 then s.y_l else s.eta_s_left) = string_left hs s := rfl
  have hR : (if hs.string_dump_mode = 2 then s.y_r else s.eta_s_right) = string_right hs s := rfl
  have c4 : ¬ (eta_s < string_left hs s - 5 * hs.sigma_eta
      ∨ eta_s > string_right hs s + 5 * hs.sigma_eta) := by
    rintro (c | c)
    · exact absurd b4 (not_le.mpr c)
    · exact absurd b5 (not_le.mpr c)
  unfold energy_string_body
  simp only [hL, hR, not_lt.mpr b1, not_lt.mpr b2, not_lt.mpr b3, c4, if_false, gt_iff_lt,
    fdiv_of_ne _ ht, fdiv_of_ne _ (mul_ne_zero h1 h1), fdiv_of_ne _ (mul_ne_zero h2 h2),
    fdiv_of_ne _ (mul_ne_zero h3 h3), fdiv_of_ne _ hb, Option.some_bind, Option.bind_eq_bind,
    Option.map_some']
  have hz : fdiv (s.y_r - s.y_l) (string_right hs s - string_left hs s) = none := by
    simp [fdiv, hLR]
  by_cases a : eta_s < string_left hs s <;> by_cases b : string_right hs s < eta_s <;>
    simp [a, b, hz]

/-- The energy source has no value when the store of the string variant holds a string of zero
length whose box holds the point (and the point passes the global cutoff). -/
theorem energy_source_zero_length_string (m : cmath α) (hs : hydro_source α)
    (tau x y eta_s : α) (u_mu : Vec4 α) (s : QCD_string α)
    (hprofile : hs.DATA_ptr.Initial_profile = 12)
    (h1 : hs.sigma_tau ≠ 0) (h2 : hs.sigma_x ≠ 0) (h3 : hs.sigma_eta ≠ 0) (hb : m.hbarc ≠ 0)
    (hmem : s ∈ hs.QCD_strings_list) (ht : s.tau_form ≠ 0)
    (hLR : string_right hs s - string_left hs s = 0)
    (hbox : string_in_box hs tau x y eta_s s)
    (hcut : tau - hs.source_tau_max < 5 * hs.sigma_tau) :
    get_hydro_energy_source m hs tau x y eta_s u_mu = none := by
  have hfold := foldlM_none_of_mem (energy_string_body m hs tau x y eta_s) s
    (fun j => energy_string_body_zero_length m hs tau x y eta_s j s h1 h2 h3 hb ht hLR hbox)
    hs.QCD_strings_list hmem Vec4.zero
  unfold get_hydro_energy_source
  simp only [hprofile, hcut, if_true, hfold]
  cases fdiv 1 (m.M_PI * hs.sigma_x * hs.sigma_x) with
  | none => rfl
  | some a =>
    cases fdiv 1 (m.sqrt m.M_PI * hs.sigma_tau) with
    | none => rfl
    | some b => rfl

/-- Past the global cutoff the baryon source is 0. -/
theorem rhob_source_past_cutoff (m : cmath α) (hs : hydro_source α) (tau x y eta_s : α)
    (h : ¬ (tau - hs.source_tau_max < 5 * hs.sigma_tau)) :
    get_hydro_rhob_source m hs tau x y eta_s = some 0 := by
  unfold get_hydro_rhob_source
  simp only [h, if_false]
  split_ifs <;> rfl

/-- The loop of the baryon source over the partons, whenever its divisions are defined. -/
theorem rhob_fold_value (m : cmath α) (hs : hydro_source α) (tau x y eta_s : α) (b : Bool)
    (h1 : hs.sigma_tau ≠ 0) (h2 : hs.sigma_x ≠ 0) (h3 : hs.sigma_eta ≠ 0)
    (hpartons : ∀ p ∈ hs.parton_list, p.tau ≠ 0) :
    hs.parton_list.foldlM (rhob_parton_body m hs b tau x y eta_s) 0
      = some (0 + ((hs.parton_list.filter (fun p => decide (parton_in_box hs
            (fun q => if b then q.rapidity else q.eta_s) tau x y eta_s p))).map
          (parton_smear m hs (fun q => if b then q.rapidity else q.eta_s) tau x y eta_s)).sum) := by
  rw [foldlM_eq_foldl (rhob_parton_body m hs b tau x y eta_s) _ hs.parton_list 0
    (fun p hmem r => rhob_parton_body_eq m hs b tau x y eta_s r p h1 h2 h3 (hpartons p hmem)),
    foldl_sum]

/-- The baryon source without the global test is the claim's sum at every point, whenever every
division it executes is defined. -/
theorem rhob_source_no_global_eq (m : cmath α) (hs : hydro_source α) (tau x y eta_s : α)
    (hprofile : hs.DATA_ptr.Initial_profile = 12 ∨ hs.DATA_ptr.Initial_profile = 30)
    (h1 : hs.sigma_tau ≠ 0) (h2 : hs.sigma_x ≠ 0) (h3 : hs.sigma_eta ≠ 0)
    (hpi : m.M_PI ≠ 0) (hsq : m.sqrt m.M_PI ≠ 0)
    (hpartons : ∀ p ∈ hs.parton_list, p.tau ≠ 0) :
    get_hydro_rhob_source_no_global m hs tau x y eta_s
      = some (rhob_density m hs tau x y eta_s) := by
  have d1 : m.M_PI * hs.sigma_x * hs.sigma_x ≠ 0 := mul_ne_zero (mul_ne_zero hpi h2) h2
  have d2 : m.sqrt m.M_PI * hs.sigma_tau ≠ 0 := mul_ne_zero hsq h1
  have d3 : m.sqrt m.M_PI * hs.sigma_eta ≠ 0 := mul_ne_zero hsq h3
  unfold get_hydro_rhob_source_no_global
  rcases hprofile with h | h
  · simp only [h, if_true]
    rw [fdiv_of_ne _ d1, fdiv_of_ne _ d2, fdiv_of_ne _ d3,
      rhob_fold_value m hs tau x y eta_s _ h1 h2 h3 hpartons]
    simp only [Option.some_bind, Option.bind_eq_bind, pure, rhob_density,
      rhob_centre_of_profile_12 hs h, zero_add]
    congr 1; ring
  · have h12 : ¬ ((30 : Int) = 12) := by decide
    simp only [h, h12, if_true, if_false]
    rw [fdiv_of_ne _ d1, fdiv_of_ne _ d2, fdiv_of_ne _ d3,
      rhob_fold_value m hs tau x y eta_s _ h1 h2 h3 hpartons]
    simp only [Option.some_bind, Option.bind_eq_bind, pure, rhob_density,
      rhob_centre_of_profile_30 hs h, zero_add]
    congr 1; ring

/-- The baryon source is the claim's sum at every point that passes the global cutoff, whenever
every division it executes is defined. -/
theorem rhob_source_eq (m : cmath α) (hs : hydro_source α) (tau x y eta_s : α)
    (hprofile : hs.DATA_ptr.Initial_profile = 12 ∨ hs.DATA_ptr.Initial_profile = 30)
    (h1 : hs.sigma_tau ≠ 0) (h2 : hs.sigma_x ≠ 0) (h3 : hs.sigma_eta ≠ 0)
    (hpi : m.M_PI ≠ 0) (hsq : m.sqrt m.M_PI ≠ 0)
    (hpartons : ∀ p ∈ hs.parton_list, p.tau ≠ 0)
    (hcut : tau - hs.source_tau_max < 5 * hs.sigma_tau) :
    get_hydro_rhob_source m hs tau x y eta_s = some (rhob_density m hs tau x y eta_s) := by
  rw [← rhob_source_no_global_eq m hs tau x y eta_s hprofile h1 h2 h3 hpi hsq hpartons]
  unfold get_hydro_rhob_source get_hydro_rhob_source_no_global
  simp only [hcut, if_true]

/-- The string branch of the energy source without the global test, whenever every division it
executes is defined. -/
theorem energy_source_no_global_strings_value (m : cmath α) (hs : hydro_source α)
    (tau x y eta_s : α) (u_mu : Vec4 α) (hprofile : hs.DATA_ptr.Initial_profile = 12)
    (h1 : hs.sigma_tau ≠ 0) (h2 : hs.sigma_x ≠ 0) (h3 : hs.sigma_eta ≠ 0)
    (hpi : m.M_PI ≠ 0) (hsq : m.sqrt m.M_PI ≠ 0) (hb : m.hbarc ≠ 0)
    (hstrings : ∀ s ∈ hs.QCD_strings_list,
      s.tau_form ≠ 0 ∧ string_right hs s - string_left hs s ≠ 0) :
    get_hydro_energy_source_no_global m hs tau x y eta_s u_mu
      = some (string_current_value m hs tau x y eta_s) := by
  have d1 : m.M_PI * hs.sigma_x * hs.sigma_x ≠ 0 := mul_ne_zero (mul_ne_zero hpi h2) h2
  have d2 : m.sqrt m.M_PI * hs.sigma_tau ≠ 0 := mul_ne_zero hsq h1
  have hfold := foldlM_eq_foldl (energy_string_body m hs tau x y eta_s) _
    hs.QCD_strings_list Vec4.zero
    (fun s hmem j => energy_string_body_value m hs tau x y eta_s j s h1 h2 h3 hb
      (hstrings s hmem).1 (hstrings s hmem).2)
  unfold get_hydro_energy_source_no_global
  simp only [hprofile, if_true]
  rw [fdiv_of_ne _ d1, fdiv_of_ne _ d2, hfold, foldl_vec4_sum]
  simp only [Option.some_bind, Option.bind_eq_bind, pure, Vec4.scale, Vec4.zero,
    string_current_value, zero_add, List.map_const', List.sum_replicate, smul_zero, zero_mul]

end division

section valid_data

/-- C14 fails on the code: the store of the string variant with the constructor's widths,
`string_dump_mode == 2` and one string with `tau_form = 1 > 0`, `eta_s_left = -1 <= 1 =
eta_s_right`, `y_l = 0 <= 0 = y_r` satisfies the data-model invariants, yet at
`tau = 1, x = y = 0, eta_s = 0` line 216 divides by `eta_s_right - eta_s_left = y_r - y_l = 0`
and the energy source has no value. -/
theorem valid_store_divides_by_zero :
    (∀ s ∈ (demo_store ℝ 12 2 1 [flat_string ℝ] []).QCD_strings_list,
        0 < s.tau_form ∧ s.eta_s_left ≤ s.eta_s_right ∧ s.y_l ≤ s.y_r)
      ∧ (∀ p ∈ (demo_store ℝ 12 2 1 [flat_string ℝ] []).parton_list, 0 < p.tau)
      ∧ (demo_store ℝ 12 2 1 [flat_string ℝ] []).sigma_tau = 1 / 10
      ∧ (demo_store ℝ 12 2 1 [flat_string ℝ] []).sigma_x = 1 / 2
      ∧ (demo_store ℝ 12 2 1 [flat_string ℝ] []).sigma_eta = 1 / 2
      ∧ get_hydro_energy_source (real_cmath (19733 / 100000))
          (demo_store ℝ 12 2 1 [flat_string ℝ] []) 1 0 0 0 Vec4.zero = none := by
  refine ⟨by norm_num [demo_store, flat_string], by simp [demo_store], rfl, rfl, rfl, ?_⟩
  refine energy_source_zero_length_string (real_cmath (19733 / 100000))
    (demo_store ℝ 12 2 1 [flat_string ℝ] []) 1 0 0 0 Vec4.zero (flat_string ℝ) rfl
    (by norm_num [demo_store]) (by norm_num [demo_store]) (by norm_num [demo_store])
    (by norm_num [real_cmath]) (by simp [demo_store]) (by norm_num [flat_string]) ?_ ?_
    (by norm_num [demo_store])
  · norm_num [string_left, string_right, demo_store, flat_string]
  · unfold string_in_box
    norm_num [string_left, string_right, demo_store, flat_string]

end valid_data

section demo_ingestion

variable {α : Type} [LinearOrderedField α]

theorem demo_strings_line_holds :
    line_holds (demo_lib α) "1 1 1 0 0 -1 1 -1 1".toList (demo_string α) := by
  unfold line_holds
  simp [demo_lib, demo_extract, demo_string, digits_value, List.splitOn, List.splitOnP,
    List.splitOnP.go]

/-- The constructor run on the files of the examples (string variant): the store holds the string
formed at proper time 1 and the parton appearing at proper time 2, and `source_tau_max = 1`. -/
theorem demo_construction (m : cmath α) :
    hydro_source.ctor m (demo_lib α) demo_files 10 (demo_data α 12 0)
      = some (Except.ok (demo_store α 12 0 1 [demo_string α] [late_parton α])) := by
  have hS : ifstream.open demo_files "strings.dat"
      = { buf := "header".toList ++ '\n' :: lines_text ["1 1 1 0 0 -1 1 -1 1".toList],
          eofbit := false, failbit := false } := rfl
  have hP : ifstream.open demo_files "partons.dat"
      = { buf := "header".toList ++ '\n' :: lines_text ["2 0 0 0 0".toList],
          eofbit := false, failbit := false } := rfl
  have hSf : (ifstream.open demo_files "strings.dat").failbit = false := rfl
  have hPf : (ifstream.open demo_files "partons.dat").failbit = false := rfl
  have e1 := fun hs0 => eof_loop_file (string_line (demo_lib α)) "header".toList
    ["1 1 1 0 0 -1 1 -1 1".toList] hs0 10 _ hS (by decide) (by decide) (by decide)
  have e2 := fun hs0 => eof_loop_file (parton_line (demo_lib α)) "header".toList
    ["2 0 0 0 0".toList] hs0 10 _ hP (by decide) (by decide) (by decide)
  have h1230 : ¬ ((12 : Int) = 30) := by decide
  simp only [hydro_source.ctor, demo_data, read_in_QCD_strings_and_partons, if_true,
    strings_loop_eq, partons_loop_eq, hSf, hPf, Bool.false_eq_true, if_false, e1, e2, h1230,
    List.foldl_cons, List.foldl_nil]
  have hd := decode_string_of_holds (demo_lib α) "1 1 1 0 0 -1 1 -1 1".toList (demo_string α)
    demo_strings_line_holds
  have hp0 : (demo_lib α).extract "2 0 0 0 0".toList 0 = some 2 := by
    simp [demo_lib, demo_extract, digits_value, List.splitOn, List.splitOnP, List.splitOnP.go]
  have hp1 : (demo_lib α).extract "2 0 0 0 0".toList 1 = some 0 := by
    simp [demo_lib, demo_extract, digits_value, List.splitOn, List.splitOnP, List.splitOnP.go]
  have hp2 : (demo_lib α).extract "2 0 0 0 0".toList 2 = some 0 := by
    simp [demo_lib, demo_extract, digits_value, List.splitOn, List.splitOnP, List.splitOnP.go]
  have hp3 : (demo_lib α).extract "2 0 0 0 0".toList 3 = some 0 := by
    simp [demo_lib, demo_extract, digits_value, List.splitOn, List.splitOnP, List.splitOnP.go]
  have hp4 : (demo_lib α).extract "2 0 0 0 0".toList 4 = some 0 := by
    simp [demo_lib, demo_extract, digits_value, List.splitOn, List.splitOnP, List.splitOnP.go]
  have hlt : (0 : α) < (demo_string α).tau_form := by
    simp [demo_string]
  simp only [string_line, parton_line, hd, hlt, if_true, hp0, hp1, hp2, hp3, hp4,
    Option.getD_some, List.nil_append, demo_store, demo_data, late_parton, mul_one]
  rfl

end demo_ingestion

section global_cutoff

/-- The smearing weight of a parton with positive proper time is positive. -/
theorem parton_smear_pos (hbarc : ℝ) (hs : hydro_source ℝ) (c : parton ℝ → ℝ)
    (tau x y eta_s : ℝ) (p : parton ℝ) (ht : 0 < p.tau) :
    0 < parton_smear (real_cmath hbarc) hs c tau x y eta_s p := by
  unfold parton_smear
  exact mul_pos (mul_pos (mul_pos (one_div_pos.mpr ht) (Real.exp_pos _)) (Real.exp_pos _))
    (Real.exp_pos _)

/-- The energy scale of a string with positive formation time is positive when
`sFactor/hbarc` is. -/
theorem e_local_value_pos (hbarc : ℝ) (hs : hydro_source ℝ) (tau x y eta_s : ℝ)
    (s : QCD_string ℝ) (ht : 0 < s.tau_form) (hscale : 0 < hs.DATA_ptr.sFactor / hbarc) :
    0 < e_local_value (real_cmath hbarc) hs tau x y eta_s s := by
  have hw : 0 < exp_eta_s_value (real_cmath hbarc) hs eta_s s := by
    unfold exp_eta_s_value
    simp only
    split_ifs <;> first | exact Real.exp_pos _ | exact one_pos
  unfold e_local_value
  exact mul_pos (mul_pos (mul_pos (mul_pos (one_div_pos.mpr ht) (Real.exp_pos _))
    (Real.exp_pos _)) hw) hscale

/-- C16 fails on the code. The constructor run on a strings file whose only string forms at proper
time 1 and a partons file whose only parton appears at proper time 2 gives
`source_tau_max = 1`. At `tau = 2` (origin) the global test `tau - source_tau_max >= 5*sigma_tau`
makes `get_hydro_rhob_source` return 0, while the parton passes its own cutoffs and the function
without the global test returns a positive value. At `tau = 3/2`, where
`tau - source_tau_max = 5*sigma_tau` exactly, `get_hydro_energy_source` returns the zero vector
while the string formed at `source_tau_max` passes its own test `|tau_dis| > 5*sigma_tau` and the
function without the global test returns `j[0] > 0`. -/
theorem global_cutoff_changes_values :
    hydro_source.ctor (real_cmath (19733 / 100000)) (demo_lib ℝ) demo_files 10 (demo_data ℝ 12 0)
        = some (Except.ok (demo_store ℝ 12 0 1 [demo_string ℝ] [late_parton ℝ]))
      ∧ (2 : ℝ) - (demo_store ℝ 12 0 1 [demo_string ℝ] [late_parton ℝ]).source_tau_max
          ≥ 5 * (demo_store ℝ 12 0 1 [demo_string ℝ] [late_parton ℝ]).sigma_tau
      ∧ get_hydro_rhob_source (real_cmath (19733 / 100000))
          (demo_store ℝ 12 0 1 [demo_string ℝ] [late_parton ℝ]) 2 0 0 0 = some 0
      ∧ (∃ v, get_hydro_rhob_source_no_global (real_cmath (19733 / 100000))
          (demo_store ℝ 12 0 1 [demo_string ℝ] [late_parton ℝ]) 2 0 0 0 = some v ∧ 0 < v)
      ∧ (3 / 2 : ℝ) - (demo_store ℝ 12 0 1 [demo_string ℝ] [late_parton ℝ]).source_tau_max
          ≥ 5 * (demo_store ℝ 12 0 1 [demo_string ℝ] [late_parton ℝ]).sigma_tau
      ∧ get_hydro_energy_source (real_cmath (19733 / 100000))
          (demo_store ℝ 12 0 1 [demo_string ℝ] [late_parton ℝ]) (3 / 2) 0 0 0 Vec4.zero
          = some Vec4.zero
      ∧ (∃ j, get_hydro_energy_source_no_global (real_cmath (19733 / 100000))
          (demo_store ℝ 12 0 1 [demo_string ℝ] [late_parton ℝ]) (3 / 2) 0 0 0 Vec4.zero
          = some j ∧ 0 < j.c0) := by
  have hsq : 0 < Real.sqrt Real.pi := Real.sqrt_pos.mpr Real.pi_pos
  refine ⟨demo_construction _, by norm_num [demo_store],
    rhob_source_past_cutoff _ _ 2 0 0 0 (by norm_num [demo_store]), ?_,
    by norm_num [demo_store],
    energy_source_past_cutoff _ _ (3 / 2) 0 0 0 _ (by norm_num [demo_store]), ?_⟩
  · refine ⟨_, rhob_source_no_global_eq (real_cmath (19733 / 100000))
      (demo_store ℝ 12 0 1 [demo_string ℝ] [late_parton ℝ]) 2 0 0 0 (Or.inl rfl)
      (by norm_num [demo_store]) (by norm_num [demo_store]) (by norm_num [demo_store])
      Real.pi_ne_zero hsq.ne.symm (by norm_num [demo_store, late_parton]), ?_⟩
    have hbox : parton_in_box (demo_store ℝ 12 0 1 [demo_string ℝ] [late_parton ℝ])
        (rhob_centre (demo_store ℝ 12 0 1 [demo_string ℝ] [late_parton ℝ])) 2 0 0 0
        (late_parton ℝ) := by
      unfold parton_in_box
      norm_num [demo_store, late_parton, rhob_centre]
    have hlist : (demo_store ℝ 12 0 1 [demo_string ℝ] [late_parton ℝ]).parton_list
        = [late_parton ℝ] := rfl
    have hsm := parton_smear_pos (19733 / 100000)
      (demo_store ℝ 12 0 1 [demo_string ℝ] [late_parton ℝ])
      (rhob_centre (demo_store ℝ 12 0 1 [demo_string ℝ] [late_parton ℝ])) 2 0 0 0
      (late_parton ℝ) (by norm_num [late_parton])
    unfold rhob_density
    rw [hlist]
    simp only [List.filter_cons, hbox, decide_True, if_true, List.filter_nil, List.map_cons,
      List.map_nil, List.sum_cons, List.sum_nil, add_zero]
    have k1 : 0 < 1 / ((real_cmath (19733 / 100000)).sqrt (real_cmath (19733 / 100000)).M_PI
        * (demo_store ℝ 12 0 1 [demo_string ℝ] [late_parton ℝ]).sigma_tau) :=
      one_div_pos.mpr (mul_pos hsq (by norm_num [demo_store]))
    have k2 : 0 < 1 / ((real_cmath (19733 / 100000)).M_PI
        * (demo_store ℝ 12 0 1 [demo_string ℝ] [late_parton ℝ]).sigma_x ^ 2) :=
      one_div_pos.mpr (mul_pos Real.pi_pos (by norm_num [demo_store]))
    have k3 : 0 < 1 / ((real_cmath (19733 / 100000)).sqrt (real_cmath (19733 / 100000)).M_PI
        * (demo_store ℝ 12 0 1 [demo_string ℝ] [late_parton ℝ]).sigma_eta) :=
      one_div_pos.mpr (mul_pos hsq (by norm_num [demo_store]))
    exact mul_pos (mul_pos (mul_pos k1 k2) k3) hsm
  · refine ⟨_, energy_source_no_global_strings_value (real_cmath (19733 / 100000))
      (demo_store ℝ 12 0 1 [demo_string ℝ] [late_parton ℝ]) (3 / 2) 0 0 0 Vec4.zero rfl
      (by norm_num [demo_store]) (by norm_num [demo_store]) (by norm_num [demo_store])
      Real.pi_ne_zero hsq.ne.symm (by norm_num [real_cmath])
      (by norm_num [demo_store, demo_string, string_left, string_right]), ?_⟩
    have hbox : string_in_box (demo_store ℝ 12 0 1 [demo_string ℝ] [late_parton ℝ])
        (3 / 2) 0 0 0 (demo_string ℝ) := by
      unfold string_in_box
      norm_num [demo_store, demo_string, string_left, string_right, abs_le]
    have hlist : (demo_store ℝ 12 0 1 [demo_string ℝ] [late_parton ℝ]).QCD_strings_list
        = [demo_string ℝ] := rfl
    have he := e_local_value_pos (19733 / 100000)
      (demo_store ℝ 12 0 1 [demo_string ℝ] [late_parton ℝ]) (3 / 2) 0 0 0 (demo_string ℝ)
      (by norm_num [demo_string]) (by norm_num [demo_store, demo_data])
    unfold string_current_value
    rw [hlist]
    simp only [List.filter_cons, hbox, decide_True, if_true, List.filter_nil, List.map_cons,
      List.map_nil, List.sum_cons, List.sum_nil, add_zero]
    have k1 : 0 < 1 / ((real_cmath (19733 / 100000)).sqrt (real_cmath (19733 / 100000)).M_PI
        * (demo_store ℝ 12 0 1 [demo_string ℝ] [late_parton ℝ]).sigma_tau) :=
      one_div_pos.mpr (mul_pos hsq (by norm_num [demo_store]))
    have k2 : 0 < 1 / ((real_cmath (19733 / 100000)).M_PI
        * (demo_store ℝ 12 0 1 [demo_string ℝ] [late_parton ℝ]).sigma_x
        * (demo_store ℝ 12 0 1 [demo_string ℝ] [late_parton ℝ]).sigma_x) :=
      one_div_pos.mpr (mul_pos (mul_pos Real.pi_pos (by norm_num [demo_store]))
        (by norm_num [demo_store]))
    exact mul_pos (mul_pos (Real.cosh_pos _) he) (mul_pos k1 k2)

end global_cutoff

section normalisation

open MeasureTheory

theorem full_gaussian_mass (sigma : ℝ) (h : 0 < sigma) :
    ∫ u : ℝ, Real.exp (-u ^ 2 / sigma ^ 2) = Real.sqrt Real.pi * sigma := by
  have e : (fun u : ℝ => Real.exp (-u ^ 2 / sigma ^ 2))
      = fun u : ℝ => Real.exp (-(1 / sigma ^ 2) * u ^ 2) := by
    funext u
    congr 1
    field_simp
  rw [e, integral_gaussian]
  rw [div_div_eq_mul_div, div_one, Real.sqrt_mul Real.pi_pos.le, Real.sqrt_sq h.le]

theorem full_gaussian_integrable (sigma : ℝ) (h : 0 < sigma) :
    Integrable (fun u : ℝ => Real.exp (-u ^ 2 / sigma ^ 2)) := by
  have e : (fun u : ℝ => Real.exp (-u ^ 2 / sigma ^ 2))
      = fun u : ℝ => Real.exp (-(1 / sigma ^ 2) * u ^ 2) := by
    funext u
    congr 1
    field_simp
  rw [e]
  exact integrable_exp_neg_mul_sq (by positivity)

theorem cut_gaussian_eq_indicator (sigma : ℝ) :
    cut_gaussian sigma
      = (Set.Icc (-(5 * sigma)) (5 * sigma)).indicator
          (fun u : ℝ => Real.exp (-u ^ 2 / sigma ^ 2)) := by
  funext u
  unfold cut_gaussian
  by_cases hu : |u| ≤ 5 * sigma
  · rw [if_pos hu, Set.indicator_of_mem (Set.mem_Icc.mpr (abs_le.mp hu))]
  · rw [if_neg hu, Set.indicator_of_not_mem (fun hm => hu (abs_le.mpr (Set.mem_Icc.mp hm)))]

/-- The Gaussian kernel cut at 5 widths integrates to less than the whole kernel does. -/
theorem cut_gaussian_mass_bounds (sigma : ℝ) (h : 0 < sigma) :
    0 ≤ cut_gaussian_mass sigma ∧ cut_gaussian_mass sigma < Real.sqrt Real.pi * sigma := by
  have hint := full_gaussian_integrable sigma h
  have hcut : Integrable ((Set.Icc (-(5 * sigma)) (5 * sigma)).indicator
      (fun u : ℝ => Real.exp (-u ^ 2 / sigma ^ 2))) := hint.indicator measurableSet_Icc
  have hrest : Integrable ((Set.Icc (-(5 * sigma)) (5 * sigma))ᶜ.indicator
      (fun u : ℝ => Real.exp (-u ^ 2 / sigma ^ 2))) :=
    hint.indicator measurableSet_Icc.compl
  have hsum : (∫ u : ℝ, (Set.Icc (-(5 * sigma)) (5 * sigma)).indicator
        (fun u : ℝ => Real.exp (-u ^ 2 / sigma ^ 2)) u)
      + (∫ u : ℝ, (Set.Icc (-(5 * sigma)) (5 * sigma))ᶜ.indicator
        (fun u : ℝ => Real.exp (-u ^ 2 / sigma ^ 2)) u)
      = Real.sqrt Real.pi * sigma := by
    rw [← integral_add hcut hrest, ← full_gaussian_mass sigma h]
    congr 1
    funext u
    exact Set.indicator_self_add_compl_apply (Set.Icc (-(5 * sigma)) (5 * sigma))
      (fun u : ℝ => Real.exp (-u ^ 2 / sigma ^ 2)) u
  have hpos : 0 < ∫ u : ℝ, (Set.Icc (-(5 * sigma)) (5 * sigma))ᶜ.indicator
      (fun u : ℝ => Real.exp (-u ^ 2 / sigma ^ 2)) u := by
    rw [integral_pos_iff_support_of_nonneg
      (fun u => Set.indicator_nonneg (fun v _ => (Real.exp_pos _).le) u) hrest]
    have hsub : Set.Ioi (5 * sigma) ⊆ Function.support
        ((Set.Icc (-(5 * sigma)) (5 * sigma))ᶜ.indicator
          (fun u : ℝ => Real.exp (-u ^ 2 / sigma ^ 2))) := by
      intro u hu
      rw [Function.mem_support, Set.indicator_of_mem]
      · exact (Real.exp_pos _).ne.symm
      · intro hm
        exact absurd (Set.mem_Icc.mp hm).2 (not_le.mpr hu)
    refine lt_of_lt_of_le ?_ (measure_mono hsub)
    simp
  constructor
  · unfold cut_gaussian_mass cut_gaussian
    exact integral_nonneg (fun u => by split_ifs <;> positivity)
  · unfold cut_gaussian_mass
    rw [cut_gaussian_eq_indicator]
    linarith

end normalisation

section normalisation_of_one_parton

open MeasureTheory

/-- With a single parton in the store the baryon source is the proper-time weight times the three
normalised kernels, each cut at 5 widths. -/
theorem rhob_value_single (hbarc : ℝ) (hs : hydro_source ℝ) (p : parton ℝ) (tau : ℝ)
    (hprofile : hs.DATA_ptr.Initial_profile = 12 ∨ hs.DATA_ptr.Initial_profile = 30)
    (h1 : 0 < hs.sigma_tau) (h2 : 0 < hs.sigma_x) (h3 : 0 < hs.sigma_eta)
    (hlist : hs.parton_list = [p]) (hp : 0 < p.tau) (hmax : hs.source_tau_max = p.tau)
    (htau : |tau - p.tau| < 5 * hs.sigma_tau) (x y eta_s : ℝ) :
    rhob_value hbarc hs tau x y eta_s
      = proper_time_weight hs p tau * (1 / (Real.pi * hs.sigma_x ^ 2))
          * (1 / (Real.sqrt Real.pi * hs.sigma_eta))
          * cut_gaussian hs.sigma_x (x - p.x) * cut_gaussian hs.sigma_x (y - p.y)
          * cut_gaussian hs.sigma_eta (eta_s - rhob_centre hs p) := by
  have hpi : (real_cmath hbarc).M_PI ≠ 0 := Real.pi_pos.ne.symm
  have hsq : (real_cmath hbarc).sqrt (real_cmath hbarc).M_PI ≠ 0 :=
    (Real.sqrt_pos.mpr Real.pi_pos).ne.symm
  have hpartons : ∀ q ∈ hs.parton_list, q.tau ≠ 0 := by
    intro q hq
    rw [hlist, List.mem_singleton] at hq
    rw [hq]
    exact hp.ne.symm
  have hcut : tau - hs.source_tau_max < 5 * hs.sigma_tau := by
    rw [hmax]
    exact (abs_lt.mp htau).2
  unfold rhob_value
  rw [rhob_source_eq (real_cmath hbarc) hs tau x y eta_s hprofile h1.ne.symm h2.ne.symm
    h3.ne.symm hpi hsq hpartons hcut, Option.getD_some]
  have hM : (real_cmath hbarc).M_PI = Real.pi := rfl
  have hS : (real_cmath hbarc).sqrt = Real.sqrt := rfl
  have hE : (real_cmath hbarc).exp = Real.exp := rfl
  unfold rhob_density proper_time_weight cut_gaussian
  rw [hlist, hM, hS]
  by_cases hx : |x - p.x| ≤ 5 * hs.sigma_x
  · by_cases hy : |y - p.y| ≤ 5 * hs.sigma_x
    · by_cases he : |eta_s - rhob_centre hs p| ≤ 5 * hs.sigma_eta
      · have hbox : parton_in_box hs (rhob_centre hs) tau x y eta_s p := ⟨htau.le, hx, hy, he⟩
        simp only [List.filter_cons, hbox, decide_True, if_true, List.filter_nil, List.map_cons,
          List.map_nil, List.sum_cons, List.sum_nil, add_zero, hx, hy, he]
        unfold parton_smear
        rw [hE, neg_add, add_div, Real.exp_add]
        ring
      · have hbox : ¬ parton_in_box hs (rhob_centre hs) tau x y eta_s p := fun h => he h.2.2.2
        simp only [List.filter_cons, hbox, decide_False, Bool.false_eq_true, if_false,
          List.filter_nil, List.map_nil, List.sum_nil, he, mul_zero]
    · have hbox : ¬ parton_in_box hs (rhob_centre hs) tau x y eta_s p := fun h => hy h.2.2.1
      simp only [List.filter_cons, hbox, decide_False, Bool.false_eq_true, if_false,
        List.filter_nil, List.map_nil, List.sum_nil, hy, mul_zero, zero_mul]
  · have hbox : ¬ parton_in_box hs (rhob_centre hs) tau x y eta_s p := fun h => hx h.2.1
    simp only [List.filter_cons, hbox, decide_False, Bool.false_eq_true, if_false,
      List.filter_nil, List.map_nil, List.sum_nil, hx, mul_zero, zero_mul]

/-- With a single parton in the store the integral of the baryon source over `x`, `y` and
`eta_s` is the proper-time weight times the masses of the three cut kernels. -/
theorem rhob_integral_single (hbarc : ℝ) (hs : hydro_source ℝ) (p : parton ℝ) (tau : ℝ)
    (hprofile : hs.DATA_ptr.Initial_profile = 12 ∨ hs.DATA_ptr.Initial_profile = 30)
    (h1 : 0 < hs.sigma_tau) (h2 : 0 < hs.sigma_x) (h3 : 0 < hs.sigma_eta)
    (hlist : hs.parton_list = [p]) (hp : 0 < p.tau) (hmax : hs.source_tau_max = p.tau)
    (htau : |tau - p.tau| < 5 * hs.sigma_tau) :
    rhob_integral hbarc hs tau
      = proper_time_weight hs p tau
          * (1 / (Real.pi * hs.sigma_x ^ 2) * cut_gaussian_mass hs.sigma_x ^ 2)
          * (1 / (Real.sqrt Real.pi * hs.sigma_eta) * cut_gaussian_mass hs.sigma_eta) := by
  have hv := rhob_value_single hbarc hs p tau hprofile h1 h2 h3 hlist hp hmax htau
  unfold rhob_integral
  simp only [hv, integral_mul_left, integral_mul_right]
  rw [integral_sub_right_eq_self (cut_gaussian hs.sigma_x) p.x,
    integral_sub_right_eq_self (cut_gaussian hs.sigma_x) p.y,
    integral_sub_right_eq_self (cut_gaussian hs.sigma_eta) (rhob_centre hs p)]
  unfold cut_gaussian_mass
  ring

/-- The transverse kernel cut at 5 widths integrates to less than 1. -/
theorem transverse_kernel_mass_lt_one (sigma : ℝ) (h : 0 < sigma) :
    0 ≤ 1 / (Real.pi * sigma ^ 2) * cut_gaussian_mass sigma ^ 2
      ∧ 1 / (Real.pi * sigma ^ 2) * cut_gaussian_mass sigma ^ 2 < 1 := by
  obtain ⟨h0, hlt⟩ := cut_gaussian_mass_bounds sigma h
  have hd : 0 < Real.pi * sigma ^ 2 := by positivity
  constructor
  · positivity
  · rw [one_div, inv_mul_lt_iff₀ hd, mul_one]
    have hsq : cut_gaussian_mass sigma ^ 2 < (Real.sqrt Real.pi * sigma) ^ 2 :=
      pow_lt_pow_left₀ hlt h0 (by norm_num)
    rwa [mul_pow, Real.sq_sqrt Real.pi_pos.le] at hsq

/-- The rapidity kernel cut at 5 widths integrates to less than 1. -/
theorem rapidity_kernel_mass_lt_one (sigma : ℝ) (h : 0 < sigma) :
    0 ≤ 1 / (Real.sqrt Real.pi * sigma) * cut_gaussian_mass sigma
      ∧ 1 / (Real.sqrt Real.pi * sigma) * cut_gaussian_mass sigma < 1 := by
  obtain ⟨h0, hlt⟩ := cut_gaussian_mass_bounds sigma h
  have hd : 0 < Real.sqrt Real.pi * sigma := mul_pos (Real.sqrt_pos.mpr Real.pi_pos) h
  constructor
  · positivity
  · rwa [one_div, inv_mul_lt_iff₀ hd, mul_one]

/-- The proper-time weight of a parton with `tau_p > 0` is positive. -/
theorem proper_time_weight_pos (hs : hydro_source ℝ) (p : parton ℝ) (tau : ℝ)
    (h1 : 0 < hs.sigma_tau) (hp : 0 < p.tau) : 0 < proper_time_weight hs p tau := by
  unfold proper_time_weight
  have hs1 : 0 < Real.sqrt Real.pi := Real.sqrt_pos.mpr Real.pi_pos
  have he := Real.exp_pos (-(tau - p.tau) ^ 2 / hs.sigma_tau ^ 2)
  positivity

/-- With a single parton in the store the integral of the baryon source over `x`, `y` and
`eta_s` is less than the proper-time weight. -/
theorem rhob_integral_single_lt (hbarc : ℝ) (hs : hydro_source ℝ) (p : parton ℝ) (tau : ℝ)
    (hprofile : hs.DATA_ptr.Initial_profile = 12 ∨ hs.DATA_ptr.Initial_profile = 30)
    (h1 : 0 < hs.sigma_tau) (h2 : 0 < hs.sigma_x) (h3 : 0 < hs.sigma_eta)
    (hlist : hs.parton_list = [p]) (hp : 0 < p.tau) (hmax : hs.source_tau_max = p.tau)
    (htau : |tau - p.tau| < 5 * hs.sigma_tau) :
    rhob_integral hbarc hs tau < proper_time_weight hs p tau := by
  rw [rhob_integral_single hbarc hs p tau hprofile h1 h2 h3 hlist hp hmax htau]
  obtain ⟨a0, a1⟩ := transverse_kernel_mass_lt_one hs.sigma_x h2
  obtain ⟨b0, b1⟩ := rapidity_kernel_mass_lt_one hs.sigma_eta h3
  have hW := proper_time_weight_pos hs p tau h1 hp
  have hab : 1 / (Real.pi * hs.sigma_x ^ 2) * cut_gaussian_mass hs.sigma_x ^ 2
      * (1 / (Real.sqrt Real.pi * hs.sigma_eta) * cut_gaussian_mass hs.sigma_eta) < 1 := by
    calc 1 / (Real.pi * hs.sigma_x ^ 2) * cut_gaussian_mass hs.sigma_x ^ 2
          * (1 / (Real.sqrt Real.pi * hs.sigma_eta) * cut_gaussian_mass hs.sigma_eta)
        ≤ 1 * (1 / (Real.sqrt Real.pi * hs.sigma_eta) * cut_gaussian_mass hs.sigma_eta) :=
          mul_le_mul_of_nonneg_right a1.le b0
      _ < 1 := by rw [one_mul]; exact b1
  rw [mul_assoc]
  exact mul_lt_of_lt_one_right hW hab

/-- The Gaussian kernel cut at 5 widths has positive mass. -/
theorem cut_gaussian_mass_pos (sigma : ℝ) (h : 0 < sigma) : 0 < cut_gaussian_mass sigma := by
  unfold cut_gaussian_mass
  rw [cut_gaussian_eq_indicator]
  have hcut : Integrable ((Set.Icc (-(5 * sigma)) (5 * sigma)).indicator
      (fun u : ℝ => Real.exp (-u ^ 2 / sigma ^ 2))) :=
    (full_gaussian_integrable sigma h).indicator measurableSet_Icc
  rw [integral_pos_iff_support_of_nonneg
    (fun u => Set.indicator_nonneg (fun v _ => (Real.exp_pos _).le) u) hcut]
  have hsub : Set.Icc (-(5 * sigma)) (5 * sigma) ⊆ Function.support
      ((Set.Icc (-(5 * sigma)) (5 * sigma)).indicator
        (fun u : ℝ => Real.exp (-u ^ 2 / sigma ^ 2))) := by
    intro u hu
    rw [Function.mem_support, Set.indicator_of_mem hu]
    exact (Real.exp_pos _).ne.symm
  refine lt_of_lt_of_le ?_ (measure_mono hsub)
  rw [Real.volume_Icc]
  apply ENNReal.ofReal_pos.mpr
  linarith

/-- Claim C12, counterexample: the store of profile 30 with widths 1/10, 1/2, 1/2 holds the single
parton `demo_parton` (`tau_p = 1 > 0`) and has `source_tau_max = tau_p`; at `tau = 1`, where
`|tau - tau_p| < 5*sigma_tau`, the integral of `get_hydro_rhob_source` over all `x`, `y` and
`eta_s` differs from the parton's normalised proper-time weight. -/
theorem single_parton_integral_is_not_the_weight :
    (demo_store ℝ 30 0 1 [] [demo_parton ℝ]).parton_list = [demo_parton ℝ]
      ∧ 0 < (demo_parton ℝ).tau
      ∧ (demo_store ℝ 30 0 1 [] [demo_parton ℝ]).source_tau_max = (demo_parton ℝ).tau
      ∧ |(1 : ℝ) - (demo_parton ℝ).tau| < 5 * (demo_store ℝ 30 0 1 [] [demo_parton ℝ]).sigma_tau
      ∧ rhob_integral 1 (demo_store ℝ 30 0 1 [] [demo_parton ℝ]) 1
          ≠ proper_time_weight (demo_store ℝ 30 0 1 [] [demo_parton ℝ]) (demo_parton ℝ) 1 := by
  have c1 : (demo_store ℝ 30 0 1 [] [demo_parton ℝ]).parton_list = [demo_parton ℝ] := rfl
  have c2 : 0 < (demo_parton ℝ).tau := by norm_num [demo_parton]
  have c3 : (demo_store ℝ 30 0 1 [] [demo_parton ℝ]).source_tau_max = (demo_parton ℝ).tau := rfl
  have c4 : |(1 : ℝ) - (demo_parton ℝ).tau|
      < 5 * (demo_store ℝ 30 0 1 [] [demo_parton ℝ]).sigma_tau := by
    norm_num [demo_parton, demo_store]
  refine ⟨c1, c2, c3, c4, ne_of_lt ?_⟩
  exact rhob_integral_single_lt 1 (demo_store ℝ 30 0 1 [] [demo_parton ℝ]) (demo_parton ℝ) 1
    (Or.inr rfl) (by norm_num [demo_store]) (by norm_num [demo_store])
    (by norm_num [demo_store]) c1 c2 c3 c4

/-- Claim C12, amended: for a store of profile 12 or 30 with positive widths holding a single
parton with `tau_p > 0` and `source_tau_max = tau_p`, and every `tau` with
`|tau - tau_p| < 5*sigma_tau`, the integral of `get_hydro_rhob_source` over all `x`, `y` and
`eta_s` equals the parton's normalised proper-time weight times the mass of the transverse kernel
and the mass of the rapidity kernel, each cut at 5 widths; both masses lie strictly between 0 and
1, so the integral is positive and strictly below the proper-time weight. -/
theorem single_parton_integral_with_cut_kernels (hbarc : ℝ) (hs : hydro_source ℝ)
    (p : parton ℝ) (tau : ℝ)
    (hprofile : hs.DATA_ptr.Initial_profile = 12 ∨ hs.DATA_ptr.Initial_profile = 30)
    (h1 : 0 < hs.sigma_tau) (h2 : 0 < hs.sigma_x) (h3 : 0 < hs.sigma_eta)
    (hlist : hs.parton_list = [p]) (hp : 0 < p.tau) (hmax : hs.source_tau_max = p.tau)
    (htau : |tau - p.tau| < 5 * hs.sigma_tau) :
    rhob_integral hbarc hs tau
        = proper_time_weight hs p tau
            * (1 / (Real.pi * hs.sigma_x ^ 2) * cut_gaussian_mass hs.sigma_x ^ 2)
            * (1 / (Real.sqrt Real.pi * hs.sigma_eta) * cut_gaussian_mass hs.sigma_eta)
      ∧ 0 < 1 / (Real.pi * hs.sigma_x ^ 2) * cut_gaussian_mass hs.sigma_x ^ 2
      ∧ 1 / (Real.pi * hs.sigma_x ^ 2) * cut_gaussian_mass hs.sigma_x ^ 2 < 1
      ∧ 0 < 1 / (Real.sqrt Real.pi * hs.sigma_eta) * cut_gaussian_mass hs.sigma_eta
      ∧ 1 / (Real.sqrt Real.pi * hs.sigma_eta) * cut_gaussian_mass hs.sigma_eta < 1
      ∧ 0 < rhob_integral hbarc hs tau
      ∧ rhob_integral hbarc hs tau < proper_time_weight hs p tau := by
  have hx := cut_gaussian_mass_pos hs.sigma_x h2
  have he := cut_gaussian_mass_pos hs.sigma_eta h3
  have hs1 : 0 < Real.sqrt Real.pi := Real.sqrt_pos.mpr Real.pi_pos
  have hW := proper_time_weight_pos hs p tau h1 hp
  have a0 : 0 < 1 / (Real.pi * hs.sigma_x ^ 2) * cut_gaussian_mass hs.sigma_x ^ 2 := by
    have := Real.pi_pos
    positivity
  have b0 : 0 < 1 / (Real.sqrt Real.pi * hs.sigma_eta) * cut_gaussian_mass hs.sigma_eta := by
    positivity
  have hval := rhob_integral_single hbarc hs p tau hprofile h1 h2 h3 hlist hp hmax htau
  refine ⟨hval, a0, (transverse_kernel_mass_lt_one hs.sigma_x h2).2, b0,
    (rapidity_kernel_mass_lt_one hs.sigma_eta h3).2, ?_,
    rhob_integral_single_lt hbarc hs p tau hprofile h1 h2 h3 hlist hp hmax htau⟩
  rw [hval]
  exact mul_pos (mul_pos hW a0) b0

theorem single_parton_integral_with_cut_kernels_witness :
    rhob_integral 1 (demo_store ℝ 12 2 1 [] [demo_parton ℝ]) (11 / 10)
        = proper_time_weight (demo_store ℝ 12 2 1 [] [demo_parton ℝ]) (demo_parton ℝ) (11 / 10)
            * (1 / (Real.pi * (demo_store ℝ 12 2 1 [] [demo_parton ℝ]).sigma_x ^ 2)
                * cut_gaussian_mass (demo_store ℝ 12 2 1 [] [demo_parton ℝ]).sigma_x ^ 2)
            * (1 / (Real.sqrt Real.pi * (demo_store ℝ 12 2 1 [] [demo_parton ℝ]).sigma_eta)
                * cut_gaussian_mass (demo_store ℝ 12 2 1 [] [demo_parton ℝ]).sigma_eta)
      ∧ rhob_integral 1 (demo_store ℝ 12 2 1 [] [demo_parton ℝ]) (11 / 10)
          < proper_time_weight (demo_store ℝ 12 2 1 [] [demo_parton ℝ]) (demo_parton ℝ)
              (11 / 10) := by
  have h := single_parton_integral_with_cut_kernels 1 (demo_store ℝ 12 2 1 [] [demo_parton ℝ])
    (demo_parton ℝ) (11 / 10) (Or.inl rfl) (by norm_num [demo_store])
    (by norm_num [demo_store]) (by norm_num [demo_store]) rfl (by norm_num [demo_parton]) rfl
    (by norm_num [demo_parton, demo_store, abs_lt])
  exact ⟨h.1, h.2.2.2.2.2.2⟩

end normalisation_of_one_parton

section smoothness

open Filter Topology

/-- A function that is a Gaussian on the left of `a` and constant from `a` on is not twice
continuously differentiable at `a`. -/
theorem kink_not_C2 (a c k : ℝ) (hc : c ≠ 0) (hk : k ≠ 0) (g : ℝ → ℝ)
    (hg : g =ᶠ[𝓝 a] fun η => (if η < a then Real.exp (-(c * (η - a) ^ 2)) else 1) * k) :
    ¬ ContDiffAt ℝ ((2 : ℕ) : WithTop ℕ∞) g a := by
  intro h
  have hW := h.congr_of_eventuallyEq hg.symm
  generalize hWdef : (fun η : ℝ => (if η < a then Real.exp (-(c * (η - a) ^ 2)) else 1) * k)
    = W at hW
  have hd : DifferentiableAt ℝ (deriv W) a := by
    have h1 : ContDiffAt ℝ ((1 : ℕ) : WithTop ℕ∞) (fderiv ℝ W) a :=
      hW.fderiv_right (by norm_cast)
    have h2 : DifferentiableAt ℝ (fderiv ℝ W) a := h1.differentiableAt (by norm_cast)
    have h3 : DifferentiableAt ℝ (fun η => fderiv ℝ W η 1) a :=
      h2.clm_apply (differentiableAt_const 1)
    exact h3
  -- right of `a` the function is constant
  have hr : ∀ η, a < η → deriv W η = 0 := by
    intro η hη
    have e : W =ᶠ[𝓝 η] fun _ => k := by
      filter_upwards [lt_mem_nhds hη] with z hz
      rw [← hWdef]
      simp only [not_lt.mpr hz.le, if_false, one_mul]
    rw [e.deriv_eq]
    exact deriv_const η k
  -- left of `a` it is the Gaussian
  have hgauss : ∀ η, HasDerivAt (fun z : ℝ => Real.exp (-(c * (z - a) ^ 2)) * k)
      (Real.exp (-(c * (η - a) ^ 2)) * (-(c * (2 * (η - a)))) * k) η := by
    intro η
    have h1 : HasDerivAt (fun z : ℝ => (z - a) ^ 2) (2 * (η - a)) η := by
      have := ((hasDerivAt_id η).sub_const a).pow 2
      simpa using this
    exact (((h1.const_mul c).neg).exp).mul_const k
  have hl : ∀ η, η < a →
      deriv W η = Real.exp (-(c * (η - a) ^ 2)) * (-(c * (2 * (η - a)))) * k := by
    intro η hη
    have e : W =ᶠ[𝓝 η] fun z => Real.exp (-(c * (z - a) ^ 2)) * k := by
      filter_upwards [gt_mem_nhds hη] with z hz
      rw [← hWdef]
      simp only [hz, if_true]
    rw [e.deriv_eq]
    exact (hgauss η).deriv
  -- the derivative vanishes at `a`
  have h0 : deriv W a = 0 := by
    have t1 : Tendsto (deriv W) (𝓝[>] a) (𝓝 (deriv W a)) :=
      hd.continuousAt.tendsto.mono_left nhdsWithin_le_nhds
    have t2 : Tendsto (deriv W) (𝓝[>] a) (𝓝 0) := by
      refine Tendsto.congr' ?_ tendsto_const_nhds
      filter_upwards [self_mem_nhdsWithin] with z hz
      exact (hr z hz).symm
    exact tendsto_nhds_unique t1 t2
  have hD := hd.hasDerivAt
  -- second derivative from the right
  have r2 : deriv (deriv W) a = 0 := by
    have w1 : HasDerivWithinAt (fun _ : ℝ => (0 : ℝ)) (deriv (deriv W) a) (Set.Ioi a) a :=
      hD.hasDerivWithinAt.congr (fun z hz => (hr z hz).symm) h0.symm
    exact (uniqueDiffWithinAt_Ioi a).eq_deriv _ w1 (hasDerivWithinAt_const a _ 0)
  -- second derivative from the left
  have l2 : deriv (deriv W) a = -(2 * c * k) := by
    have w1 : HasDerivWithinAt
        (fun z : ℝ => Real.exp (-(c * (z - a) ^ 2)) * (-(c * (2 * (z - a)))) * k)
        (deriv (deriv W) a) (Set.Iio a) a :=
      hD.hasDerivWithinAt.congr (fun z hz => (hl z hz).symm) (by rw [h0]; simp)
    have w2 : HasDerivAt
        (fun z : ℝ => Real.exp (-(c * (z - a) ^ 2)) * (-(c * (2 * (z - a)))) * k)
        (-(2 * c * k)) a := by
      have e1 : HasDerivAt (fun z : ℝ => Real.exp (-(c * (z - a) ^ 2)))
          (Real.exp (-(c * (a - a) ^ 2)) * (-(c * (2 * (a - a))))) a := by
        have h1 : HasDerivAt (fun z : ℝ => (z - a) ^ 2) (2 * (a - a)) a := by
          have := ((hasDerivAt_id a).sub_const a).pow 2
          simpa using this
        exact ((h1.const_mul c).neg).exp
      have e2 : HasDerivAt (fun z : ℝ => -(c * (2 * (z - a)))) (-(c * (2 * 1))) a :=
        ((((hasDerivAt_id a).sub_const a).const_mul 2).const_mul c).neg
      have e3 := (e1.mul e2).mul_const k
      convert e3 using 1
      simp only [sub_self, mul_zero, neg_zero, zero_add, pow_two, Real.exp_zero, mul_one,
        one_mul]
      ring
    exact (uniqueDiffWithinAt_Iio a).eq_deriv _ w1 w2.hasDerivWithinAt
  rw [r2] at l2
  have : 2 * c * k ≠ 0 := mul_ne_zero (mul_ne_zero two_ne_zero hc) hk
  exact this (by linarith)

/-- The sum over the emitters inside their box is as smooth as each emitter's term, read as 0
outside the box. -/
theorem contDiffAt_filter_sum {ι : Type} (n : ℕ) (l : List ι)
    (P : ℝ × ℝ × ℝ × ℝ → ι → Prop) [∀ q i, Decidable (P q i)]
    (t : ℝ × ℝ × ℝ × ℝ → ι → ℝ) (q : ℝ × ℝ × ℝ × ℝ)
    (h : ∀ i ∈ l, ContDiffAt ℝ (n : WithTop ℕ∞) (fun z => if P z i then t z i else 0) q) :
    ContDiffAt ℝ (n : WithTop ℕ∞)
      (fun z => ((l.filter (fun i => decide (P z i))).map (t z)).sum) q := by
  induction l with
  | nil => simpa using (contDiffAt_const : ContDiffAt ℝ (n : WithTop ℕ∞) (fun _ => (0 : ℝ)) q)
  | cons i l ih =>
    have e : (fun z => (((i :: l).filter (fun i => decide (P z i))).map (t z)).sum)
        = fun z => (if P z i then t z i else 0)
            + ((l.filter (fun i => decide (P z i))).map (t z)).sum := by
      funext z
      by_cases hz : P z i
      · simp [List.filter_cons, hz]
      · simp [List.filter_cons, hz]
    rw [e]
    exact (h i (List.mem_cons_self i l)).add
      (ih (fun j hj => h j (List.mem_cons_of_mem i hj)))

/-- Near a point in the interior of a string's box every point is in the box. -/
theorem string_in_box_eventually (hs : hydro_source ℝ) (s : QCD_string ℝ)
    (q : ℝ × ℝ × ℝ × ℝ) (h : string_strictly_in_box hs q.1 q.2.1 q.2.2.1 q.2.2.2 s) :
    ∀ᶠ z in 𝓝 q, string_in_box hs z.1 z.2.1 z.2.2.1 z.2.2.2 s := by
  obtain ⟨a, b, c, d, e⟩ := h
  have ca : Continuous (fun z : ℝ × ℝ × ℝ × ℝ => |z.1 - s.tau_form|) := by fun_prop
  have cb : Continuous (fun z : ℝ × ℝ × ℝ × ℝ => |z.2.1 - s.x_perp|) := by fun_prop
  have cc : Continuous (fun z : ℝ × ℝ × ℝ × ℝ => |z.2.2.1 - s.y_perp|) := by fun_prop
  have cd : Continuous (fun z : ℝ × ℝ × ℝ × ℝ => z.2.2.2) := by fun_prop
  filter_upwards [ca.continuousAt.eventually (gt_mem_nhds a),
    cb.continuousAt.eventually (gt_mem_nhds b), cc.continuousAt.eventually (gt_mem_nhds c),
    cd.continuousAt.eventually (lt_mem_nhds d), cd.continuousAt.eventually (gt_mem_nhds e)]
    with z ha hb hc hd he
  exact ⟨le_of_lt ha, le_of_lt hb, le_of_lt hc, le_of_lt hd, le_of_lt he⟩

/-- Near a point outside a string's box every point is outside the box. -/
theorem string_not_in_box_eventually (hs : hydro_source ℝ) (s : QCD_string ℝ)
    (q : ℝ × ℝ × ℝ × ℝ) (h : ¬ string_in_box hs q.1 q.2.1 q.2.2.1 q.2.2.2 s) :
    ∀ᶠ z in 𝓝 q, ¬ string_in_box hs z.1 z.2.1 z.2.2.1 z.2.2.2 s := by
  have ca : Continuous (fun z : ℝ × ℝ × ℝ × ℝ => |z.1 - s.tau_form|) := by fun_prop
  have cb : Continuous (fun z : ℝ × ℝ × ℝ × ℝ => |z.2.1 - s.x_perp|) := by fun_prop
  have cc : Continuous (fun z : ℝ × ℝ × ℝ × ℝ => |z.2.2.1 - s.y_perp|) := by fun_prop
  have cd : Continuous (fun z : ℝ × ℝ × ℝ × ℝ => z.2.2.2) := by fun_prop
  by_cases a : |q.1 - s.tau_form| ≤ 5 * hs.sigma_tau
  · by_cases b : |q.2.1 - s.x_perp| ≤ 5 * hs.sigma_x
    · by_cases c : |q.2.2.1 - s.y_perp| ≤ 5 * hs.sigma_x
      · by_cases d : string_left hs s - 5 * hs.sigma_eta ≤ q.2.2.2
        · have e : ¬ q.2.2.2 ≤ string_right hs s + 5 * hs.sigma_eta :=
            fun e => h ⟨a, b, c, d, e⟩
          filter_upwards [cd.continuousAt.eventually (lt_mem_nhds (not_le.mp e))] with z hz hin
          exact absurd hin.2.2.2.2 (not_le.mpr hz)
        · filter_upwards [cd.continuousAt.eventually (gt_mem_nhds (not_le.mp d))] with z hz hin
          exact absurd hin.2.2.2.1 (not_le.mpr hz)
      · filter_upwards [cc.continuousAt.eventually (lt_mem_nhds (not_le.mp c))] with z hz hin
        exact absurd hin.2.2.1 (not_le.mpr hz)
    · filter_upwards [cb.continuousAt.eventually (lt_mem_nhds (not_le.mp b))] with z hz hin
      exact absurd hin.2.1 (not_le.mpr hz)
  · filter_upwards [ca.continuousAt.eventually (lt_mem_nhds (not_le.mp a))] with z hz hin
    exact absurd hin.1 (not_le.mpr hz)

/-- Near a point in the interior of a parton's box every point is in the box. -/
theorem parton_in_box_eventually (hs : hydro_source ℝ) (c : parton ℝ → ℝ) (p : parton ℝ)
    (q : ℝ × ℝ × ℝ × ℝ) (h : parton_strictly_in_box hs c q.1 q.2.1 q.2.2.1 q.2.2.2 p) :
    ∀ᶠ z in 𝓝 q, parton_in_box hs c z.1 z.2.1 z.2.2.1 z.2.2.2 p := by
  obtain ⟨a, b, d, e⟩ := h
  have ca : Continuous (fun z : ℝ × ℝ × ℝ × ℝ => |z.1 - p.tau|) := by fun_prop
  have cb : Continuous (fun z : ℝ × ℝ × ℝ × ℝ => |z.2.1 - p.x|) := by fun_prop
  have cc : Continuous (fun z : ℝ × ℝ × ℝ × ℝ => |z.2.2.1 - p.y|) := by fun_prop
  have cd : Continuous (fun z : ℝ × ℝ × ℝ × ℝ => |z.2.2.2 - c p|) := by fun_prop
  filter_upwards [ca.continuousAt.eventually (gt_mem_nhds a),
    cb.continuousAt.eventually (gt_mem_nhds b), cc.continuousAt.eventually (gt_mem_nhds d),
    cd.continuousAt.eventually (gt_mem_nhds e)] with z ha hb hc hd
  exact ⟨le_of_lt ha, le_of_lt hb, le_of_lt hc, le_of_lt hd⟩

/-- Near a point outside a parton's box every point is outside the box. -/
theorem parton_not_in_box_eventually (hs : hydro_source ℝ) (c : parton ℝ → ℝ) (p : parton ℝ)
    (q : ℝ × ℝ × ℝ × ℝ) (h : ¬ parton_in_box hs c q.1 q.2.1 q.2.2.1 q.2.2.2 p) :
    ∀ᶠ z in 𝓝 q, ¬ parton_in_box hs c z.1 z.2.1 z.2.2.1 z.2.2.2 p := by
  have ca : Continuous (fun z : ℝ × ℝ × ℝ × ℝ => |z.1 - p.tau|) := by fun_prop
  have cb : Continuous (fun z : ℝ × ℝ × ℝ × ℝ => |z.2.1 - p.x|) := by fun_prop
  have cc : Continuous (fun z : ℝ × ℝ × ℝ × ℝ => |z.2.2.1 - p.y|) := by fun_prop
  have cd : Continuous (fun z : ℝ × ℝ × ℝ × ℝ => |z.2.2.2 - c p|) := by fun_prop
  by_cases a : |q.1 - p.tau| ≤ 5 * hs.sigma_tau
  · by_cases b : |q.2.1 - p.x| ≤ 5 * hs.sigma_x
    · by_cases d : |q.2.2.1 - p.y| ≤ 5 * hs.sigma_x
      · have e : ¬ |q.2.2.2 - c p| ≤ 5 * hs.sigma_eta := fun e => h ⟨a, b, d, e⟩
        filter_upwards [cd.continuousAt.eventually (lt_mem_nhds (not_le.mp e))] with z hz hin
        exact absurd hin.2.2.2 (not_le.mpr hz)
      · filter_upwards [cc.continuousAt.eventually (lt_mem_nhds (not_le.mp d))] with z hz hin
        exact absurd hin.2.2.1 (not_le.mpr hz)
    · filter_upwards [cb.continuousAt.eventually (lt_mem_nhds (not_le.mp b))] with z hz hin
      exact absurd hin.2.1 (not_le.mpr hz)
  · filter_upwards [ca.continuousAt.eventually (lt_mem_nhds (not_le.mp a))] with z hz hin
    exact absurd hin.1 (not_le.mpr hz)

/-- The factor `exp_eta_s` is smooth away from the right end `R` of a string's interval and
away from its left end `L`; at `eta_s = L` it is smooth as well when `R < L`, where the test of
line 207 decides. -/
theorem exp_eta_s_value_smooth (hbarc : ℝ) (hs : hydro_source ℝ) (s : QCD_string ℝ) (n : ℕ)
    (q : ℝ × ℝ × ℝ × ℝ) (hR : q.2.2.2 ≠ string_right hs s)
    (hL : q.2.2.2 = string_left hs s → string_right hs s < string_left hs s) :
    ContDiffAt ℝ (n : WithTop ℕ∞)
      (fun z : ℝ × ℝ × ℝ × ℝ => exp_eta_s_value (real_cmath hbarc) hs z.2.2.2 s) q := by
  have cd : Continuous (fun z : ℝ × ℝ × ℝ × ℝ => z.2.2.2) := by fun_prop
  have hE : (real_cmath hbarc).exp = Real.exp := rfl
  have gL : ContDiff ℝ (n : WithTop ℕ∞) (fun z : ℝ × ℝ × ℝ × ℝ =>
      Real.exp (-((z.2.2.2 - string_left hs s) * (z.2.2.2 - string_left hs s))
        / (hs.sigma_eta * hs.sigma_eta))) := by
    simp only [div_eq_mul_inv]
    fun_prop
  have gR : ContDiff ℝ (n : WithTop ℕ∞) (fun z : ℝ × ℝ × ℝ × ℝ =>
      Real.exp (-((z.2.2.2 - string_right hs s) * (z.2.2.2 - string_right hs s))
        / (hs.sigma_eta * hs.sigma_eta))) := by
    simp only [div_eq_mul_inv]
    fun_prop
  rcases lt_or_gt_of_ne hR with r | r
  · have hL1 : q.2.2.2 ≠ string_left hs s := by
      intro e
      have h := hL e
      rw [e] at r
      exact absurd h (not_lt.mpr r.le)
    rcases lt_or_gt_of_ne hL1 with l | l
    · refine gL.contDiffAt.congr_of_eventuallyEq ?_
      filter_upwards [cd.continuousAt.eventually (gt_mem_nhds r),
        cd.continuousAt.eventually (gt_mem_nhds l)] with z hr hl
      unfold exp_eta_s_value
      simp only [hE, gt_iff_lt, not_lt.mpr hr.le, if_false, hl, if_true]
    · refine (contDiffAt_const (c := (1 : ℝ))).congr_of_eventuallyEq ?_
      filter_upwards [cd.continuousAt.eventually (gt_mem_nhds r),
        cd.continuousAt.eventually (lt_mem_nhds l)] with z hr hl
      unfold exp_eta_s_value
      simp only [hE, gt_iff_lt, not_lt.mpr hr.le, if_false, not_lt.mpr hl.le]
  · refine gR.contDiffAt.congr_of_eventuallyEq ?_
    filter_upwards [cd.continuousAt.eventually (lt_mem_nhds r)] with z hr
    unfold exp_eta_s_value
    simp only [hE, gt_iff_lt, hr, if_true]

/-- The term of a string in the sums of lines 218 and 221, read as 0 outside the string's box, is
smooth at every point that is off the faces of the box and off the ends of the string's
interval (the left end counts only when it is not above the right end). -/
theorem string_term_smooth (hbarc : ℝ) (hs : hydro_source ℝ) (s : QCD_string ℝ) (n : ℕ)
    (q : ℝ × ℝ × ℝ × ℝ) (trig : ℝ → ℝ) (htrig : ContDiff ℝ (n : WithTop ℕ∞) trig)
    (hface : ¬ on_string_box_face hs q.1 q.2.1 q.2.2.1 q.2.2.2 s)
    (hends : string_in_box hs q.1 q.2.1 q.2.2.1 q.2.2.2 s →
      q.2.2.2 ≠ string_right hs s
        ∧ (q.2.2.2 = string_left hs s → string_right hs s < string_left hs s)) :
    ContDiffAt ℝ (n : WithTop ℕ∞)
      (fun z : ℝ × ℝ × ℝ × ℝ =>
        if string_in_box hs z.1 z.2.1 z.2.2.1 z.2.2.2 s then
          trig (string_y_interp hs z.2.2.2 s - z.2.2.2)
            * e_local_value (real_cmath hbarc) hs z.1 z.2.1 z.2.2.1 z.2.2.2 s
        else 0) q := by
  by_cases hin : string_in_box hs q.1 q.2.1 q.2.2.1 q.2.2.2 s
  · have hstrict : string_strictly_in_box hs q.1 q.2.1 q.2.2.1 q.2.2.2 s := by
      by_contra hns
      exact hface ⟨hin, hns⟩
    have hw := exp_eta_s_value_smooth hbarc hs s n q (hends hin).1 (hends hin).2
    have hE : (real_cmath hbarc).exp = Real.exp := rfl
    have hy : ContDiff ℝ (n : WithTop ℕ∞)
        (fun z : ℝ × ℝ × ℝ × ℝ => string_y_interp hs z.2.2.2 s - z.2.2.2) := by
      unfold string_y_interp
      fun_prop
    have ht : ContDiff ℝ (n : WithTop ℕ∞) (fun z : ℝ × ℝ × ℝ × ℝ =>
        1 / s.tau_form
          * Real.exp (-(z.1 - s.tau_form) * (z.1 - s.tau_form)
              / (hs.sigma_tau * hs.sigma_tau))
          * Real.exp (-((z.2.1 - s.x_perp) * (z.2.1 - s.x_perp)
                + (z.2.2.1 - s.y_perp) * (z.2.2.1 - s.y_perp)) / (hs.sigma_x * hs.sigma_x))) := by
      simp only [div_eq_mul_inv]
      fun_prop
    have hterm : ContDiffAt ℝ (n : WithTop ℕ∞) (fun z : ℝ × ℝ × ℝ × ℝ =>
        trig (string_y_interp hs z.2.2.2 s - z.2.2.2)
          * e_local_value (real_cmath hbarc) hs z.1 z.2.1 z.2.2.1 z.2.2.2 s) q := by
      unfold e_local_value
      rw [hE]
      exact (htrig.comp hy).contDiffAt.mul ((ht.contDiffAt.mul hw).mul contDiffAt_const)
    refine hterm.congr_of_eventuallyEq ?_
    filter_upwards [string_in_box_eventually hs s q hstrict] with z hz
    simp only [hz, if_true]
  · refine (contDiffAt_const (c := (0 : ℝ))).congr_of_eventuallyEq ?_
    filter_upwards [string_not_in_box_eventually hs s q hin] with z hz
    simp only [hz, if_false]

/-- The smearing weight of a parton times a smooth factor, read as 0 outside the parton's box,
is smooth at every point that is off the faces of the box. -/
theorem parton_term_smooth (hbarc : ℝ) (hs : hydro_source ℝ) (c : parton ℝ → ℝ) (p : parton ℝ)
    (n : ℕ) (q : ℝ × ℝ × ℝ × ℝ) (w : ℝ × ℝ × ℝ × ℝ → ℝ)
    (hw : ContDiff ℝ (n : WithTop ℕ∞) w)
    (hface : ¬ on_parton_box_face hs c q.1 q.2.1 q.2.2.1 q.2.2.2 p) :
    ContDiffAt ℝ (n : WithTop ℕ∞)
      (fun z : ℝ × ℝ × ℝ × ℝ =>
        if parton_in_box hs c z.1 z.2.1 z.2.2.1 z.2.2.2 p then
          parton_smear (real_cmath hbarc) hs c z.1 z.2.1 z.2.2.1 z.2.2.2 p * w z
        else 0) q := by
  by_cases hin : parton_in_box hs c q.1 q.2.1 q.2.2.1 q.2.2.2 p
  · have hstrict : parton_strictly_in_box hs c q.1 q.2.1 q.2.2.1 q.2.2.2 p := by
      by_contra hns
      exact hface ⟨hin, hns⟩
    have hE : (real_cmath hbarc).exp = Real.exp := rfl
    have hf : ContDiff ℝ (n : WithTop ℕ∞) (fun z : ℝ × ℝ × ℝ × ℝ =>
        parton_smear (real_cmath hbarc) hs c z.1 z.2.1 z.2.2.1 z.2.2.2 p) := by
      unfold parton_smear
      rw [hE]
      simp only [div_eq_mul_inv]
      fun_prop
    refine (hf.mul hw).contDiffAt.congr_of_eventuallyEq ?_
    filter_upwards [parton_in_box_eventually hs c p q hstrict] with z hz
    simp only [hz, if_true]
  · refine (contDiffAt_const (c := (0 : ℝ))).congr_of_eventuallyEq ?_
    filter_upwards [parton_not_in_box_eventually hs c p q hin] with z hz
    simp only [hz, if_false]

/-- The map `(tau, x, y, eta_s) -> j_mu` is smooth at every point that is off the cutoff
boundaries and off the ends of the interval of every string whose box holds the point (the left
end counts only when it is not above the right end). -/
theorem energy_current_map_smooth (hbarc : ℝ) (hs : hydro_source ℝ) (u_mu : Vec4 ℝ)
    (q : ℝ × ℝ × ℝ × ℝ) (n : ℕ)
    (h1 : 0 < hs.sigma_tau) (h2 : 0 < hs.sigma_x) (h3 : 0 < hs.sigma_eta) (hb : hbarc ≠ 0)
    (hstrings : hs.DATA_ptr.Initial_profile = 12 → ∀ s ∈ hs.QCD_strings_list,
      s.tau_form ≠ 0 ∧ string_right hs s - string_left hs s ≠ 0)
    (hpartons : hs.DATA_ptr.Initial_profile = 30 → ∀ p ∈ hs.parton_list, p.tau ≠ 0)
    (hoff : ¬ on_cutoff_boundary hs q.1 q.2.1 q.2.2.1 q.2.2.2)
    (hends : hs.DATA_ptr.Initial_profile = 12 → ∀ s ∈ hs.QCD_strings_list,
      string_in_box hs q.1 q.2.1 q.2.2.1 q.2.2.2 s →
        q.2.2.2 ≠ string_right hs s
          ∧ (q.2.2.2 = string_left hs s → string_right hs s < string_left hs s)) :
    ContDiffAt ℝ (n : WithTop ℕ∞) (energy_current_map hbarc hs u_mu) q := by
  have hpi : (real_cmath hbarc).M_PI ≠ 0 := Real.pi_pos.ne.symm
  have hsq : (real_cmath hbarc).sqrt (real_cmath hbarc).M_PI ≠ 0 :=
    (Real.sqrt_pos.mpr Real.pi_pos).ne.symm
  have hC : (real_cmath hbarc).cosh = Real.cosh := rfl
  have hS : (real_cmath hbarc).sinh = Real.sinh := rfl
  have ct : Continuous (fun z : ℝ × ℝ × ℝ × ℝ => z.1 - hs.source_tau_max) := by fun_prop
  have hzero : ContDiffAt ℝ (n : WithTop ℕ∞)
      (fun _ : ℝ × ℝ × ℝ × ℝ => ((0 : ℝ), (0 : ℝ), (0 : ℝ), (0 : ℝ))) q := contDiffAt_const
  have hg : q.1 - hs.source_tau_max ≠ 5 * hs.sigma_tau := fun h => hoff (Or.inl h)
  rcases lt_or_gt_of_ne hg with lt | gt
  · by_cases p12 : hs.DATA_ptr.Initial_profile = 12
    · have hval : energy_current_map hbarc hs u_mu =ᶠ[𝓝 q] fun z =>
          ((string_current_value (real_cmath hbarc) hs z.1 z.2.1 z.2.2.1 z.2.2.2).c0,
            (string_current_value (real_cmath hbarc) hs z.1 z.2.1 z.2.2.1 z.2.2.2).c1,
            (string_current_value (real_cmath hbarc) hs z.1 z.2.1 z.2.2.1 z.2.2.2).c2,
            (string_current_value (real_cmath hbarc) hs z.1 z.2.1 z.2.2.1 z.2.2.2).c3) := by
        filter_upwards [ct.continuousAt.eventually (gt_mem_nhds lt)] with z hz
        unfold energy_current_map
        rw [energy_source_strings_value (real_cmath hbarc) hs z.1 z.2.1 z.2.2.1 z.2.2.2 u_mu
          p12 h1.ne.symm h2.ne.symm h3.ne.symm hpi hsq hb (hstrings p12) hz]
        rfl
      refine ContDiffAt.congr_of_eventuallyEq ?_ hval
      have hterm : ∀ (trig : ℝ → ℝ), ContDiff ℝ (n : WithTop ℕ∞) trig →
          ContDiffAt ℝ (n : WithTop ℕ∞) (fun z : ℝ × ℝ × ℝ × ℝ =>
            ((hs.QCD_strings_list.filter
                (fun s => decide (string_in_box hs z.1 z.2.1 z.2.2.1 z.2.2.2 s))).map
              (fun s => trig (string_y_interp hs z.2.2.2 s - z.2.2.2)
                * e_local_value (real_cmath hbarc) hs z.1 z.2.1 z.2.2.1 z.2.2.2 s)).sum
              * (1 / ((real_cmath hbarc).sqrt (real_cmath hbarc).M_PI * hs.sigma_tau)
                  * (1 / ((real_cmath hbarc).M_PI * hs.sigma_x * hs.sigma_x)))) q := by
        intro trig htrig
        refine ContDiffAt.mul ?_ contDiffAt_const
        exact contDiffAt_filter_sum n hs.QCD_strings_list
          (fun z s => string_in_box hs z.1 z.2.1 z.2.2.1 z.2.2.2 s)
          (fun z s => trig (string_y_interp hs z.2.2.2 s - z.2.2.2)
            * e_local_value (real_cmath hbarc) hs z.1 z.2.1 z.2.2.1 z.2.2.2 s) q
          (fun s hmem => string_term_smooth hbarc hs s n q trig htrig
            (fun hf => hoff (Or.inr (Or.inl ⟨p12, s, hmem, hf⟩))) (hends p12 s hmem))
      exact (hterm Real.cosh Real.contDiff_cosh).prod
        (contDiffAt_const.prod (contDiffAt_const.prod (hterm Real.sinh Real.contDiff_sinh)))
    · by_cases p30 : hs.DATA_ptr.Initial_profile = 30
      · have hval : energy_current_map hbarc hs u_mu =ᶠ[𝓝 q] fun z =>
            ((parton_current (real_cmath hbarc) hs z.1 z.2.1 z.2.2.1 z.2.2.2).c0,
              (parton_current (real_cmath hbarc) hs z.1 z.2.1 z.2.2.1 z.2.2.2).c1,
              (parton_current (real_cmath hbarc) hs z.1 z.2.1 z.2.2.1 z.2.2.2).c2,
              (parton_current (real_cmath hbarc) hs z.1 z.2.1 z.2.2.1 z.2.2.2).c3) := by
          filter_upwards [ct.continuousAt.eventually (gt_mem_nhds lt)] with z hz
          unfold energy_current_map
          rw [energy_source_partons_eq (real_cmath hbarc) hs z.1 z.2.1 z.2.2.1 z.2.2.2 u_mu
            p30 h1.ne.symm h2.ne.symm h3.ne.symm hpi hsq hb (hpartons p30) hz]
          rfl
        refine ContDiffAt.congr_of_eventuallyEq ?_ hval
        have hterm : ∀ (w : parton ℝ → ℝ × ℝ × ℝ × ℝ → ℝ),
            (∀ p, ContDiff ℝ (n : WithTop ℕ∞) (w p)) →
            ContDiffAt ℝ (n : WithTop ℕ∞) (fun z : ℝ × ℝ × ℝ × ℝ =>
              parton_prefactor (real_cmath hbarc) hs
                * ((hs.parton_list.filter
                  (fun p => decide (parton_in_box hs parton.eta_s z.1 z.2.1 z.2.2.1 z.2.2.2 p))).map
                (fun p => parton_smear (real_cmath hbarc) hs parton.eta_s z.1 z.2.1 z.2.2.1
                  z.2.2.2 p * w p z)).sum) q := by
          intro w hw
          refine ContDiffAt.mul contDiffAt_const ?_
          exact contDiffAt_filter_sum n hs.parton_list
            (fun z p => parton_in_box hs parton.eta_s z.1 z.2.1 z.2.2.1 z.2.2.2 p)
            (fun z p => parton_smear (real_cmath hbarc) hs parton.eta_s z.1 z.2.1 z.2.2.1
              z.2.2.2 p * w p z) q
            (fun p hmem => parton_term_smooth hbarc hs parton.eta_s p n q (w p) (hw p)
              (fun hf => hoff (Or.inr (Or.inr ⟨p30, p, hmem, hf⟩))))
        have w0 : ∀ p : parton ℝ, ContDiff ℝ (n : WithTop ℕ∞) (fun z : ℝ × ℝ × ℝ × ℝ =>
            parton_m_perp (real_cmath hbarc) p * Real.cosh (p.rapidity - z.2.2.2)) :=
          fun p => contDiff_const.mul (Real.contDiff_cosh.comp (by fun_prop))
        have w3 : ∀ p : parton ℝ, ContDiff ℝ (n : WithTop ℕ∞) (fun z : ℝ × ℝ × ℝ × ℝ =>
            parton_m_perp (real_cmath hbarc) p * Real.sinh (p.rapidity - z.2.2.2)) :=
          fun p => contDiff_const.mul (Real.contDiff_sinh.comp (by fun_prop))
        exact (hterm _ w0).prod ((hterm (fun p _ => p.px) (fun p => contDiff_const)).prod
          ((hterm (fun p _ => p.py) (fun p => contDiff_const)).prod (hterm _ w3)))
      · have hval : energy_current_map hbarc hs u_mu
            = fun _ => ((0 : ℝ), (0 : ℝ), (0 : ℝ), (0 : ℝ)) := by
          funext z
          unfold energy_current_map get_hydro_energy_source
          simp only [p12, p30, if_false]
          rfl
        rw [hval]
        exact hzero
  · have hval : energy_current_map hbarc hs u_mu =ᶠ[𝓝 q]
        fun _ => ((0 : ℝ), (0 : ℝ), (0 : ℝ), (0 : ℝ)) := by
      filter_upwards [ct.continuousAt.eventually (lt_mem_nhds gt)] with z hz
      unfold energy_current_map
      rw [energy_source_past_cutoff (real_cmath hbarc) hs z.1 z.2.1 z.2.2.1 z.2.2.2 u_mu
        (not_lt.mpr hz.le)]
      rfl
    exact hzero.congr_of_eventuallyEq hval

theorem demo_string_line_value (eta : ℝ) (h : eta ∈ Set.Ioo (-3 : ℝ) 0) :
    (energy_current_map 1 (demo_store ℝ 12 0 1 [demo_string ℝ] []) Vec4.zero
        ((1 : ℝ), (0 : ℝ), (0 : ℝ), eta)).1
      = (if eta < -1 then Real.exp (-(4 * (eta - -1) ^ 2)) else 1)
          * (1 / (Real.sqrt Real.pi * (1 / 10)) * (1 / (Real.pi * (1 / 2) * (1 / 2)))) := by
  obtain ⟨ha, hb⟩ := h
  have hpi : (real_cmath 1).M_PI ≠ 0 := Real.pi_pos.ne.symm
  have hsq : (real_cmath 1).sqrt (real_cmath 1).M_PI ≠ 0 :=
    (Real.sqrt_pos.mpr Real.pi_pos).ne.symm
  have hstrings : ∀ s ∈ (demo_store ℝ 12 0 1 [demo_string ℝ] []).QCD_strings_list,
      s.tau_form ≠ 0 ∧ string_right (demo_store ℝ 12 0 1 [demo_string ℝ] []) s
        - string_left (demo_store ℝ 12 0 1 [demo_string ℝ] []) s ≠ 0 := by
    intro s hmem
    have hs : s = demo_string ℝ := by simpa [demo_store] using hmem
    rw [hs]
    norm_num [demo_string, demo_store, string_right, string_left]
  have hbox : string_in_box (demo_store ℝ 12 0 1 [demo_string ℝ] []) 1 0 0 eta
      (demo_string ℝ) := by
    unfold string_in_box
    norm_num [demo_string, demo_store, string_right, string_left]
    constructor <;> linarith
  have hy : string_y_interp (demo_store ℝ 12 0 1 [demo_string ℝ] []) eta (demo_string ℝ)
      = eta := by
    unfold string_y_interp
    norm_num [demo_string, demo_store, string_right, string_left]
  unfold energy_current_map
  simp only []
  rw [energy_source_strings_value (real_cmath 1) (demo_store ℝ 12 0 1 [demo_string ℝ] []) 1 0 0
    eta Vec4.zero rfl (by norm_num [demo_store]) (by norm_num [demo_store])
    (by norm_num [demo_store]) hpi hsq one_ne_zero hstrings (by norm_num [demo_store]),
    Option.getD_some]
  unfold string_current_value
  have hl : (demo_store ℝ 12 0 1 [demo_string ℝ] []).QCD_strings_list = [demo_string ℝ] := rfl
  simp only [hl, List.filter_cons, hbox, decide_True, if_true, List.filter_nil, List.map_cons,
    List.map_nil, List.sum_cons, List.sum_nil, add_zero, hy, sub_self]
  have hM : (real_cmath 1).M_PI = Real.pi := rfl
  have hS : (real_cmath 1).sqrt = Real.sqrt := rfl
  have hE : (real_cmath 1).exp = Real.exp := rfl
  have hC : (real_cmath 1).cosh = Real.cosh := rfl
  have hB : (real_cmath 1).hbarc = 1 := rfl
  rw [hM, hS, hC, Real.cosh_zero, one_mul]
  have he : e_local_value (real_cmath 1) (demo_store ℝ 12 0 1 [demo_string ℝ] []) 1 0 0 eta
      (demo_string ℝ) = if eta < -1 then Real.exp (-(4 * (eta - -1) ^ 2)) else 1 := by
    unfold e_local_value exp_eta_s_value
    rw [hE, hB]
    have hr : ¬ eta > string_right (demo_store ℝ 12 0 1 [demo_string ℝ] []) (demo_string ℝ) := by
      norm_num [demo_string, demo_store, string_right]
      linarith
    simp only [hr, if_false]
    by_cases hlt : eta < -1
    · have hlt2 : eta < string_left (demo_store ℝ 12 0 1 [demo_string ℝ] []) (demo_string ℝ) := by
        norm_num [demo_string, demo_store, string_left]
        exact hlt
      simp only [hlt, hlt2, if_true]
      norm_num [demo_string, demo_store, demo_data, string_left]
      ring
    · have hlt2 : ¬ eta < string_left (demo_store ℝ 12 0 1 [demo_string ℝ] [])
          (demo_string ℝ) := by
        norm_num [demo_string, demo_store, string_left]
        exact not_lt.mp hlt
      simp only [hlt, hlt2, if_false]
      norm_num [demo_string, demo_store, demo_data]
  rw [he]
  norm_num [demo_store]

/-- Claim C15, counterexample: the string-variant store with widths 1/10, 1/2, 1/2 and
`source_tau_max = 1` holds the single string `demo_string`, of interval `[-1, 1]`; the point
`(tau, x, y, eta_s) = (1, 0, 0, -1)` is not on a cutoff boundary (not on the global cutoff, not on
a face of the string's box), yet the map `(tau, x, y, eta_s) -> j_mu` of
`get_hydro_energy_source` is not twice continuously differentiable there. -/
theorem string_current_is_not_smooth_at_string_end :
    ¬ on_cutoff_boundary (demo_store ℝ 12 0 1 [demo_string ℝ] []) 1 0 0 (-1)
      ∧ ¬ ContDiffAt ℝ ((2 : ℕ) : WithTop ℕ∞)
          (energy_current_map 1 (demo_store ℝ 12 0 1 [demo_string ℝ] []) Vec4.zero)
          ((1 : ℝ), (0 : ℝ), (0 : ℝ), (-1 : ℝ)) := by
  constructor
  · unfold on_cutoff_boundary on_string_box_face on_parton_box_face string_strictly_in_box
    norm_num [demo_store, demo_data, demo_string, string_left, string_right]
  · intro h
    have hline : ContDiff ℝ ((2 : ℕ) : WithTop ℕ∞)
        (fun eta : ℝ => ((1 : ℝ), (0 : ℝ), (0 : ℝ), eta)) := by fun_prop
    have hg : ContDiffAt ℝ ((2 : ℕ) : WithTop ℕ∞)
        (fun eta : ℝ => (energy_current_map 1 (demo_store ℝ 12 0 1 [demo_string ℝ] [])
          Vec4.zero ((1 : ℝ), (0 : ℝ), (0 : ℝ), eta)).1) (-1) :=
      (ContDiffAt.comp (-1 : ℝ) h hline.contDiffAt).fst
    have hK : (1 / (Real.sqrt Real.pi * (1 / 10)) * (1 / (Real.pi * (1 / 2) * (1 / 2))) : ℝ)
        ≠ 0 := by
      have h1 := Real.pi_pos
      have h2 := Real.sqrt_pos.mpr Real.pi_pos
      positivity
    refine kink_not_C2 (-1) 4 _ (by norm_num) hK _ ?_ hg
    filter_upwards [Ioo_mem_nhds (by norm_num : (-3 : ℝ) < -1) (by norm_num : (-1 : ℝ) < 0)]
      with eta heta
    exact demo_string_line_value eta heta

end smoothness

section sampled_sources

variable {α : Type} [LinearOrderedField α]

end sampled_sources

section sampled_pre_integration

variable {α : Type} [LinearOrderedField α] [FloorRing α]

end sampled_pre_integration

section constant_source

end constant_source

section constant_source_example

end constant_source_example

section continuity

open Filter Topology

/-- The sum over the emitters inside their box is continuous where each emitter's term, read as
0 outside the box, is. -/
theorem continuousAt_filter_sum {ι : Type} (l : List ι)
    (P : ℝ × ℝ × ℝ × ℝ → ι → Prop) [∀ q i, Decidable (P q i)]
    (t : ℝ × ℝ × ℝ × ℝ → ι → ℝ) (q : ℝ × ℝ × ℝ × ℝ)
    (h : ∀ i ∈ l, ContinuousAt (fun z => if P z i then t z i else 0) q) :
    ContinuousAt (fun z => ((l.filter (fun i => decide (P z i))).map (t z)).sum) q := by
  induction l with
  | nil => simpa using (continuousAt_const : ContinuousAt (fun _ : ℝ × ℝ × ℝ × ℝ => (0 : ℝ)) q)
  | cons i l ih =>
    have e : (fun z => (((i :: l).filter (fun i => decide (P z i))).map (t z)).sum)
        = fun z => (if P z i then t z i else 0)
            + ((l.filter (fun i => decide (P z i))).map (t z)).sum := by
      funext z
      by_cases hz : P z i
      · simp [List.filter_cons, hz]
      · simp [List.filter_cons, hz]
    rw [e]
    exact (h i (List.mem_cons_self i l)).add
      (ih (fun j hj => h j (List.mem_cons_of_mem i hj)))

/-- The factor `exp_eta_s` of lines 201-211 is continuous in `eta_s`, also at the two ends of the
string's interval, except at `eta_s = R` when `R < L`. -/
theorem exp_eta_s_value_continuous (hbarc : ℝ) (hs : hydro_source ℝ) (s : QCD_string ℝ)
    (q : ℝ × ℝ × ℝ × ℝ)
    (horder : q.2.2.2 = string_right hs s → string_left hs s ≤ string_right hs s) :
    ContinuousAt
      (fun z : ℝ × ℝ × ℝ × ℝ => exp_eta_s_value (real_cmath hbarc) hs z.2.2.2 s) q := by
  have cd : Continuous (fun z : ℝ × ℝ × ℝ × ℝ => z.2.2.2) := by fun_prop
  have hE : (real_cmath hbarc).exp = Real.exp := rfl
  have gL : Continuous (fun z : ℝ × ℝ × ℝ × ℝ =>
      Real.exp (-((z.2.2.2 - string_left hs s) * (z.2.2.2 - string_left hs s))
        / (hs.sigma_eta * hs.sigma_eta))) := by
    simp only [div_eq_mul_inv]
    fun_prop
  have gR : Continuous (fun z : ℝ × ℝ × ℝ × ℝ =>
      Real.exp (-((z.2.2.2 - string_right hs s) * (z.2.2.2 - string_right hs s))
        / (hs.sigma_eta * hs.sigma_eta))) := by
    simp only [div_eq_mul_inv]
    fun_prop
  have hinner : Continuous (fun z : ℝ × ℝ × ℝ × ℝ =>
      if z.2.2.2 < string_left hs s then
        Real.exp (-((z.2.2.2 - string_left hs s) * (z.2.2.2 - string_left hs s))
          / (hs.sigma_eta * hs.sigma_eta))
      else 1) := by
    have h := Continuous.if_le (continuous_const : Continuous (fun _ : ℝ × ℝ × ℝ × ℝ => (1 : ℝ)))
      gL (continuous_const : Continuous (fun _ : ℝ × ℝ × ℝ × ℝ => string_left hs s)) cd
      (fun z hz => by
        have e : z.2.2.2 - string_left hs s = 0 := by rw [← hz]; exact sub_self _
        simp only [e, mul_zero, neg_zero, zero_div, Real.exp_zero])
    refine h.congr (fun z => ?_)
    by_cases hz : z.2.2.2 < string_left hs s
    · simp only [hz, if_true, not_le.mpr hz, if_false]
    · simp only [hz, if_false, not_lt.mp hz, if_true]
  have hW : ∀ z : ℝ × ℝ × ℝ × ℝ, exp_eta_s_value (real_cmath hbarc) hs z.2.2.2 s
      = if z.2.2.2 ≤ string_right hs s then
          (if z.2.2.2 < string_left hs s then
            Real.exp (-((z.2.2.2 - string_left hs s) * (z.2.2.2 - string_left hs s))
              / (hs.sigma_eta * hs.sigma_eta))
          else 1)
        else
          Real.exp (-((z.2.2.2 - string_right hs s) * (z.2.2.2 - string_right hs s))
            / (hs.sigma_eta * hs.sigma_eta)) := by
    intro z
    unfold exp_eta_s_value
    rw [hE]
    by_cases hz : z.2.2.2 ≤ string_right hs s
    · simp only [gt_iff_lt, not_lt.mpr hz, if_false, hz, if_true]
    · simp only [gt_iff_lt, not_le.mp hz, if_true, hz, if_false]
  simp only [hW]
  rcases lt_trichotomy q.2.2.2 (string_right hs s) with r | r | r
  · refine hinner.continuousAt.congr ?_
    filter_upwards [cd.continuousAt.eventually (gt_mem_nhds r)] with z hz
    simp only [hz.le, if_true]
  · have hLR := horder r
    have h := Continuous.if_le hinner gR cd
      (continuous_const : Continuous (fun _ : ℝ × ℝ × ℝ × ℝ => string_right hs s))
      (fun z hz => by
        have e : z.2.2.2 - string_right hs s = 0 := by rw [hz]; exact sub_self _
        have hl : ¬ z.2.2.2 < string_left hs s := by rw [hz]; exact not_lt.mpr hLR
        simp only [e, mul_zero, neg_zero, zero_div, Real.exp_zero, hl, if_false])
    exact h.continuousAt
  · refine gR.continuousAt.congr ?_
    filter_upwards [cd.continuousAt.eventually (lt_mem_nhds r)] with z hz
    simp only [not_le.mpr hz, if_false]

/-- The term of a string in the sums of lines 218 and 221, read as 0 outside the string's box, is
continuous at every point that is off the faces of the box, also at the ends of the string's
interval. -/
theorem string_term_continuous (hbarc : ℝ) (hs : hydro_source ℝ) (s : QCD_string ℝ)
    (q : ℝ × ℝ × ℝ × ℝ) (trig : ℝ → ℝ) (htrig : Continuous trig)
    (hface : ¬ on_string_box_face hs q.1 q.2.1 q.2.2.1 q.2.2.2 s)
    (horder : string_in_box hs q.1 q.2.1 q.2.2.1 q.2.2.2 s →
      q.2.2.2 = string_right hs s → string_left hs s ≤ string_right hs s) :
    ContinuousAt
      (fun z : ℝ × ℝ × ℝ × ℝ =>
        if string_in_box hs z.1 z.2.1 z.2.2.1 z.2.2.2 s then
          trig (string_y_interp hs z.2.2.2 s - z.2.2.2)
            * e_local_value (real_cmath hbarc) hs z.1 z.2.1 z.2.2.1 z.2.2.2 s
        else 0) q := by
  by_cases hin : string_in_box hs q.1 q.2.1 q.2.2.1 q.2.2.2 s
  · have hstrict : string_strictly_in_box hs q.1 q.2.1 q.2.2.1 q.2.2.2 s := by
      by_contra hns
      exact hface ⟨hin, hns⟩
    have hw := exp_eta_s_value_continuous hbarc hs s q (horder hin)
    have hE : (real_cmath hbarc).exp = Real.exp := rfl
    have hy : Continuous
        (fun z : ℝ × ℝ × ℝ × ℝ => string_y_interp hs z.2.2.2 s - z.2.2.2) := by
      unfold string_y_interp
      fun_prop
    have ht : Continuous (fun z : ℝ × ℝ × ℝ × ℝ =>
        1 / s.tau_form
          * Real.exp (-(z.1 - s.tau_form) * (z.1 - s.tau_form)
              / (hs.sigma_tau * hs.sigma_tau))
          * Real.exp (-((z.2.1 - s.x_perp) * (z.2.1 - s.x_perp)
                + (z.2.2.1 - s.y_perp) * (z.2.2.1 - s.y_perp)) / (hs.sigma_x * hs.sigma_x))) := by
      simp only [div_eq_mul_inv]
      fun_prop
    have hterm : ContinuousAt (fun z : ℝ × ℝ × ℝ × ℝ =>
        trig (string_y_interp hs z.2.2.2 s - z.2.2.2)
          * e_local_value (real_cmath hbarc) hs z.1 z.2.1 z.2.2.1 z.2.2.2 s) q := by
      unfold e_local_value
      rw [hE]
      exact (htrig.comp hy).continuousAt.mul ((ht.continuousAt.mul hw).mul continuousAt_const)
    refine hterm.congr ?_
    filter_upwards [string_in_box_eventually hs s q hstrict] with z hz
    simp only [hz, if_true]
  · refine (continuousAt_const (y := (0 : ℝ))).congr ?_
    filter_upwards [string_not_in_box_eventually hs s q hin] with z hz
    simp only [hz, if_false]

/-- The map `(tau, x, y, eta_s) -> j_mu` is continuous at every point that is off the cutoff
boundaries, also at the ends of the strings' intervals, as long as no string whose box holds the
point has its right end at `eta_s` and below its left end. -/
theorem energy_current_map_continuous (hbarc : ℝ) (hs : hydro_source ℝ) (u_mu : Vec4 ℝ)
    (q : ℝ × ℝ × ℝ × ℝ)
    (h1 : 0 < hs.sigma_tau) (h2 : 0 < hs.sigma_x) (h3 : 0 < hs.sigma_eta) (hb : hbarc ≠ 0)
    (hstrings : hs.DATA_ptr.Initial_profile = 12 → ∀ s ∈ hs.QCD_strings_list,
      s.tau_form ≠ 0 ∧ string_right hs s - string_left hs s ≠ 0)
    (hpartons : hs.DATA_ptr.Initial_profile = 30 → ∀ p ∈ hs.parton_list, p.tau ≠ 0)
    (hoff : ¬ on_cutoff_boundary hs q.1 q.2.1 q.2.2.1 q.2.2.2)
    (horder : hs.DATA_ptr.Initial_profile = 12 → ∀ s ∈ hs.QCD_strings_list,
      string_in_box hs q.1 q.2.1 q.2.2.1 q.2.2.2 s →
        q.2.2.2 = string_right hs s → string_left hs s ≤ string_right hs s) :
    ContinuousAt (energy_current_map hbarc hs u_mu) q := by
  by_cases p12 : hs.DATA_ptr.Initial_profile = 12
  · have hpi : (real_cmath hbarc).M_PI ≠ 0 := Real.pi_pos.ne.symm
    have hsq : (real_cmath hbarc).sqrt (real_cmath hbarc).M_PI ≠ 0 :=
      (Real.sqrt_pos.mpr Real.pi_pos).ne.symm
    have ct : Continuous (fun z : ℝ × ℝ × ℝ × ℝ => z.1 - hs.source_tau_max) := by fun_prop
    have hg : q.1 - hs.source_tau_max ≠ 5 * hs.sigma_tau := fun h => hoff (Or.inl h)
    rcases lt_or_gt_of_ne hg with lt | gt
    · have hval : (fun z : ℝ × ℝ × ℝ × ℝ =>
          ((string_current_value (real_cmath hbarc) hs z.1 z.2.1 z.2.2.1 z.2.2.2).c0,
            (string_current_value (real_cmath hbarc) hs z.1 z.2.1 z.2.2.1 z.2.2.2).c1,
            (string_current_value (real_cmath hbarc) hs z.1 z.2.1 z.2.2.1 z.2.2.2).c2,
            (string_current_value (real_cmath hbarc) hs z.1 z.2.1 z.2.2.1 z.2.2.2).c3))
          =ᶠ[𝓝 q] energy_current_map hbarc hs u_mu := by
        filter_upwards [ct.continuousAt.eventually (gt_mem_nhds lt)] with z hz
        unfold energy_current_map
        rw [energy_source_strings_value (real_cmath hbarc) hs z.1 z.2.1 z.2.2.1 z.2.2.2 u_mu
          p12 h1.ne.symm h2.ne.symm h3.ne.symm hpi hsq hb (hstrings p12) hz]
        rfl
      refine ContinuousAt.congr ?_ hval
      have hterm : ∀ (trig : ℝ → ℝ), Continuous trig →
          ContinuousAt (fun z : ℝ × ℝ × ℝ × ℝ =>
            ((hs.QCD_strings_list.filter
                (fun s => decide (string_in_box hs z.1 z.2.1 z.2.2.1 z.2.2.2 s))).map
              (fun s => trig (string_y_interp hs z.2.2.2 s - z.2.2.2)
                * e_local_value (real_cmath hbarc) hs z.1 z.2.1 z.2.2.1 z.2.2.2 s)).sum
              * (1 / ((real_cmath hbarc).sqrt (real_cmath hbarc).M_PI * hs.sigma_tau)
                  * (1 / ((real_cmath hbarc).M_PI * hs.sigma_x * hs.sigma_x)))) q := by
        intro trig htrig
        refine ContinuousAt.mul ?_ continuousAt_const
        exact continuousAt_filter_sum hs.QCD_strings_list
          (fun z s => string_in_box hs z.1 z.2.1 z.2.2.1 z.2.2.2 s)
          (fun z s => trig (string_y_interp hs z.2.2.2 s - z.2.2.2)
            * e_local_value (real_cmath hbarc) hs z.1 z.2.1 z.2.2.1 z.2.2.2 s) q
          (fun s hmem => string_term_continuous hbarc hs s q trig htrig
            (fun hf => hoff (Or.inr (Or.inl ⟨p12, s, hmem, hf⟩))) (horder p12 s hmem))
      exact (hterm Real.cosh Real.continuous_cosh).prod
        (continuousAt_const.prod (continuousAt_const.prod
          (hterm Real.sinh Real.continuous_sinh)))
    · have hval : (fun _ : ℝ × ℝ × ℝ × ℝ => ((0 : ℝ), (0 : ℝ), (0 : ℝ), (0 : ℝ)))
          =ᶠ[𝓝 q] energy_current_map hbarc hs u_mu := by
        filter_upwards [ct.continuousAt.eventually (lt_mem_nhds gt)] with z hz
        unfold energy_current_map
        rw [energy_source_past_cutoff (real_cmath hbarc) hs z.1 z.2.1 z.2.2.1 z.2.2.2 u_mu
          (not_lt.mpr hz.le)]
        rfl
      exact continuousAt_const.congr hval
  · exact (energy_current_map_smooth hbarc hs u_mu q 0 h1 h2 h3 hb hstrings hpartons hoff
      (fun h => absurd h p12)).continuousAt

theorem reversed_string_line_value (eta : ℝ) (h : eta ∈ Set.Ico (-1 : ℝ) 0) :
    (energy_current_map 1 (demo_store ℝ 12 0 1 [reversed_string ℝ] []) Vec4.zero
        ((1 : ℝ), (0 : ℝ), (0 : ℝ), eta)).1
      = Real.cosh (-eta - eta)
          * (if eta > -1 then Real.exp (-((eta - -1) * (eta - -1)) / (1 / 2 * (1 / 2)))
              else Real.exp (-((eta - 1) * (eta - 1)) / (1 / 2 * (1 / 2))))
          * (1 / (Real.sqrt Real.pi * (1 / 10)) * (1 / (Real.pi * (1 / 2) * (1 / 2)))) := by
  obtain ⟨ha, hb⟩ := h
  have hpi : (real_cmath 1).M_PI ≠ 0 := Real.pi_pos.ne.symm
  have hsq : (real_cmath 1).sqrt (real_cmath 1).M_PI ≠ 0 :=
    (Real.sqrt_pos.mpr Real.pi_pos).ne.symm
  have hstrings : ∀ s ∈ (demo_store ℝ 12 0 1 [reversed_string ℝ] []).QCD_strings_list,
      s.tau_form ≠ 0 ∧ string_right (demo_store ℝ 12 0 1 [reversed_string ℝ] []) s
        - string_left (demo_store ℝ 12 0 1 [reversed_string ℝ] []) s ≠ 0 := by
    intro s hmem
    have hs : s = reversed_string ℝ := by simpa [demo_store] using hmem
    rw [hs]
    norm_num [reversed_string, demo_store, string_right, string_left]
  have hbox : string_in_box (demo_store ℝ 12 0 1 [reversed_string ℝ] []) 1 0 0 eta
      (reversed_string ℝ) := by
    unfold string_in_box
    norm_num [reversed_string, demo_store, string_right, string_left]
    constructor <;> linarith
  have hy : string_y_interp (demo_store ℝ 12 0 1 [reversed_string ℝ] []) eta
      (reversed_string ℝ) = -eta := by
    unfold string_y_interp
    norm_num [reversed_string, demo_store, string_right, string_left]
    ring
  unfold energy_current_map
  simp only []
  rw [energy_source_strings_value (real_cmath 1) (demo_store ℝ 12 0 1 [reversed_string ℝ] [])
    1 0 0 eta Vec4.zero rfl (by norm_num [demo_store]) (by norm_num [demo_store])
    (by norm_num [demo_store]) hpi hsq one_ne_zero hstrings (by norm_num [demo_store]),
    Option.getD_some]
  unfold string_current_value
  have hl : (demo_store ℝ 12 0 1 [reversed_string ℝ] []).QCD_strings_list
      = [reversed_string ℝ] := rfl
  simp only [hl, List.filter_cons, hbox, decide_True, if_true, List.filter_nil, List.map_cons,
    List.map_nil, List.sum_cons, List.sum_nil, add_zero, hy]
  have hM : (real_cmath 1).M_PI = Real.pi := rfl
  have hS : (real_cmath 1).sqrt = Real.sqrt := rfl
  have hE : (real_cmath 1).exp = Real.exp := rfl
  have hC : (real_cmath 1).cosh = Real.cosh := rfl
  have hB : (real_cmath 1).hbarc = 1 := rfl
  rw [hM, hS, hC]
  have he : e_local_value (real_cmath 1) (demo_store ℝ 12 0 1 [reversed_string ℝ] []) 1 0 0 eta
      (reversed_string ℝ)
      = if eta > -1 then Real.exp (-((eta - -1) * (eta - -1)) / (1 / 2 * (1 / 2)))
          else Real.exp (-((eta - 1) * (eta - 1)) / (1 / 2 * (1 / 2))) := by
    unfold e_local_value exp_eta_s_value
    rw [hE, hB]
    have hR : string_right (demo_store ℝ 12 0 1 [reversed_string ℝ] []) (reversed_string ℝ)
        = -1 := by
      norm_num [reversed_string, demo_store, string_right]
    have hL : string_left (demo_store ℝ 12 0 1 [reversed_string ℝ] []) (reversed_string ℝ)
        = 1 := by
      norm_num [reversed_string, demo_store, string_left]
    have hlt1 : eta < 1 := by linarith
    simp only [hR, hL, hlt1, if_true]
    by_cases hgt : eta > -1
    · simp only [hgt, if_true]
      norm_num [reversed_string, demo_store, demo_data]
    · simp only [hgt, if_false]
      norm_num [reversed_string, demo_store, demo_data]
  rw [he]
  norm_num [demo_store]

/-- With a reversed interval (`R < L`) the current jumps at `eta_s = R`: for the store holding
`reversed_string` the map `(tau, x, y, eta_s) -> j_mu` is not continuous at `(1, 0, 0, -1)`,
a point that is on no cutoff boundary. -/
theorem reversed_string_current_is_discontinuous :
    ¬ on_cutoff_boundary (demo_store ℝ 12 0 1 [reversed_string ℝ] []) 1 0 0 (-1)
      ∧ ¬ ContinuousAt
          (energy_current_map 1 (demo_store ℝ 12 0 1 [reversed_string ℝ] []) Vec4.zero)
          ((1 : ℝ), (0 : ℝ), (0 : ℝ), (-1 : ℝ)) := by
  constructor
  · unfold on_cutoff_boundary on_string_box_face on_parton_box_face string_strictly_in_box
    norm_num [demo_store, demo_data, reversed_string, string_left, string_right]
  · intro h
    have hline : Continuous (fun eta : ℝ => ((1 : ℝ), (0 : ℝ), (0 : ℝ), eta)) := by fun_prop
    have hg : ContinuousAt
        (fun eta : ℝ => (energy_current_map 1 (demo_store ℝ 12 0 1 [reversed_string ℝ] [])
          Vec4.zero ((1 : ℝ), (0 : ℝ), (0 : ℝ), eta)).1) (-1) :=
      (ContinuousAt.comp (f := fun eta : ℝ => ((1 : ℝ), (0 : ℝ), (0 : ℝ), eta)) h
        hline.continuousAt).fst
    have hK : (0 : ℝ) < 1 / (Real.sqrt Real.pi * (1 / 10)) * (1 / (Real.pi * (1 / 2) * (1 / 2)))
        := by
      have h1 := Real.pi_pos
      have h2 := Real.sqrt_pos.mpr Real.pi_pos
      positivity
    have hr : Continuous (fun eta : ℝ => Real.cosh (-eta - eta)
        * Real.exp (-((eta - -1) * (eta - -1)) / (1 / 2 * (1 / 2)))
        * (1 / (Real.sqrt Real.pi * (1 / 10)) * (1 / (Real.pi * (1 / 2) * (1 / 2))))) := by
      have hc : Continuous (fun eta : ℝ => Real.cosh (-eta - eta)) :=
        Real.continuous_cosh.comp (by fun_prop)
      have he : Continuous (fun eta : ℝ =>
          Real.exp (-((eta - -1) * (eta - -1)) / (1 / 2 * (1 / 2)))) := by
        simp only [div_eq_mul_inv]
        fun_prop
      exact (hc.mul he).mul continuous_const
    have t1 := hg.tendsto.mono_left (nhdsWithin_le_nhds (s := Set.Ioi (-1 : ℝ)))
    have t2 : Tendsto
        (fun eta : ℝ => (energy_current_map 1 (demo_store ℝ 12 0 1 [reversed_string ℝ] [])
          Vec4.zero ((1 : ℝ), (0 : ℝ), (0 : ℝ), eta)).1) (𝓝[>] (-1 : ℝ))
        (𝓝 (Real.cosh (-(-1 : ℝ) - -1)
          * Real.exp (-(((-1 : ℝ) - -1) * ((-1 : ℝ) - -1)) / (1 / 2 * (1 / 2)))
          * (1 / (Real.sqrt Real.pi * (1 / 10)) * (1 / (Real.pi * (1 / 2) * (1 / 2)))))) := by
      refine Tendsto.congr' ?_ (hr.continuousAt.tendsto.mono_left nhdsWithin_le_nhds)
      filter_upwards [Ioo_mem_nhdsWithin_Ioi (show (-1 : ℝ) ∈ Set.Ico (-1 : ℝ) 0 by norm_num)]
        with eta heta
      rw [reversed_string_line_value eta ⟨heta.1.le, heta.2⟩, if_pos heta.1]
    have huniq := tendsto_nhds_unique t1 t2
    rw [reversed_string_line_value (-1) (by norm_num)] at huniq
    have hcosh : 0 < Real.cosh (-(-1 : ℝ) - -1) := Real.cosh_pos _
    have hne : ¬ ((-1 : ℝ) > -1) := lt_irrefl _
    rw [if_neg hne] at huniq
    have h3 := mul_right_cancel₀ hK.ne.symm huniq
    have h4 := mul_left_cancel₀ hcosh.ne.symm h3
    have h5 : Real.exp (-(((-1 : ℝ) - 1) * ((-1 : ℝ) - 1)) / (1 / 2 * (1 / 2))) < 1 := by
      have h7 := Real.exp_lt_exp.mpr
        (show -(((-1 : ℝ) - 1) * ((-1 : ℝ) - 1)) / (1 / 2 * (1 / 2)) < 0 by norm_num)
      rwa [Real.exp_zero] at h7
    have h6 : Real.exp (-(((-1 : ℝ) - -1) * ((-1 : ℝ) - -1)) / (1 / 2 * (1 / 2))) = 1 := by
      norm_num
    rw [h6] at h4
    exact absurd h4 (ne_of_lt h5)

/-- Claim C15, amended: for every fixed store with positive widths and `hbarc != 0` whose strings
(string variant) have `tau_form != 0` and `L != R` and whose partons (parton variant) have
`tau != 0`, at every point that does not lie on a cutoff boundary (the global proper-time cutoff,
or a face of some emitter's box cutoff) the map `(tau, x, y, eta_s) -> j_mu` computed by
`get_hydro_energy_source` is continuous, the ends of the strings' intervals included, provided no
string whose box holds the point has its right end `R = eta_s` below its left end `L`; and it is
`n` times continuously differentiable for every `n` provided, in the string variant, the point is
not at an end of the interval of a string whose box holds it: not at `eta_s = R`, and not at
`eta_s = L` unless `R < L`. For strings with `L < R` the two provisos read: continuous everywhere
off the cutoff boundaries, smooth off the cutoff boundaries and off `eta_s = L`, `eta_s = R`. -/
theorem current_is_smooth_off_boundaries_and_string_ends (hbarc : ℝ) (hs : hydro_source ℝ)
    (u_mu : Vec4 ℝ) (tau x y eta_s : ℝ)
    (h1 : 0 < hs.sigma_tau) (h2 : 0 < hs.sigma_x) (h3 : 0 < hs.sigma_eta) (hb : hbarc ≠ 0)
    (hstrings : hs.DATA_ptr.Initial_profile = 12 → ∀ s ∈ hs.QCD_strings_list,
      s.tau_form ≠ 0 ∧ string_right hs s - string_left hs s ≠ 0)
    (hpartons : hs.DATA_ptr.Initial_profile = 30 → ∀ p ∈ hs.parton_list, p.tau ≠ 0)
    (hoff : ¬ on_cutoff_boundary hs tau x y eta_s) :
    ((hs.DATA_ptr.Initial_profile = 12 → ∀ s ∈ hs.QCD_strings_list,
        string_in_box hs tau x y eta_s s →
          eta_s = string_right hs s → string_left hs s ≤ string_right hs s) →
        ContinuousAt (energy_current_map hbarc hs u_mu) (tau, x, y, eta_s))
      ∧ ((hs.DATA_ptr.Initial_profile = 12 → ∀ s ∈ hs.QCD_strings_list,
          string_in_box hs tau x y eta_s s →
            eta_s ≠ string_right hs s
              ∧ (eta_s = string_left hs s → string_right hs s < string_left hs s)) →
          ∀ n : ℕ, ContDiffAt ℝ (n : WithTop ℕ∞) (energy_current_map hbarc hs u_mu)
            (tau, x, y, eta_s)) :=
  ⟨fun horder => energy_current_map_continuous hbarc hs u_mu (tau, x, y, eta_s) h1 h2 h3 hb
      hstrings hpartons hoff horder,
    fun hends n => energy_current_map_smooth hbarc hs u_mu (tau, x, y, eta_s) n h1 h2 h3 hb
      hstrings hpartons hoff hends⟩

/-- Claim C15 at the string of the counterexample: the map is continuous at the string end
`(1, 0, 0, -1)` and smooth inside the interval, at `(1, 0, 0, 0)`. -/
theorem current_is_smooth_off_boundaries_and_string_ends_witness :
    ContinuousAt (energy_current_map 1 (demo_store ℝ 12 0 1 [demo_string ℝ] []) Vec4.zero)
        ((1 : ℝ), (0 : ℝ), (0 : ℝ), (-1 : ℝ))
      ∧ ∀ n : ℕ, ContDiffAt ℝ (n : WithTop ℕ∞)
          (energy_current_map 1 (demo_store ℝ 12 0 1 [demo_string ℝ] []) Vec4.zero)
          ((1 : ℝ), (0 : ℝ), (0 : ℝ), (0 : ℝ)) := by
  have hstrings : (demo_store ℝ 12 0 1 [demo_string ℝ] []).DATA_ptr.Initial_profile = 12 →
      ∀ s ∈ (demo_store ℝ 12 0 1 [demo_string ℝ] []).QCD_strings_list,
        s.tau_form ≠ 0 ∧ string_right (demo_store ℝ 12 0 1 [demo_string ℝ] []) s
          - string_left (demo_store ℝ 12 0 1 [demo_string ℝ] []) s ≠ 0 := by
    intro _ s hmem
    have hs : s = demo_string ℝ := by simpa [demo_store] using hmem
    rw [hs]
    norm_num [demo_string, demo_store, string_right, string_left]
  have hpartons : (demo_store ℝ 12 0 1 [demo_string ℝ] []).DATA_ptr.Initial_profile = 30 →
      ∀ p ∈ (demo_store ℝ 12 0 1 [demo_string ℝ] []).parton_list, p.tau ≠ 0 := by
    intro hp
    exact absurd hp (by decide)
  constructor
  · refine (current_is_smooth_off_boundaries_and_string_ends 1
      (demo_store ℝ 12 0 1 [demo_string ℝ] []) Vec4.zero 1 0 0 (-1)
      (by norm_num [demo_store]) (by norm_num [demo_store]) (by norm_num [demo_store])
      one_ne_zero hstrings hpartons ?_).1 ?_
    · unfold on_cutoff_boundary on_string_box_face on_parton_box_face string_strictly_in_box
      norm_num [demo_store, demo_data, demo_string, string_left, string_right]
    · intro _ s hmem _ _
      have hs : s = demo_string ℝ := by simpa [demo_store] using hmem
      rw [hs]
      norm_num [demo_string, demo_store, string_right, string_left]
  · refine (current_is_smooth_off_boundaries_and_string_ends 1
      (demo_store ℝ 12 0 1 [demo_string ℝ] []) Vec4.zero 1 0 0 0
      (by norm_num [demo_store]) (by norm_num [demo_store]) (by norm_num [demo_store])
      one_ne_zero hstrings hpartons ?_).2 ?_
    · unfold on_cutoff_boundary on_string_box_face on_parton_box_face string_strictly_in_box
      norm_num [demo_store, demo_data, demo_string, string_left, string_right]
    · intro _ s hmem _
      have hs : s = demo_string ℝ := by simpa [demo_store] using hmem
      rw [hs]
      norm_num [demo_string, demo_store, string_right, string_left]

end continuity

section ingestion_defects

/-- C6 fails on the code: for the two-line strings file `header`, `1 1 1 0 0 -1 1 -1 1` whose
last line has no final newline, the `getline` of line 62 reads the record and sets `eofbit`, the
test of line 63 then skips the loop, and the constructor returns a store with no string and
`source_tau_max = 0` instead of one record and `source_tau_max = 1`; with the final newline
present the same file gives the record and `source_tau_max = 1`. -/
theorem unterminated_last_line_is_dropped (m : cmath ℚ) :
    (∃ hs, hydro_source.ctor m (demo_lib ℚ) unterminated_files 10 (demo_data ℚ 12 0)
          = some (Except.ok hs)
        ∧ hs.QCD_strings_list = [] ∧ hs.source_tau_max = 0)
      ∧ ∃ hs, hydro_source.ctor m (demo_lib ℚ) demo_files 10 (demo_data ℚ 12 0)
          = some (Except.ok hs)
        ∧ hs.QCD_strings_list = [demo_string ℚ] ∧ hs.source_tau_max = 1 :=
  ⟨⟨_, rfl, rfl, rfl⟩, ⟨_, rfl, rfl, rfl⟩⟩

/-- C9 fails on the code: for the AMPT variant with an AMPT file that opens but starts with the
word `npartons`, every required file opens, yet the constructor neither fails nor returns a
store: the extraction of line 119 sets `failbit` alone, every `getline` then fails without
reaching the end of the file, and the loop of lines 123-149 never ends. -/
theorem construction_never_ends_on_bad_count (m : cmath ℚ) :
    required_files_open (demo_data ℚ 30 0) bad_count_files
      ∧ ∀ fuel, hydro_source.ctor m (demo_lib ℚ) bad_count_files fuel (demo_data ℚ 30 0)
          = none := by
  constructor
  · unfold required_files_open
    exact ⟨fun h => absurd h (by decide), fun _ => by decide⟩
  · intro fuel
    have h := read_in_AMPT_partons_never_ends m (demo_lib ℚ) bad_count_files
      { DATA_ptr := demo_data ℚ 30 0, source_tau_max := 0, sigma_tau := 1 / 10,
        sigma_x := 1 / 2, sigma_eta := 1 / 2,
        volume := (demo_data ℚ 30 0).delta_x * (demo_data ℚ 30 0).delta_y
          * (demo_data ℚ 30 0).delta_eta,
        string_dump_mode := (demo_lib ℚ).member_mode, QCD_strings_list := [],
        parton_list := [] } fuel (by decide) (by decide) (by decide)
    have h12 : ¬ ((demo_data ℚ 30 0).Initial_profile = 12) := by decide
    have h30 : (demo_data ℚ 30 0).Initial_profile = 30 := rfl
    simp only [hydro_source.ctor, h12, h30, if_true, if_false]
    exact h

end ingestion_defects

end MUSIC
